import Mathlib

/-!
# HTTP/1.1 protocol adapter: `api/agent/protocol/http.go`

A shallow embedding of `DumpRequestTo` (the request encoder) and of `Dispatch`
(the response dispatcher) together with the standard-library routines they
call, followed by theorems about the bytes and the calls they produce.

Modelling conventions

* A Go `string` / `[]byte` is a Lean `String`; `len` is the UTF-8 byte size.
* An `io.Writer` is a `Writer`: the log of the `Write` calls it has received
  and a response function giving the error (if any) of the i-th call.  A writer
  honours the `io.Writer` contract: a call either takes all its data or
  returns an error.
* A request body (`io.ReadCloser`) is the finite sequence of data blocks its
  `Read` calls deliver, ended by `io.EOF` or by a read error.
* A Go `error` is an `Option Error`, `none` standing for `nil`.
* A nil-pointer fault is the result `none` of `DumpRequestTo`.
* Go releases differ on whether `Header.WriteSubset` skips a key that is not a
  valid header field name; the flag `checkNames` selects the behaviour and the
  theorems hold for both values.
* `http.ReadResponse` and `(*Response).Write` are parameters of `Dispatch`
  (`NetHTTP`); an `http.ResponseWriter` is its header map and the log of the
  header additions, status codes and body writes it has received.
-/

namespace Protocol

/-! ## Data model -/

/-- A Go `error` value that is not nil, identified by its message. -/
abbrev Error := String

/-- The fields of `net/url.URL` the encoder reads.  `EscapedPath` holds the value
of the method `u.EscapedPath()` (computed by `net/url` from `Path`/`RawPath`). -/
structure URL where
  Scheme : String
  Opaque : String
  Host : String
  EscapedPath : String
  ForceQuery : Bool
  RawQuery : String
deriving DecidableEq, Repr

/-- A request body: the blocks of data delivered by successive `Read` calls,
then `io.EOF` (`err = none`) or a read error. -/
structure Body where
  reads : List String
  err : Option Error
deriving DecidableEq, Repr

/-- An `http.Header`: the entries of a `map[string][]string`, each key with its
values in stored order.  The entries are listed in the order in which their
keys were inserted; the Go map itself keeps no such order. -/
abbrev Header := List (String × List String)

/-- The fields of `http.Request` the encoder reads.  `URL = none` is a nil
`*url.URL`; `Body = none` is a nil body. -/
structure Request where
  Method : String
  RequestURI : String
  URL : Option URL
  ProtoMajor : Int
  ProtoMinor : Int
  Host : String
  TransferEncoding : List String
  Close : Bool
  Header : Header
  Body : Option Body
deriving DecidableEq, Repr

/-- An `io.Writer`: `calls` is the data of every `Write` call received so far,
oldest first; `respond i p` is the error returned by the call number `i`
(counting from 0) when it is given the data `p`. -/
structure Writer where
  calls : List String
  respond : Nat → String → Option Error

/-- One `Write` call: the call is logged and answered by the writer. -/
def Writer.Write (w : Writer) (p : String) : Writer × Option Error :=
  ({ w with calls := w.calls ++ [p] }, w.respond w.calls.length p)

/-- Concatenation of a list of byte strings. -/
def concat : List String → String
  | [] => ""
  | s :: ss => s ++ concat ss

/-- The bytes a writer has been handed, in order. -/
def Writer.bytes (w : Writer) : String := concat w.calls

/-- A writer none of whose calls fails. -/
def Writer.Accepting (w : Writer) : Prop := ∀ i p, w.respond i p = none

/-- A new writer that accepts every call. -/
def Writer.sink : Writer := ⟨[], fun _ _ => none⟩

/-- A new writer every call of which fails with the error `e`. -/
def Writer.broken (e : Error) : Writer := ⟨[], fun _ _ => some e⟩

/-! ## Standard-library routines -/

/-- `strings.HasPrefix(s, p)`. -/
def HasPrefix (s p : String) : Bool := p.data.isPrefixOf s.data

/-- `strings.Join(xs, sep)`. -/
def Join : List String → String → String
  | [], _ => ""
  | [x], _ => x
  | x :: y :: xs, sep => x ++ sep ++ Join (y :: xs) sep

/-- The verb `%d` of `fmt` applied to an `int`. -/
def fmtInt (i : Int) : String := toString i

/-- The verb `%x` of `fmt` applied to a non-negative `int`. -/
def fmtHex (n : Nat) : String := String.mk (Nat.toDigits 16 n)

/-- `len(s)`: the number of bytes of `s`. -/
def len (s : String) : Nat := s.utf8ByteSize

/-- `(*url.URL).RequestURI`: the encoded `path?query` or `opaque?query`. -/
def URL.RequestURI (u : URL) : String :=
  let result := u.Opaque
  let result :=
    if result = "" then
      let result := u.EscapedPath
      if result = "" then "/" else result
    else
      if HasPrefix result "//" then u.Scheme ++ ":" ++ result else result
  if u.ForceQuery || u.RawQuery ≠ "" then result ++ "?" ++ u.RawQuery else result

/-- `headerNewlineToSpace.Replace`: every CR and LF becomes a space. -/
def headerNewlineToSpace (v : String) : String :=
  String.mk (v.data.map fun c => if c = '\n' ∨ c = '\r' then ' ' else c)

/-- The bytes `textproto.TrimString` removes at both ends. -/
def isASCIISpace (c : Char) : Bool := c = ' ' || c = '\t' || c = '\n' || c = '\r'

/-- `textproto.TrimString`: leading and trailing ASCII white space removed. -/
def TrimString (v : String) : String :=
  String.mk ((v.data.dropWhile isASCIISpace).reverse.dropWhile isASCIISpace).reverse

/-- `httpguts.IsTokenRune`: the characters allowed in a header field name. -/
def IsTokenRune (c : Char) : Bool :=
  c.isAlphanum || c.toNat ∈ [33, 35, 36, 37, 38, 39, 42, 43, 45, 46, 94, 95, 96, 124, 126]

/-- `httpguts.ValidHeaderFieldName`. -/
def ValidHeaderFieldName (k : String) : Bool := k.data.all IsTokenRune && k.data ≠ []

/-- `Header.sortedKeyValues`: the entries whose key is not excluded, sorted by
key.  Keys are compared as Go compares strings, position by position. -/
def sortedKeyValues (h : Header) (exclude : String → Bool) : Header :=
  (h.filter fun kv => !exclude kv.1).insertionSort fun a b => a.1.data ≤ b.1.data

/-- The four `WriteString` calls of one header line, stopping at the first that
fails. -/
def writeStrings : Writer → List String → Writer × Option Error
  | w, [] => (w, none)
  | w, s :: ss =>
    match w.Write s with
    | (w1, some err) => (w1, some err)
    | (w1, none) => writeStrings w1 ss

/-- The inner loop of `Header.WriteSubset` over the values of one key. -/
def writeValues (key : String) : Writer → List String → Writer × Option Error
  | w, [] => (w, none)
  | w, v :: vs =>
    let v1 := headerNewlineToSpace v
    let v2 := TrimString v1
    match writeStrings w [key, ": ", v2, "\r\n"] with
    | (w1, some err) => (w1, some err)
    | (w1, none) => writeValues key w1 vs

/-- The outer loop of `Header.WriteSubset` over the sorted entries.  With
`checkNames` set, an entry whose key is not a valid field name is skipped (Go
releases that call `httpguts.ValidHeaderFieldName` here); without it every
entry is written (the releases before that check was added). -/
def writeEntries (checkNames : Bool) : Writer → Header → Writer × Option Error
  | w, [] => (w, none)
  | w, kv :: kvs =>
    if checkNames && !ValidHeaderFieldName kv.1 then writeEntries checkNames w kvs
    else
      match writeValues kv.1 w kv.2 with
      | (w1, some err) => (w1, some err)
      | (w1, none) => writeEntries checkNames w1 kvs

/-- `Header.WriteSubset(w, exclude)`. -/
def WriteSubset (checkNames : Bool) (w : Writer) (h : Header) (exclude : String → Bool) :
    Writer × Option Error :=
  writeEntries checkNames w (sortedKeyValues h exclude)

/-- `chunkedWriter.Write` of `net/http/internal`, on the wire `w`. -/
def chunkedWrite (w : Writer) (data : String) : Writer × Option Error :=
  if len data = 0 then (w, none)
  else
    match w.Write (fmtHex (len data) ++ "\r\n") with
    | (w1, some err) => (w1, some err)
    | (w1, none) =>
      match w1.Write data with
      | (w2, some err) => (w2, some err)
      | (w2, none) => w2.Write "\r\n"

/-- `chunkedWriter.Close`: the final chunk of length zero, without the CRLF that
follows the trailers. -/
def chunkedClose (w : Writer) : Writer × Option Error := w.Write "0\r\n"

/-- The read/write loop of `io.Copy(dst, src)`; `write` is the `Write` method of
the destination and `w` the writer underneath it. -/
def Copy (write : Writer → String → Writer × Option Error) :
    Writer → List String → Option Error → Writer × Option Error
  | w, [], rerr => (w, rerr)
  | w, b :: bs, rerr =>
    if len b > 0 then
      match write w b with
      | (w1, some ew) => (w1, some ew)
      | (w1, none) => Copy write w1 bs rerr
    else Copy write w bs rerr

/-! ## The code of `http.go` -/

/-- `valueOrDefault`: the value if non-empty, the default otherwise. -/
def valueOrDefault (value def_ : String) : String :=
  if value ≠ "" then value else def_

/-- `reqWriteExcludeHeaderDump`: a map lookup gives true on these three keys and
false on a key that is absent. -/
def reqWriteExcludeHeaderDump (k : String) : Bool :=
  k = "Host" || k = "Transfer-Encoding" || k = "Trailer"

/-- `DumpRequestTo(w, req)`.  The result is `none` when the call faults on a nil
`req.URL`, and otherwise the writer after the call with the error returned. -/
def DumpRequestTo (checkNames : Bool) (w : Writer) (req : Request) :
    Option (Writer × Option Error) :=
  let reqURI? : Option String :=
    if req.RequestURI = "" then req.URL.map URL.RequestURI else some req.RequestURI
  match reqURI? with
  | none => none
  | some reqURI =>
    let w := (w.Write (valueOrDefault req.Method "GET" ++ " " ++ reqURI ++ " HTTP/" ++
      fmtInt req.ProtoMajor ++ "." ++ fmtInt req.ProtoMinor ++ "\r\n")).1
    let absRequestURI :=
      HasPrefix req.RequestURI "http://" || HasPrefix req.RequestURI "https://"
    let w :=
      if !absRequestURI then
        let host := req.Host
        let host :=
          if host = "" then
            match req.URL with
            | some u => u.Host
            | none => host
          else host
        if host ≠ "" then (w.Write ("Host: " ++ host ++ "\r\n")).1 else w
      else w
    let chunked :=
      decide (req.TransferEncoding.length > 0) && req.TransferEncoding.head? == some "chunked"
    let w :=
      if req.TransferEncoding.length > 0 then
        (w.Write ("Transfer-Encoding: " ++ Join req.TransferEncoding "," ++ "\r\n")).1
      else w
    let w := if req.Close then (w.Write "Connection: close\r\n").1 else w
    match WriteSubset checkNames w req.Header reqWriteExcludeHeaderDump with
    | (w, some err) => some (w, some err)
    | (w, none) =>
      let w := (w.Write "\r\n").1
      match req.Body with
      | none => some (w, none)
      | some body =>
        if chunked then
          let r := Copy chunkedWrite w body.reads body.err
          let w := (chunkedClose r.1).1
          let w := (w.Write "\r\n").1
          some (w, r.2)
        else
          let r := Copy Writer.Write w body.reads body.err
          some (r.1, r.2)

/-! ## The encoding, step by step -/

/-- The value cleaning applied by `Header.WriteSubset` to a header value. -/
def cleanValue (v : String) : String := TrimString (headerNewlineToSpace v)

/-- Whether the entry under key `k` is written by `Header.WriteSubset`. -/
def keyWritten (checkNames : Bool) (k : String) : Bool :=
  !(checkNames && !ValidHeaderFieldName k)

/-- The `Write` calls of the generic header pass on an accepting writer. -/
def headerCalls (checkNames : Bool) (h : Header) : List String :=
  ((sortedKeyValues h reqWriteExcludeHeaderDump).filter fun kv => keyWritten checkNames kv.1).flatMap
    fun kv => kv.2.flatMap fun v => [kv.1, ": ", cleanValue v, "\r\n"]

/-- The data blocks `io.Copy` passes on: the non-empty ones. -/
def copied (reads : List String) : List String := reads.filter fun b => decide (len b > 0)

/-- The `Write` calls the chunked writer makes for the blocks `reads`. -/
def chunkCalls (reads : List String) : List String :=
  (copied reads).flatMap fun b => [fmtHex (len b) ++ "\r\n", b, "\r\n"]

/-- The request line for the method, target and protocol version of `req`. -/
def requestLine (req : Request) (target : String) : String :=
  (if req.Method = "" then "GET" else req.Method) ++ " " ++ target ++ " HTTP/" ++
    fmtInt req.ProtoMajor ++ "." ++ fmtInt req.ProtoMinor ++ "\r\n"

/-- The host value: `req.Host` if non-empty, else the host of `req.URL`. -/
def hostValue (req : Request) : String :=
  if req.Host ≠ "" then req.Host
  else
    match req.URL with
    | some u => u.Host
    | none => ""

/-- Whether a string starts with `http://` or `https://`. -/
def isAbsolute (s : String) : Bool := HasPrefix s "http://" || HasPrefix s "https://"

/-- The `Transfer-Encoding` line, empty when the list is empty. -/
def transferEncodingLine (req : Request) : String :=
  if req.TransferEncoding = [] then ""
  else "Transfer-Encoding: " ++ Join req.TransferEncoding "," ++ "\r\n"

/-- The `Connection: close` line, empty when `req.Close` is unset. -/
def connectionLine (req : Request) : String :=
  if req.Close then "Connection: close\r\n" else ""

/-- The bytes of the generic header pass. -/
def headerBlock (checkNames : Bool) (h : Header) : String := concat (headerCalls checkNames h)

/-- Chunked mode: the transfer-encoding list starts with `chunked`. -/
def isChunked (req : Request) : Bool := req.TransferEncoding.head? == some "chunked"

/-- The writer after the request line and the Host, Transfer-Encoding and
Connection steps of `DumpRequestTo` (source lines 83 to 106). -/
def headWriter (w : Writer) (req : Request) (reqURI : String) : Writer :=
  let w := (w.Write (valueOrDefault req.Method "GET" ++ " " ++ reqURI ++ " HTTP/" ++
    fmtInt req.ProtoMajor ++ "." ++ fmtInt req.ProtoMinor ++ "\r\n")).1
  let absRequestURI :=
    HasPrefix req.RequestURI "http://" || HasPrefix req.RequestURI "https://"
  let w :=
    if !absRequestURI then
      let host := req.Host
      let host :=
        if host = "" then
          match req.URL with
          | some u => u.Host
          | none => host
        else host
      if host ≠ "" then (w.Write ("Host: " ++ host ++ "\r\n")).1 else w
    else w
  let w :=
    if req.TransferEncoding.length > 0 then
      (w.Write ("Transfer-Encoding: " ++ Join req.TransferEncoding "," ++ "\r\n")).1
    else w
  if req.Close then (w.Write "Connection: close\r\n").1 else w

/-- The rest of `DumpRequestTo` from the generic header pass on (source lines
108 to 129), run on the writer `w`. -/
def tailResult (checkNames : Bool) (w : Writer) (req : Request) :
    Option (Writer × Option Error) :=
  let chunked :=
    decide (req.TransferEncoding.length > 0) && req.TransferEncoding.head? == some "chunked"
  match WriteSubset checkNames w req.Header reqWriteExcludeHeaderDump with
  | (w, some err) => some (w, some err)
  | (w, none) =>
    let w := (w.Write "\r\n").1
    match req.Body with
    | none => some (w, none)
    | some body =>
      if chunked then
        let r := Copy chunkedWrite w body.reads body.err
        let w := (chunkedClose r.1).1
        let w := (w.Write "\r\n").1
        some (w, r.2)
      else
        let r := Copy Writer.Write w body.reads body.err
        some (r.1, r.2)

/-- The calls of the request line and of the Host, Transfer-Encoding and
Connection steps. -/
def headCalls (req : Request) (target : String) : List String :=
  [requestLine req target]
    ++ (if !isAbsolute req.RequestURI && decide (hostValue req ≠ "") then
          ["Host: " ++ hostValue req ++ "\r\n"] else [])
    ++ (if req.TransferEncoding = [] then [] else [transferEncodingLine req])
    ++ (if req.Close then [connectionLine req] else [])

/-- The calls of the body copy on an accepting writer. -/
def bodyCalls (req : Request) : List String :=
  match req.Body with
  | none => []
  | some body =>
    if isChunked req then chunkCalls body.reads ++ ["0\r\n", "\r\n"] else copied body.reads

/-- The error of the body reader, `none` for a nil body. -/
def bodyErr (req : Request) : Option Error :=
  match req.Body with
  | none => none
  | some body => body.err

/-- The writer `w'` is `w` after some further `Write` calls. -/
def Writer.Extends (w w' : Writer) : Prop := ∃ rest, w'.calls = w.calls ++ rest

/-- The lines of the generic header pass, one per written value. -/
def headerLines (checkNames : Bool) (h : Header) : List String :=
  ((sortedKeyValues h reqWriteExcludeHeaderDump).filter fun kv => keyWritten checkNames kv.1).flatMap
    fun kv => kv.2.map fun v => kv.1 ++ ": " ++ cleanValue v ++ "\r\n"

/-- The `Host` line, empty when the Host step writes nothing. -/
def hostLine (req : Request) : String :=
  if !isAbsolute req.RequestURI && decide (hostValue req ≠ "") then
    "Host: " ++ hostValue req ++ "\r\n"
  else ""

/-- Everything before the blank line that ends the header block. -/
def headerSection (checkNames : Bool) (req : Request) (target : String) : String :=
  requestLine req target ++ hostLine req ++ transferEncodingLine req ++ connectionLine req ++
    concat (headerLines checkNames req.Header)

/-- The request-target of `req` is `t`: the field `RequestURI` when it is
non-empty, and otherwise the `RequestURI()` of a non-nil `req.URL`. -/
def IsTarget (req : Request) (t : String) : Prop :=
  (req.RequestURI ≠ "" ∧ t = req.RequestURI) ∨
    (req.RequestURI = "" ∧ ∃ u, req.URL = some u ∧ t = u.RequestURI)

/-- The request of the encoding scenario: `GET /foo?x=1 HTTP/1.1`, host
`example.com`, the single header `X-Test: a`, no body. -/
def scenarioRequest (url : Option URL) : Request :=
  { Method := "GET", RequestURI := "/foo?x=1", URL := url, ProtoMajor := 1, ProtoMinor := 1,
    Host := "example.com", TransferEncoding := [], Close := false,
    Header := [("X-Test", ["a"])], Body := none }

/-- A client request whose URL is given in opaque form and whose `RequestURI`
field is empty. -/
def opaqueRequest : Request :=
  { Method := "GET", RequestURI := "",
    URL := some { Scheme := "http", Opaque := "//example.com/p", Host := "example.com",
                  EscapedPath := "", ForceQuery := false, RawQuery := "" },
    ProtoMajor := 1, ProtoMinor := 1, Host := "", TransferEncoding := [], Close := false,
    Header := [], Body := none }

/-- A `POST /upload` request with the given transfer-encoding list and body. -/
def postRequest (te : List String) (body : Body) : Request :=
  { Method := "POST", RequestURI := "/upload", URL := none, ProtoMajor := 1, ProtoMinor := 1,
    Host := "example.com", TransferEncoding := te, Close := false,
    Header := [], Body := some body }

/-- A `GET /` request for host `example.com` with the header collection `h` (its
entries listed in the order in which the keys were inserted) and no body. -/
def headerRequest (h : Header) : Request :=
  { Method := "GET", RequestURI := "/", URL := none, ProtoMajor := 1, ProtoMinor := 1,
    Host := "example.com", TransferEncoding := [], Close := false,
    Header := h, Body := none }

/-- The header lines in the wording of the specification: the keys outside the
excluded set in the order of the collection, one line `<key>: <value>\r\n` per
stored value. -/
def linesAsStored (h : Header) : List String :=
  (h.filter fun kv => !reqWriteExcludeHeaderDump kv.1).flatMap
    fun kv => kv.2.map fun v => kv.1 ++ ": " ++ v ++ "\r\n"

/-- The header collection without the entries stored under `Host`,
`Transfer-Encoding` or `Trailer`. -/
def withoutExcluded (h : Header) : Header :=
  h.filter fun kv => decide (kv.1 ≠ "Host" ∧ kv.1 ≠ "Transfer-Encoding" ∧ kv.1 ≠ "Trailer")

/-- The byte string `s` ends with CRLF. -/
def EndsCRLF (s : String) : Prop := ∃ p, s = p ++ "\r\n"

/-- A `GET` request with a preset target, a `Host` field and a nil URL. -/
def nilURLRequest (uri host : String) : Request :=
  { Method := "GET", RequestURI := uri, URL := none, ProtoMajor := 1, ProtoMinor := 1,
    Host := host, TransferEncoding := [], Close := false, Header := [], Body := none }

/-! ## The response dispatcher -/

/-- The fields of `http.Response` that `Dispatch` reads; the body is never nil in
a response returned by `http.ReadResponse`. -/
structure Response where
  Status : String
  StatusCode : Int
  ProtoMajor : Int
  ProtoMinor : Int
  Header : Header
  Body : Body
deriving DecidableEq, Repr

/-- The read-stream `out` (an `io.Reader`): the bytes not yet read and the number
of `Read` calls it has received. -/
structure Reader where
  pending : String
  reads : Nat
deriving DecidableEq, Repr

/-- The two routines of `net/http` that `Dispatch` calls and whose code is not
part of the program: `http.ReadResponse` (given the read-stream and the request,
it returns the stream after reading and a response or an error) and
`(*Response).Write` (given a response and a writer, it returns the writer after
its calls and an error or nil).  The theorems hold for every such pair. -/
structure NetHTTP where
  ReadResponse : Reader → Request → Reader × Except Error Response
  ResponseWrite : Response → Writer → Writer × Option Error

/-- Modelled from the spec: `CallInfo`, the interface of the repository that
exposes the request of a call (`ci.Request()`, the same request object at every
call) and the resolved request-target (`ci.RequestURL()`). -/
structure CallInfo where
  Request : Request
  RequestURL : String
deriving DecidableEq, Repr

/-- What a structured sink has been asked to do: a value added to its header
map, a status code written, a block of body bytes written. -/
inductive Event where
  | add (key value : String)
  | writeHeader (statusCode : Int)
  | write (p : String)
deriving DecidableEq, Repr

/-- An `http.ResponseWriter`: the header map returned by `Header()`, the events
so far (oldest first), and the error `respond i p` returned by a `Write` of `p`
made when `i` events have been recorded. -/
structure ResponseWriter where
  header : Header
  events : List Event
  respond : Nat → String → Option Error

/-- The sink handed to `Dispatch`: a writer that is an `http.ResponseWriter`, or
any other writer. -/
inductive Sink where
  | structured (rw : ResponseWriter)
  | raw (w : Writer)

/-- The receiver of `Dispatch`: the write-stream `in` and the read-stream `out`. -/
structure HTTPProtocol where
  in_ : Writer
  out : Reader

/-- The state when `Dispatch` returns: both streams, the request object of the
call and the sink. -/
structure Outcome where
  in_ : Writer
  out : Reader
  req : Request
  sink : Sink

/-- One step of `textproto.CanonicalMIMEHeaderKey`: upper case at the start and
after a dash, lower case elsewhere. -/
def canonicalChars : Bool → List Char → List Char
  | _, [] => []
  | upper, c :: cs =>
    let c1 := if upper then c.toUpper else c.toLower
    c1 :: canonicalChars (c1 = '-') cs

/-- `textproto.CanonicalMIMEHeaderKey`: a key with a byte that is not allowed in
a field name is returned unchanged. -/
def CanonicalMIMEHeaderKey (s : String) : String :=
  if s.data.all IsTokenRune then String.mk (canonicalChars true s.data) else s

/-- The values stored under the key `k`: the map lookup `h[k]`, empty when the
key is absent. -/
def Header.values : Header → String → List String
  | [], _ => []
  | (k', vs) :: rest, k => if k' = k then vs else Header.values rest k

/-- The map update `h[key] = append(h[key], value)`. -/
def Header.append : Header → String → String → Header
  | [], key, value => [(key, [value])]
  | (k', vs) :: rest, key, value =>
    if k' = key then (k', vs ++ [value]) :: rest else (k', vs) :: Header.append rest key value

/-- `Header.Add(key, value)`: the value is appended under the canonical form of
the key. -/
def Header.Add (h : Header) (key value : String) : Header :=
  Header.append h (CanonicalMIMEHeaderKey key) value

/-- The statement `rw.Header().Add(k, v)`. -/
def ResponseWriter.AddHeader (rw : ResponseWriter) (k v : String) : ResponseWriter :=
  { rw with header := rw.header.Add k v, events := rw.events ++ [Event.add k v] }

/-- The call `rw.WriteHeader(statusCode)`. -/
def ResponseWriter.WriteHeader (rw : ResponseWriter) (statusCode : Int) : ResponseWriter :=
  { rw with events := rw.events ++ [Event.writeHeader statusCode] }

/-- The call `rw.Write(p)`. -/
def ResponseWriter.Write (rw : ResponseWriter) (p : String) : ResponseWriter × Option Error :=
  ({ rw with events := rw.events ++ [Event.write p] }, rw.respond rw.events.length p)

/-- A structured sink none of whose `Write` calls fails. -/
def ResponseWriter.Accepting (rw : ResponseWriter) : Prop := ∀ i p, rw.respond i p = none

/-- The inner loop of `Dispatch` over the values of one response header. -/
def addValues (k : String) : ResponseWriter → List String → ResponseWriter
  | rw, [] => rw
  | rw, v :: vs => addValues k (rw.AddHeader k v) vs

/-- The outer loop of `Dispatch` over the response headers, in the order in which
the map iteration delivers them. -/
def addHeaders : ResponseWriter → Header → ResponseWriter
  | rw, [] => rw
  | rw, kv :: kvs => addHeaders (addValues kv.1 rw kv.2) kvs

/-- The read/write loop of `io.Copy(rw, body)` into a structured sink. -/
def CopyRW : ResponseWriter → List String → Option Error → ResponseWriter × Option Error
  | rw, [], rerr => (rw, rerr)
  | rw, b :: bs, rerr =>
    if len b > 0 then
      match rw.Write b with
      | (rw1, some ew) => (rw1, some ew)
      | (rw1, none) => CopyRW rw1 bs rerr
    else CopyRW rw bs rerr

/-- `(*HTTPProtocol).Dispatch(ctx, ci, w)`.  The result is `none` when the call
faults, and otherwise the state after the call with the error returned. -/
def Dispatch (lib : NetHTTP) (checkNames : Bool) (h : HTTPProtocol) (ci : CallInfo)
    (w : Sink) : Option (Outcome × Option Error) :=
  let req := ci.Request
  let req := { req with RequestURI := ci.RequestURL }
  match DumpRequestTo checkNames h.in_ req with
  | none => none
  | some (in1, some err) => some (⟨in1, h.out, req, w⟩, some err)
  | some (in1, none) =>
    match lib.ReadResponse h.out req with
    | (out1, Except.error err) => some (⟨in1, out1, req, w⟩, some err)
    | (out1, Except.ok resp) =>
      match w with
      | Sink.structured rw =>
        let rw := addHeaders rw resp.Header
        let rw := rw.WriteHeader resp.StatusCode
        let r := CopyRW rw resp.Body.reads resp.Body.err
        some (⟨in1, out1, req, Sink.structured r.1⟩, none)
      | Sink.raw w0 =>
        let r := lib.ResponseWrite resp w0
        some (⟨in1, out1, req, Sink.raw r.1⟩, none)

/-- The request `Dispatch` encodes: the request of the call with its `RequestURI`
field set to `ci.RequestURL()`. -/
def CallInfo.resolved (ci : CallInfo) : Protocol.Request :=
  { ci.Request with RequestURI := ci.RequestURL }

/-- The events of the header loop of `Dispatch` for the response headers `h`. -/
def addEvents (h : Header) : List Event :=
  h.flatMap fun kv => kv.2.map fun v => Event.add kv.1 v

/-- A response `200 OK` of HTTP/1.1 with the given headers and body. -/
def okResponse (h : Header) (body : Body) : Response :=
  { Status := "200 OK", StatusCode := 200, ProtoMajor := 1, ProtoMinor := 1,
    Header := h, Body := body }

/-- A library for the examples.  Its `ReadResponse` reads the stream to the end
and returns `parsed`; its `Response.Write` writes the status line, the header
lines, the blank line and the body blocks, one call each, and returns at the
first call that fails, as `(*Response).Write` does. -/
def exampleHTTP (parsed : Except Error Response) : NetHTTP :=
  { ReadResponse := fun out _ => (⟨"", out.reads + 1⟩, parsed)
    ResponseWrite := fun resp w =>
      writeStrings w
        (["HTTP/" ++ fmtInt resp.ProtoMajor ++ "." ++ fmtInt resp.ProtoMinor ++ " " ++
            resp.Status ++ "\r\n"]
          ++ (resp.Header.flatMap fun kv => kv.2.map fun v => kv.1 ++ ": " ++ v ++ "\r\n")
          ++ ["\r\n"] ++ resp.Body.reads) }

/-- A call whose request carries the header `X-Test: a` and whose resolved
target is `/r/app/hello`. -/
def exampleCall : CallInfo :=
  { Request := scenarioRequest none, RequestURL := "/r/app/hello" }

/-- A call whose request has no header and no body. -/
def bareCall : CallInfo :=
  { Request := headerRequest [], RequestURL := "/r/app/hello" }

/-- A stream pair with an accepting write-stream and an unread read-stream. -/
def freshStreams : HTTPProtocol := ⟨Writer.sink, ⟨"HTTP/1.1 200 OK\r\n\r\n", 0⟩⟩

/-- A stream pair whose write-stream fails at every call. -/
def brokenStreams : HTTPProtocol := ⟨Writer.broken "broken pipe", ⟨"HTTP/1.1 200 OK\r\n\r\n", 0⟩⟩

/-- A structured sink with the header map `h` and no events, accepting every
write. -/
def recorder (h : Header) : ResponseWriter := ⟨h, [], fun _ _ => none⟩

/-- A structured sink with an empty header map every `Write` of which fails. -/
def brokenRecorder (e : Error) : ResponseWriter := ⟨[], [], fun _ _ => some e⟩

/-- The calls a raw sink has received, the events of a structured one. -/
def Sink.calls : Sink → List String
  | Sink.raw w => w.calls
  | Sink.structured _ => []

/-- The events of a structured sink, none for a raw one. -/
def Sink.events : Sink → List Event
  | Sink.raw _ => []
  | Sink.structured rw => rw.events

/-- The header map of a structured sink, empty for a raw one. -/
def Sink.header : Sink → Header
  | Sink.raw _ => []
  | Sink.structured rw => rw.header

/-! ## Reading the encoding back -/

/-- The lines of a message up to the first empty line, and the bytes after that
line; `cur` is the line being read and `done` the lines read so far.  Lines end
with CRLF; there is no result when the input ends before an empty line. -/
def scanLines : List Char → List Char → List (List Char) → Option (List (List Char) × List Char)
  | [], _, _ => none
  | [_], _, _ => none
  | x :: y :: rest, cur, done =>
    if x = '\r' ∧ y = '\n' then
      if cur = [] then some (done, rest) else scanLines rest [] (done ++ [cur])
    else scanLines (y :: rest) (cur ++ [x]) done

/-- The text before and after the first occurrence of the character `c`. -/
def splitAtChar (c : Char) : List Char → Option (List Char × List Char)
  | [] => none
  | x :: xs =>
    if x = c then some ([], xs)
    else
      match splitAtChar c xs with
      | some (a, b) => some (x :: a, b)
      | none => none

/-- The method put on the request line. -/
def methodOnLine (req : Request) : String := if req.Method = "" then "GET" else req.Method

/-- The protocol version put on the request line. -/
def versionOnLine (req : Request) : String :=
  "HTTP/" ++ fmtInt req.ProtoMajor ++ "." ++ fmtInt req.ProtoMinor

/-- The header field lines `DumpRequestTo` writes, without their CRLF: the Host
line, the Transfer-Encoding line, the `Connection: close` line, then the lines of
the generic header pass. -/
def fieldLines (checkNames : Bool) (req : Request) : List String :=
  (if !isAbsolute req.RequestURI && decide (hostValue req ≠ "") then
      ["Host: " ++ hostValue req] else [])
    ++ (if req.TransferEncoding = [] then []
        else ["Transfer-Encoding: " ++ Join req.TransferEncoding ","])
    ++ (if req.Close then ["Connection: close"] else [])
    ++ (((sortedKeyValues req.Header reqWriteExcludeHeaderDump).filter
          fun kv => keyWritten checkNames kv.1).flatMap
        fun kv => kv.2.map fun v => kv.1 ++ ": " ++ cleanValue v)

/-- The bytes of the body of a request, empty for a nil body. -/
def bodyBytes (req : Request) : String :=
  match req.Body with
  | none => ""
  | some body => concat body.reads

/-- The round trip in the wording of the specification, for a parser `parse`
that returns method, target, headers and body: parsing the bytes `DumpRequestTo`
writes on a new accepting writer gives the method of the request, its target,
its headers without the excluded set (as a map: in any order of the entries) and
its body bytes. -/
def RoundTrips (parse : String → Option (String × String × Header × String))
    (checkNames : Bool) (req : Request) : Prop :=
  ∃ w' t h, DumpRequestTo checkNames Writer.sink req = some (w', none) ∧ IsTarget req t ∧
    parse w'.bytes = some (req.Method, t, h, bodyBytes req) ∧
    h.Perm (withoutExcluded req.Header)

/-- The bytes `DumpRequestTo` writes after the blank line on an accepting writer:
nothing for a nil body, the blocks of the body as they are when the request is
not in chunked mode, and in chunked mode their chunks followed by `0\r\n` and
`\r\n`. -/
def bodySegment (req : Request) : String :=
  match req.Body with
  | none => ""
  | some body =>
    if isChunked req then concat (chunkCalls body.reads) ++ "0\r\n" ++ "\r\n"
    else concat body.reads

/-- Optional white space of a header field: space and horizontal tab. -/
def isOWS (c : Char) : Bool := c = ' ' || c = '\t'

/-- A text without the optional white space at its two ends. -/
def trimOWS (l : List Char) : List Char :=
  ((l.dropWhile isOWS).reverse.dropWhile isOWS).reverse

/-- A control character: below the space, or DEL. -/
def isCTL (c : Char) : Bool := decide (c.toNat < 32) || decide (c.toNat = 127)

/-- `token` of RFC 7230: a non-empty text of token characters. -/
def isToken (l : List Char) : Bool := l.all IsTokenRune && !l.isEmpty

/-- A character allowed in a request-target: no control character, no space. -/
def isTargetChar (c : Char) : Bool := !isCTL c && !decide (c = ' ')

/-- A character allowed in a field value: no control character but the tab. -/
def isValueChar (c : Char) : Bool := !isCTL c || decide (c = '\t')

/-- The value of a digit, decimal or hexadecimal in either case. -/
def digitValue (c : Char) : Option Nat :=
  if 48 ≤ c.toNat ∧ c.toNat ≤ 57 then some (c.toNat - 48)
  else if 97 ≤ c.toNat ∧ c.toNat ≤ 102 then some (c.toNat - 87)
  else if 65 ≤ c.toNat ∧ c.toNat ≤ 70 then some (c.toNat - 55)
  else none

/-- The number written by the digits `cs` in base `b`, continuing from `acc`. -/
def parseDigits (b : Nat) : List Char → Nat → Option Nat
  | [], acc => some acc
  | c :: cs, acc =>
    match digitValue c with
    | some d => if d < b then parseDigits b cs (acc * b + d) else none
    | none => none

/-- The number written by a non-empty text of digits in base `b`. -/
def parseNat (b : Nat) (cs : List Char) : Option Nat :=
  if cs = [] then none else parseDigits b cs 0

/-- `HTTP-version` of RFC 7230: `HTTP/`, a digit, a dot and a digit; the result
is the major and the minor number. -/
def parseVersion (v : List Char) : Option (Nat × Nat) :=
  match v with
  | [c1, c2, c3, c4, c5, a, dot, b] =>
    if [c1, c2, c3, c4, c5] = "HTTP/".data ∧ dot = '.' then
      match digitValue a, digitValue b with
      | some x, some y => if x < 10 ∧ y < 10 then some (x, y) else none
      | _, _ => none
    else none
  | _ => none

/-- The protocol version is HTTP/1.1 or higher. -/
def atLeast11 (major minor : Nat) : Bool := decide (1 < major) || (major == 1 && decide (1 ≤ minor))

/-- The first `n` bytes of a text and what follows them; no result when the text
is shorter or when the cut falls inside a character. -/
def takeBytes : List Char → Nat → Option (List Char × List Char)
  | s, 0 => some ([], s)
  | [], _ + 1 => none
  | c :: cs, n + 1 =>
    if c.utf8Size ≤ n + 1 then
      match takeBytes cs (n + 1 - c.utf8Size) with
      | some (d, r) => some (c :: d, r)
      | none => none
    else none

/-- The text before the first CRLF and the text after it. -/
def splitLine : List Char → Option (List Char × List Char)
  | [] => none
  | [_] => none
  | x :: y :: rest =>
    if x = '\r' ∧ y = '\n' then some ([], rest)
    else
      match splitLine (y :: rest) with
      | some (l, r) => some (x :: l, r)
      | none => none

/-- The decoding of a chunked body: each chunk is a line with the length in
hexadecimal (a chunk extension after `;` is ignored), that many bytes, and a
CRLF; the chunk of length zero is followed by the trailer lines and an empty
line.  `fuel` bounds the number of chunks and `acc` holds the bytes decoded so
far. -/
def decodeChunks : Nat → List Char → List Char → Option (List Char)
  | 0, _, _ => none
  | fuel + 1, s, acc =>
    match splitLine s with
    | none => none
    | some (sizeLine, rest) =>
      match parseNat 16 (sizeLine.takeWhile fun c => c ≠ ';') with
      | none => none
      | some 0 =>
        match scanLines rest [] [] with
        | some _ => some acc
        | none => none
      | some (n + 1) =>
        match takeBytes rest (n + 1) with
        | some (d, x :: y :: rest') =>
          if x = '\r' ∧ y = '\n' then decodeChunks fuel rest' (acc ++ d) else none
        | _ => none

/-- One header field line read as `field-name ":" OWS field-value OWS`: the name
is a token, so that white space before the colon is refused, and the value holds
no control character but the tab. -/
def parseField (line : List Char) : Option (String × String) :=
  match splitAtChar ':' line with
  | some (name, value) =>
    if isToken name && (trimOWS value).all isValueChar then
      some (String.mk name, String.mk (trimOWS value))
    else none
  | none => none

/-- The header field lines read one by one. -/
def parseFields : List (List Char) → Option (List (String × String))
  | [] => some []
  | l :: ls =>
    match parseField l with
    | some f =>
      match parseFields ls with
      | some fs => some (f :: fs)
      | none => none
    | none => none

/-- How the length of a request body is found (RFC 7230, section 3.3.3): by the
chunked coding, by a declared length, or, with neither, as no body at all. -/
inductive Framing where
  | chunked
  | length (n : Nat)
  | noBody
  | invalid
deriving DecidableEq, Repr

/-- A field name in lower case; field names are compared without regard to
case. -/
def lowerName (s : String) : List Char := s.data.map Char.toLower

/-- The last transfer coding named in a `Transfer-Encoding` value, in lower
case. -/
def finalCoding (v : String) : List Char :=
  (trimOWS (v.data.reverse.takeWhile fun c => c ≠ ',').reverse).map Char.toLower

/-- The framing of the body derived from the header fields.  With a
`Transfer-Encoding` field the body is in the chunked coding when the protocol
version is 1.1 or higher (`v11`) and the last coding named is `chunked`, and the
message is refused otherwise; without one the `Content-Length` fields, which
must agree and be a decimal number, give the length; with neither field there is
no body. -/
def framing (v11 : Bool) (fields : List (String × String)) : Framing :=
  let te := fields.filter fun f => decide (lowerName f.1 = "transfer-encoding".data)
  let cl := fields.filter fun f => decide (lowerName f.1 = "content-length".data)
  match te.getLast? with
  | some f =>
    if v11 = true ∧ finalCoding f.2 = "chunked".data then Framing.chunked else Framing.invalid
  | none =>
    match cl with
    | [] => Framing.noBody
    | f :: rest =>
      if rest.all (fun g => decide (g.2 = f.2)) then
        match parseNat 10 f.2.data with
        | some n => Framing.length n
        | none => Framing.invalid
      else Framing.invalid

/-- The body read from the bytes after the blank line under the given framing. -/
def readBody : Framing → List Char → Option (List Char)
  | Framing.chunked, rest => decodeChunks (rest.length + 1) rest []
  | Framing.length n, rest =>
    match takeBytes rest n with
    | some (d, _) => some d
    | none => none
  | Framing.noBody, _ => some []
  | Framing.invalid, _ => none

/-- A request as an HTTP/1.1 parser reads it from the wire: the three parts of
the request line, the header fields in order as name and value, and the body. -/
structure ParsedRequest where
  method : String
  target : String
  version : String
  headers : List (String × String)
  body : String
deriving DecidableEq, Repr

/-- An HTTP/1.1 request parser for the message syntax of RFC 7230, section 3.
The head of the message is cut into lines at the CRLFs up to the first empty
line.  The request line is cut at its first two spaces into method,
request-target and version: the method is a token, the target is not empty and
holds no control character and no space, the version is `HTTP/` digit `.` digit.
Each further line is read as a header field.  The body is read with the framing
the header fields give.  A message that breaks one of these rules is refused. -/
def parseRequest (s : String) : Option ParsedRequest :=
  match scanLines s.data [] [] with
  | some (first :: lines, rest) =>
    match splitAtChar ' ' first with
    | none => none
    | some (m, afterMethod) =>
      match splitAtChar ' ' afterMethod with
      | none => none
      | some (t, v) =>
        if isToken m && (t.all isTargetChar && !t.isEmpty) then
          match parseVersion v with
          | none => none
          | some (major, minor) =>
            match parseFields lines with
            | none => none
            | some fields =>
              match readBody (framing (atLeast11 major minor) fields) rest with
              | none => none
              | some body =>
                some ⟨String.mk m, String.mk t, String.mk v, fields, String.mk body⟩
        else none
  | _ => none

/-- The request a parser reads from the bytes `DumpRequestTo` writes on a new
accepting writer; no result when the call faults or the parser refuses the
bytes. -/
def readBack (checkNames : Bool) (req : Request) : Option ParsedRequest :=
  match DumpRequestTo checkNames Writer.sink req with
  | some (w, _) => parseRequest w.bytes
  | none => none

/-- A header value as a parser reads it, without optional white space at its
ends. -/
def owsTrim (s : String) : String := String.mk (trimOWS s.data)

/-- The fields of the generic header pass as name and value: the entries that
are not excluded, in ascending key order, one field per value, each value
cleaned. -/
def passFields (checkNames : Bool) (h : Header) : List (String × String) :=
  ((sortedKeyValues h reqWriteExcludeHeaderDump).filter
      fun kv => keyWritten checkNames kv.1).flatMap
    fun kv => kv.2.map fun v => (kv.1, cleanValue v)

/-- The header fields `DumpRequestTo` writes, as name and value: the Host field,
the Transfer-Encoding field, `Connection: close`, then the fields of the generic
header pass. -/
def writtenFields (checkNames : Bool) (req : Request) : List (String × String) :=
  (if !isAbsolute req.RequestURI && decide (hostValue req ≠ "") then
      [("Host", owsTrim (hostValue req))] else [])
    ++ (if req.TransferEncoding = [] then []
        else [("Transfer-Encoding", owsTrim (Join req.TransferEncoding ","))])
    ++ (if req.Close then [("Connection", "close")] else [])
    ++ passFields checkNames req.Header

/-- The framing a parser derives from the header fields `DumpRequestTo` writes
for `req` under the protocol version of `req`. -/
def wireFraming (checkNames : Bool) (req : Request) : Framing :=
  framing (atLeast11 req.ProtoMajor.toNat req.ProtoMinor.toNat) (writtenFields checkNames req)

/-- The header fields on the wire frame the body as the encoder wrote it: they
give the chunked coding and the body was written in chunks, or they give a
length and it is the length of the body, or they give no framing and the body is
empty. -/
def Framed (checkNames : Bool) (req : Request) : Prop :=
  (wireFraming checkNames req = Framing.chunked ∧ isChunked req = true ∧ req.Body ≠ none) ∨
    wireFraming checkNames req = Framing.length (len (bodyBytes req)) ∨
    (wireFraming checkNames req = Framing.noBody ∧ bodyBytes req = "")

/-- A chunked `POST /upload` with Close set, the body `hello` delivered as `he`,
an empty block and `llo`, and stored headers under `X-Test`, `Accept` and
`Host`. -/
def uploadRequest : Request :=
  { Method := "POST", RequestURI := "/upload", URL := none, ProtoMajor := 1, ProtoMinor := 1,
    Host := "example.com", TransferEncoding := ["chunked"], Close := true,
    Header := [("X-Test", [" a\nb "]), ("Accept", ["*/*"]), ("Host", ["other"])],
    Body := some ⟨["he", "", "llo"], none⟩ }

/-- A `POST /upload` with the body `hello`, no transfer-encoding list and the
header collection `h`. -/
def plainUpload (h : Header) : Request :=
  { Method := "POST", RequestURI := "/upload", URL := none, ProtoMajor := 1, ProtoMinor := 1,
    Host := "example.com", TransferEncoding := [], Close := false,
    Header := h, Body := some ⟨["hello"], none⟩ }

end Protocol

namespace Protocol

/-! ## Byte strings -/

theorem concat_append (xs ys : List String) : concat (xs ++ ys) = concat xs ++ concat ys := by
  induction xs with
  | nil => simp [concat]
  | cons x xs ih => simp [concat, ih, String.append_assoc]

theorem concat_singleton (x : String) : concat [x] = x := by simp [concat]

theorem len_eq_zero {s : String} (h : len s = 0) : s = "" := by
  rcases s with ⟨cs⟩
  cases cs with
  | nil => rfl
  | cons c cs =>
    exfalso
    have hc := Char.utf8Size_pos c
    simp [len, String.utf8ByteSize, String.utf8ByteSize.go] at h
    omega

theorem concat_copied (reads : List String) : concat (copied reads) = concat reads := by
  induction reads with
  | nil => rfl
  | cons b bs ih =>
    by_cases hb : len b > 0
    · simp [copied, List.filter_cons, hb, concat] at ih ⊢
      rw [ih]
    · have h0 : b = "" := len_eq_zero (by omega)
      simp [copied, List.filter_cons, hb, concat] at ih ⊢
      rw [ih, h0]; simp

/-! ## Writers that accept every call -/

theorem Write_accepting {w : Writer} (hw : w.Accepting) (p : String) :
    w.Write p = (⟨w.calls ++ [p], w.respond⟩, none) := by
  simp [Writer.Write, hw _ _]

theorem accepting_mk {w : Writer} (hw : w.Accepting) (cs : List String) :
    Writer.Accepting ⟨cs, w.respond⟩ := fun i p => hw i p

theorem writeStrings_accepting {w : Writer} (hw : w.Accepting) (ss : List String) :
    writeStrings w ss = (⟨w.calls ++ ss, w.respond⟩, none) := by
  induction ss generalizing w with
  | nil => simp [writeStrings]
  | cons s ss ih =>
    rw [writeStrings, Write_accepting hw]
    simp only []
    rw [ih (accepting_mk hw _)]
    simp

theorem writeValues_accepting {w : Writer} (hw : w.Accepting) (key : String)
    (vs : List String) :
    writeValues key w vs =
      (⟨w.calls ++ vs.flatMap fun v => [key, ": ", cleanValue v, "\r\n"], w.respond⟩, none) := by
  induction vs generalizing w with
  | nil => simp [writeValues]
  | cons v vs ih =>
    rw [writeValues, writeStrings_accepting hw]
    simp only []
    rw [ih (accepting_mk hw _)]
    simp [cleanValue]

theorem writeEntries_accepting (checkNames : Bool) {w : Writer} (hw : w.Accepting)
    (kvs : Header) :
    writeEntries checkNames w kvs =
      (⟨w.calls ++ (kvs.filter fun kv => keyWritten checkNames kv.1).flatMap
          fun kv => kv.2.flatMap fun v => [kv.1, ": ", cleanValue v, "\r\n"], w.respond⟩,
        none) := by
  induction kvs generalizing w with
  | nil => simp [writeEntries]
  | cons kv kvs ih =>
    rw [writeEntries]
    by_cases hk : (checkNames && !ValidHeaderFieldName kv.1) = true
    · have hkw : keyWritten checkNames kv.1 = false := by simp [keyWritten, hk]
      rw [if_pos hk, ih hw]
      simp [List.filter_cons, hkw]
    · have hkw : keyWritten checkNames kv.1 = true := by
        cases checkNames <;> simp_all [keyWritten]
      rw [if_neg hk, writeValues_accepting hw]
      simp only []
      rw [ih (accepting_mk hw _)]
      simp [List.filter_cons, hkw]

theorem WriteSubset_accepting (checkNames : Bool) {w : Writer} (hw : w.Accepting)
    (h : Header) :
    WriteSubset checkNames w h reqWriteExcludeHeaderDump =
      (⟨w.calls ++ headerCalls checkNames h, w.respond⟩, none) := by
  rw [WriteSubset, writeEntries_accepting checkNames hw]
  rfl

theorem Copy_Write_accepting {w : Writer} (hw : w.Accepting) (reads : List String)
    (rerr : Option Error) :
    Copy Writer.Write w reads rerr = (⟨w.calls ++ copied reads, w.respond⟩, rerr) := by
  induction reads generalizing w with
  | nil => simp [Copy, copied]
  | cons b bs ih =>
    rw [Copy]
    by_cases hb : len b > 0
    · rw [if_pos hb, Write_accepting hw]
      simp only []
      rw [ih (accepting_mk hw _)]
      simp [copied, List.filter_cons, hb]
    · rw [if_neg hb, ih hw]
      simp [copied, List.filter_cons, hb]

theorem chunkedWrite_accepting {w : Writer} (hw : w.Accepting) {b : String}
    (hb : len b > 0) :
    chunkedWrite w b = (⟨w.calls ++ [fmtHex (len b) ++ "\r\n", b, "\r\n"], w.respond⟩, none) := by
  have h0 : ¬ len b = 0 := by omega
  rw [chunkedWrite, if_neg h0, Write_accepting hw]
  simp only []
  rw [Write_accepting (accepting_mk hw _)]
  simp only []
  rw [Write_accepting (accepting_mk hw _)]
  simp

theorem Copy_chunked_accepting {w : Writer} (hw : w.Accepting) (reads : List String)
    (rerr : Option Error) :
    Copy chunkedWrite w reads rerr = (⟨w.calls ++ chunkCalls reads, w.respond⟩, rerr) := by
  induction reads generalizing w with
  | nil => simp [Copy, chunkCalls, copied]
  | cons b bs ih =>
    rw [Copy]
    by_cases hb : len b > 0
    · rw [if_pos hb, chunkedWrite_accepting hw hb]
      simp only []
      rw [ih (accepting_mk hw _)]
      simp [chunkCalls, copied, List.filter_cons, hb]
    · rw [if_neg hb, ih hw]
      simp [chunkCalls, copied, List.filter_cons, hb]

theorem Write_fst (w : Writer) (p : String) : (w.Write p).1 = ⟨w.calls ++ [p], w.respond⟩ := rfl

/-- `DumpRequestTo` is the head steps followed by the tail steps. -/
theorem DumpRequestTo_eq (checkNames : Bool) (w : Writer) (req : Request) :
    DumpRequestTo checkNames w req =
      match (if req.RequestURI = "" then req.URL.map URL.RequestURI else some req.RequestURI) with
      | none => none
      | some t => tailResult checkNames (headWriter w req t) req := rfl

theorem headWriter_eq (w : Writer) (req : Request) (t : String) :
    headWriter w req t = ⟨w.calls ++ headCalls req t, w.respond⟩ := by
  have hm : valueOrDefault req.Method "GET" = if req.Method = "" then "GET" else req.Method := by
    by_cases h : req.Method = "" <;> simp [valueOrDefault, h]
  have hh : (if req.Host = "" then
      (match req.URL with
        | some u => u.Host
        | none => req.Host) else req.Host) = hostValue req := by
    by_cases h : req.Host = ""
    · cases hu : req.URL <;> simp [hostValue, h, hu]
    · simp [hostValue, h]
  have hl : (req.TransferEncoding.length > 0) ↔ ¬ req.TransferEncoding = [] := by
    cases req.TransferEncoding <;> simp
  unfold headWriter headCalls
  have he : (HasPrefix req.RequestURI "http://" || HasPrefix req.RequestURI "https://")
      = isAbsolute req.RequestURI := rfl
  simp only [hm, hh, Write_fst, hl, he]
  cases ha : isAbsolute req.RequestURI <;>
  by_cases hv : hostValue req = "" <;>
  by_cases hte : req.TransferEncoding = [] <;>
  by_cases hc : req.Close = true <;>
  simp [requestLine, transferEncodingLine, connectionLine, hv, hte, hc]

theorem chunked_eq (req : Request) :
    (decide (req.TransferEncoding.length > 0) && req.TransferEncoding.head? == some "chunked")
      = isChunked req := by
  unfold isChunked
  cases req.TransferEncoding <;> simp

theorem tailResult_accepting (checkNames : Bool) {w : Writer} (hw : w.Accepting)
    (req : Request) :
    tailResult checkNames w req =
      some (⟨w.calls ++ headerCalls checkNames req.Header ++ ["\r\n"] ++ bodyCalls req,
        w.respond⟩, bodyErr req) := by
  unfold tailResult
  simp only [chunked_eq, WriteSubset_accepting checkNames hw, Write_fst, chunkedClose]
  cases hb : req.Body with
  | none => simp [bodyCalls, bodyErr, hb]
  | some body =>
    cases hc : isChunked req
    · simp [bodyCalls, bodyErr, hb, hc, Copy_Write_accepting (accepting_mk hw _)]
    · simp [bodyCalls, bodyErr, hb, hc, Copy_chunked_accepting (accepting_mk hw _)]

/-- On an accepting writer, `DumpRequestTo` with a defined target `t` returns the
error of the body reader and has made exactly the calls listed. -/
theorem DumpRequestTo_accepting (checkNames : Bool) {w : Writer} (hw : w.Accepting)
    (req : Request) (t : String)
    (ht : (if req.RequestURI = "" then req.URL.map URL.RequestURI else some req.RequestURI)
      = some t) :
    DumpRequestTo checkNames w req =
      some (⟨w.calls ++ headCalls req t ++ headerCalls checkNames req.Header ++ ["\r\n"]
        ++ bodyCalls req, w.respond⟩, bodyErr req) := by
  rw [DumpRequestTo_eq, ht]
  simp only []
  rw [headWriter_eq, tailResult_accepting checkNames (accepting_mk hw _)]

/-- The bytes of `headCalls`. -/
theorem concat_headCalls (req : Request) (t : String) :
    concat (headCalls req t) =
      requestLine req t ++ hostLine req ++ transferEncodingLine req ++ connectionLine req := by
  unfold headCalls hostLine
  cases ha : isAbsolute req.RequestURI <;>
  by_cases hv : hostValue req = "" <;>
  by_cases hte : req.TransferEncoding = [] <;>
  by_cases hc : req.Close = true <;>
  simp [concat, transferEncodingLine, connectionLine, hv, hte, hc, String.append_assoc]

/-! ## Every step only adds calls -/

theorem extends_refl (w : Writer) : w.Extends w := ⟨[], by simp⟩

theorem extends_trans {a b c : Writer} (h1 : a.Extends b) (h2 : b.Extends c) : a.Extends c := by
  obtain ⟨r1, e1⟩ := h1
  obtain ⟨r2, e2⟩ := h2
  exact ⟨r1 ++ r2, by rw [e2, e1, List.append_assoc]⟩

theorem Write_extends (w : Writer) (p : String) : w.Extends (w.Write p).1 := ⟨[p], rfl⟩

theorem writeStrings_extends (w : Writer) (ss : List String) :
    w.Extends (writeStrings w ss).1 := by
  induction ss generalizing w with
  | nil => exact extends_refl w
  | cons s ss ih =>
    rw [writeStrings]
    cases hr : (w.Write s).2 with
    | some e =>
      have : w.Write s = ((w.Write s).1, some e) := by rw [← hr]
      rw [this]; exact Write_extends w s
    | none =>
      have : w.Write s = ((w.Write s).1, none) := by rw [← hr]
      rw [this]; exact extends_trans (Write_extends w s) (ih _)

theorem writeValues_extends (key : String) (w : Writer) (vs : List String) :
    w.Extends (writeValues key w vs).1 := by
  induction vs generalizing w with
  | nil => exact extends_refl w
  | cons v vs ih =>
    rw [writeValues]
    have h1 := writeStrings_extends w [key, ": ", TrimString (headerNewlineToSpace v), "\r\n"]
    rcases hr : writeStrings w [key, ": ", TrimString (headerNewlineToSpace v), "\r\n"]
      with ⟨w1, _ | e⟩
    · rw [hr] at h1; exact extends_trans h1 (ih _)
    · rw [hr] at h1; exact h1

theorem writeEntries_extends (checkNames : Bool) (w : Writer) (kvs : Header) :
    w.Extends (writeEntries checkNames w kvs).1 := by
  induction kvs generalizing w with
  | nil => exact extends_refl w
  | cons kv kvs ih =>
    rw [writeEntries]
    split
    · exact ih w
    · have h1 := writeValues_extends kv.1 w kv.2
      rcases hr : writeValues kv.1 w kv.2 with ⟨w1, _ | e⟩
      · rw [hr] at h1; exact extends_trans h1 (ih _)
      · rw [hr] at h1; exact h1

theorem chunkedWrite_extends (w : Writer) (data : String) :
    w.Extends (chunkedWrite w data).1 := by
  unfold chunkedWrite
  split
  · exact extends_refl w
  · have h1 := Write_extends w (fmtHex (len data) ++ "\r\n")
    rcases hr : w.Write (fmtHex (len data) ++ "\r\n") with ⟨w1, _ | e⟩
    · rw [hr] at h1
      dsimp only at h1 ⊢
      have h2 := Write_extends w1 data
      rcases hr2 : w1.Write data with ⟨w2, _ | e⟩
      · rw [hr2] at h2
        exact extends_trans h1 (extends_trans h2 (Write_extends w2 "\r\n"))
      · rw [hr2] at h2; exact extends_trans h1 h2
    · rw [hr] at h1; exact h1

theorem Copy_extends (write : Writer → String → Writer × Option Error)
    (hwr : ∀ (w : Writer) (p : String), w.Extends (write w p).1) (w : Writer) (reads : List String)
    (rerr : Option Error) : w.Extends (Copy write w reads rerr).1 := by
  induction reads generalizing w with
  | nil => exact extends_refl w
  | cons b bs ih =>
    rw [Copy]
    split
    · have h1 := hwr w b
      rcases hr : write w b with ⟨w1, _ | e⟩
      · rw [hr] at h1; exact extends_trans h1 (ih _)
      · rw [hr] at h1; exact h1
    · exact ih w

/-- The tail steps always return, having only added calls. -/
theorem tailResult_extends (checkNames : Bool) (w : Writer) (req : Request) :
    ∃ w' err, tailResult checkNames w req = some (w', err) ∧ w.Extends w' := by
  unfold tailResult
  have h1 := writeEntries_extends checkNames w (sortedKeyValues req.Header reqWriteExcludeHeaderDump)
  rcases hr : WriteSubset checkNames w req.Header reqWriteExcludeHeaderDump with ⟨w1, _ | e⟩
  · have h1 : w.Extends w1 := by
      have := hr ▸ (show w.Extends (WriteSubset checkNames w req.Header
        reqWriteExcludeHeaderDump).1 from h1)
      exact this
    have h2 : w.Extends (w1.Write "\r\n").1 := extends_trans h1 (Write_extends _ _)
    cases hb : req.Body with
    | none => exact ⟨_, _, rfl, h2⟩
    | some body =>
      simp only []
      split
      · refine ⟨_, _, rfl, ?_⟩
        refine extends_trans (extends_trans (extends_trans h2 ?_) (Write_extends _ _))
          (Write_extends _ _)
        exact Copy_extends chunkedWrite chunkedWrite_extends _ _ _
      · refine ⟨_, _, rfl, ?_⟩
        exact extends_trans h2 (Copy_extends Writer.Write Write_extends _ _ _)
  · refine ⟨w1, some e, rfl, ?_⟩
    have := hr ▸ (show w.Extends (WriteSubset checkNames w req.Header
      reqWriteExcludeHeaderDump).1 from h1)
    exact this

/-! ## The bytes of the encoding -/

theorem isTarget_eq {req : Request} {t : String} (ht : IsTarget req t) :
    (if req.RequestURI = "" then req.URL.map URL.RequestURI else some req.RequestURI)
      = some t := by
  rcases ht with ⟨h1, h2⟩ | ⟨h1, u, h2, h3⟩
  · rw [if_neg h1, h2]
  · rw [if_pos h1, h2, h3]; rfl

theorem concat_pieces (es : Header) :
    concat (es.flatMap fun kv => kv.2.flatMap fun v => [kv.1, ": ", cleanValue v, "\r\n"]) =
      concat (es.flatMap fun kv => kv.2.map fun v => kv.1 ++ ": " ++ cleanValue v ++ "\r\n") := by
  induction es with
  | nil => rfl
  | cons kv es ih =>
    rw [List.flatMap_cons, List.flatMap_cons, concat_append, concat_append, ih]
    congr 1
    induction kv.2 with
    | nil => rfl
    | cons v vs ihv =>
      rw [List.flatMap_cons, concat_append, List.map_cons, ihv]
      simp [concat, String.append_assoc]

theorem concat_headerCalls (checkNames : Bool) (h : Header) :
    concat (headerCalls checkNames h) = concat (headerLines checkNames h) :=
  concat_pieces _

/-- On an accepting writer, `DumpRequestTo` returns the error of the body reader,
having written the header section, the blank line and the body calls. -/
theorem DumpRequestTo_bytes (checkNames : Bool) {w : Writer} (hw : w.Accepting)
    (req : Request) (t : String) (ht : IsTarget req t) :
    ∃ w', DumpRequestTo checkNames w req = some (w', bodyErr req) ∧
      w'.calls = w.calls ++ headCalls req t ++ headerCalls checkNames req.Header ++ ["\r\n"]
        ++ bodyCalls req ∧
      w'.bytes = w.bytes ++ headerSection checkNames req t ++ "\r\n" ++ concat (bodyCalls req) := by
  refine ⟨_, DumpRequestTo_accepting checkNames hw req t (isTarget_eq ht), rfl, ?_⟩
  simp only [Writer.bytes, concat_append, concat_headCalls, concat_headerCalls,
    concat_singleton, headerSection, String.append_assoc]

/-! ## The claims -/

/-- **C1.** For every writer and every request whose target is defined (a
non-empty `RequestURI`, or else a non-nil `URL`), `DumpRequestTo` returns and the
first `Write` call it makes carries exactly
`<METHOD> <TARGET> HTTP/<ProtoMajor>.<ProtoMinor>\r\n`, where METHOD is
`req.Method`, or `GET` when that is empty, and TARGET is `req.RequestURI` when
non-empty and `req.URL.RequestURI()` otherwise; these are the first bytes
written. -/
theorem C1_request_line_first (checkNames : Bool) (w : Writer) (req : Request)
    (target : String)
    (ht : (req.RequestURI ≠ "" ∧ target = req.RequestURI) ∨
      (req.RequestURI = "" ∧ ∃ u, req.URL = some u ∧ target = u.RequestURI)) :
    ∃ w' err rest, DumpRequestTo checkNames w req = some (w', err) ∧
      w'.calls = w.calls ++
        ((if req.Method = "" then "GET" else req.Method) ++ " " ++ target ++ " HTTP/" ++
          fmtInt req.ProtoMajor ++ "." ++ fmtInt req.ProtoMinor ++ "\r\n") :: rest ∧
      w'.bytes = w.bytes ++
        ((if req.Method = "" then "GET" else req.Method) ++ " " ++ target ++ " HTTP/" ++
          fmtInt req.ProtoMajor ++ "." ++ fmtInt req.ProtoMinor ++ "\r\n") ++ concat rest := by
  obtain ⟨w', err, hres, rest, hrest⟩ :=
    tailResult_extends checkNames (headWriter w req target) req
  have hcalls : w'.calls = w.calls ++ requestLine req target ::
      ((headCalls req target).tail ++ rest) := by
    rw [hrest, headWriter_eq]
    simp [headCalls, List.append_assoc]
  refine ⟨w', err, (headCalls req target).tail ++ rest, ?_, hcalls, ?_⟩
  · rw [DumpRequestTo_eq, isTarget_eq ht]
    exact hres
  · rw [Writer.bytes, hcalls, concat_append]
    simp only [concat, Writer.bytes, requestLine, String.append_assoc]

/-- Witness for C1: a call with a preset target. -/
theorem C1_request_line_first_witness :
    (("/foo?x=1" ≠ "" ∧ "/foo?x=1" = (scenarioRequest none).RequestURI) ∨
      ((scenarioRequest none).RequestURI = "" ∧
        ∃ u, (scenarioRequest none).URL = some u ∧ "/foo?x=1" = u.RequestURI)) ∧
    ∃ w' err rest, DumpRequestTo false Writer.sink (scenarioRequest none) = some (w', err) ∧
      w'.calls = Writer.sink.calls ++
        ((if (scenarioRequest none).Method = "" then "GET" else (scenarioRequest none).Method)
          ++ " " ++ "/foo?x=1" ++ " HTTP/" ++ fmtInt (scenarioRequest none).ProtoMajor ++ "." ++
          fmtInt (scenarioRequest none).ProtoMinor ++ "\r\n") :: rest ∧
      w'.bytes = Writer.sink.bytes ++
        ((if (scenarioRequest none).Method = "" then "GET" else (scenarioRequest none).Method)
          ++ " " ++ "/foo?x=1" ++ " HTTP/" ++ fmtInt (scenarioRequest none).ProtoMajor ++ "." ++
          fmtInt (scenarioRequest none).ProtoMinor ++ "\r\n") ++ concat rest :=
  ⟨Or.inl ⟨by decide, rfl⟩,
    C1_request_line_first false Writer.sink (scenarioRequest none) "/foo?x=1"
      (Or.inl ⟨by decide, rfl⟩)⟩

/-- **C2, as stated, fails.** The request has an empty `RequestURI` and an opaque
URL: the target put on the request line is `http://example.com/p`, an absolute
URI, and yet the `Host` line is written directly after the request line. -/
theorem C2_counterexample :
    (DumpRequestTo false Writer.sink opaqueRequest).map (fun r => r.1.calls) =
      some ["GET http://example.com/p HTTP/1.1\r\n", "Host: example.com\r\n", "\r\n"] ∧
    IsTarget opaqueRequest "http://example.com/p" ∧
    ¬ ("Host: example.com\r\n" ∈
        ["GET http://example.com/p HTTP/1.1\r\n", "Host: example.com\r\n", "\r\n"] ↔
      (isAbsolute "http://example.com/p" = false ∧ hostValue opaqueRequest ≠ "")) := by
  refine ⟨by decide, Or.inr ⟨by decide, _, rfl, by decide⟩, by decide⟩

/-- **C2, amended.** On an accepting writer, for a request whose target `t` is
defined, the call that writes the request line is followed by one call writing
`Host: <value>\r\n` if and only if the field `req.RequestURI` (not the target
put on the request line) does not start with `http://` or `https://` and a host
value is available; the value is `req.Host` if non-empty, else `req.URL.Host`.
The calls after it are those of the Transfer-Encoding, Connection, header,
blank-line and body steps. -/
theorem C2_host_line (checkNames : Bool) (w : Writer) (hw : w.Accepting) (req : Request)
    (t : String) (ht : IsTarget req t) :
    ∃ w', DumpRequestTo checkNames w req = some (w', bodyErr req) ∧
      w'.calls = w.calls ++ [requestLine req t]
        ++ (if isAbsolute req.RequestURI = false ∧
              (if req.Host ≠ "" then req.Host else
                match req.URL with
                | some u => u.Host
                | none => "") ≠ "" then
            ["Host: " ++ (if req.Host ≠ "" then req.Host else
                match req.URL with
                | some u => u.Host
                | none => "") ++ "\r\n"]
          else [])
        ++ ((if req.TransferEncoding = [] then [] else [transferEncodingLine req])
          ++ (if req.Close then [connectionLine req] else [])
          ++ headerCalls checkNames req.Header ++ ["\r\n"] ++ bodyCalls req) := by
  obtain ⟨w', h1, h2, _⟩ := DumpRequestTo_bytes checkNames hw req t ht
  refine ⟨w', h1, ?_⟩
  rw [h2]
  have hv : (if req.Host ≠ "" then req.Host else
      match req.URL with
      | some u => u.Host
      | none => "") = hostValue req := rfl
  rw [hv]
  cases ha : isAbsolute req.RequestURI <;> by_cases hh : hostValue req = "" <;>
    simp [headCalls, ha, hh, List.append_assoc]

/-- Witness for C2: the encoding scenario, where the Host line is written. -/
theorem C2_host_line_witness :
    Writer.sink.Accepting ∧ IsTarget (scenarioRequest none) "/foo?x=1" ∧
    ∃ w', DumpRequestTo false Writer.sink (scenarioRequest none)
        = some (w', bodyErr (scenarioRequest none)) ∧
      w'.calls = Writer.sink.calls ++ [requestLine (scenarioRequest none) "/foo?x=1"]
        ++ (if isAbsolute (scenarioRequest none).RequestURI = false ∧
              (if (scenarioRequest none).Host ≠ "" then (scenarioRequest none).Host else
                match (scenarioRequest none).URL with
                | some u => u.Host
                | none => "") ≠ "" then
            ["Host: " ++ (if (scenarioRequest none).Host ≠ "" then (scenarioRequest none).Host else
                match (scenarioRequest none).URL with
                | some u => u.Host
                | none => "") ++ "\r\n"]
          else [])
        ++ ((if (scenarioRequest none).TransferEncoding = [] then []
              else [transferEncodingLine (scenarioRequest none)])
          ++ (if (scenarioRequest none).Close then [connectionLine (scenarioRequest none)] else [])
          ++ headerCalls false (scenarioRequest none).Header ++ ["\r\n"]
          ++ bodyCalls (scenarioRequest none)) :=
  ⟨fun _ _ => rfl, Or.inl ⟨by decide, rfl⟩,
    C2_host_line false Writer.sink (fun _ _ => rfl) (scenarioRequest none) "/foo?x=1"
      (Or.inl ⟨by decide, rfl⟩)⟩

/-- **C3.** On an accepting writer, for every request with no body whose target
`t` is defined, `DumpRequestTo` returns nil and the bytes it writes are, in this
order: the request line; the Host line when applicable; the Transfer-Encoding
line when the list is non-empty; `Connection: close\r\n` if and only if
`req.Close` is set; the lines of the generic header pass; the blank line.  In
particular the scenario request encodes to
`GET /foo?x=1 HTTP/1.1\r\nHost: example.com\r\nX-Test: a\r\n\r\n`. -/
theorem C3_no_body_encoding :
    (∀ (checkNames : Bool) (w : Writer) (req : Request) (t : String),
      w.Accepting → req.Body = none → IsTarget req t →
      ∃ w', DumpRequestTo checkNames w req = some (w', none) ∧
        w'.bytes = w.bytes
          ++ ((if req.Method = "" then "GET" else req.Method) ++ " " ++ t ++ " HTTP/" ++
              fmtInt req.ProtoMajor ++ "." ++ fmtInt req.ProtoMinor ++ "\r\n")
          ++ (if isAbsolute req.RequestURI = false ∧ hostValue req ≠ "" then
                "Host: " ++ hostValue req ++ "\r\n" else "")
          ++ (if req.TransferEncoding ≠ [] then
                "Transfer-Encoding: " ++ Join req.TransferEncoding "," ++ "\r\n" else "")
          ++ (if req.Close = true then "Connection: close\r\n" else "")
          ++ concat (headerLines checkNames req.Header)
          ++ "\r\n") ∧
    (∀ (checkNames : Bool) (url : Option URL),
      (DumpRequestTo checkNames Writer.sink (scenarioRequest url)).map
          (fun r => (r.1.bytes, r.2)) =
        some ("GET /foo?x=1 HTTP/1.1\r\nHost: example.com\r\nX-Test: a\r\n\r\n", none)) := by
  constructor
  · intro checkNames w req t hw hb ht
    obtain ⟨w', h1, _, h3⟩ := DumpRequestTo_bytes checkNames hw req t ht
    refine ⟨w', ?_, ?_⟩
    · rw [h1]; simp [bodyErr, hb]
    · rw [h3]
      have hbc : concat (bodyCalls req) = "" := by simp [bodyCalls, hb, concat]
      rw [hbc]
      cases ha : isAbsolute req.RequestURI <;> by_cases hh : hostValue req = "" <;>
        by_cases hte : req.TransferEncoding = [] <;> by_cases hc : req.Close = true <;>
        simp [headerSection, requestLine, hostLine, transferEncodingLine, connectionLine,
          ha, hh, hte, hc, String.append_assoc]
  · intro checkNames url
    cases checkNames <;> rfl

/-- Witness for C3: the general statement at the scenario request. -/
theorem C3_no_body_encoding_witness :
    Writer.sink.Accepting ∧ (scenarioRequest none).Body = none ∧
    IsTarget (scenarioRequest none) "/foo?x=1" ∧
    ∃ w', DumpRequestTo true Writer.sink (scenarioRequest none) = some (w', none) ∧
      w'.bytes = Writer.sink.bytes
        ++ ((if (scenarioRequest none).Method = "" then "GET" else (scenarioRequest none).Method)
            ++ " " ++ "/foo?x=1" ++ " HTTP/" ++
            fmtInt (scenarioRequest none).ProtoMajor ++ "." ++
            fmtInt (scenarioRequest none).ProtoMinor ++ "\r\n")
        ++ (if isAbsolute (scenarioRequest none).RequestURI = false ∧
              hostValue (scenarioRequest none) ≠ "" then
              "Host: " ++ hostValue (scenarioRequest none) ++ "\r\n" else "")
        ++ (if (scenarioRequest none).TransferEncoding ≠ [] then
              "Transfer-Encoding: " ++ Join (scenarioRequest none).TransferEncoding "," ++ "\r\n"
            else "")
        ++ (if (scenarioRequest none).Close = true then "Connection: close\r\n" else "")
        ++ concat (headerLines true (scenarioRequest none).Header)
        ++ "\r\n" :=
  ⟨fun _ _ => rfl, rfl, Or.inl ⟨by decide, rfl⟩,
    C3_no_body_encoding.1 true Writer.sink (scenarioRequest none) "/foo?x=1"
      (fun _ _ => rfl) rfl (Or.inl ⟨by decide, rfl⟩)⟩

/-- **C4.** On an accepting writer, for every request with a body that is not in
chunked mode (the transfer-encoding list is empty or its first entry is not
`chunked`), whose reader does not fail and whose target `t` is defined,
`DumpRequestTo` returns nil and the bytes written after the blank line that ends
the header block are exactly the bytes of the body. -/
theorem C4_plain_body (checkNames : Bool) (w : Writer) (hw : w.Accepting) (req : Request)
    (t : String) (ht : IsTarget req t) (body : Body) (hb : req.Body = some body)
    (herr : body.err = none)
    (hte : req.TransferEncoding = [] ∨ req.TransferEncoding.head? ≠ some "chunked") :
    ∃ w', DumpRequestTo checkNames w req = some (w', none) ∧
      w'.bytes = w.bytes ++ headerSection checkNames req t ++ "\r\n" ++ concat body.reads := by
  obtain ⟨w', h1, _, h3⟩ := DumpRequestTo_bytes checkNames hw req t ht
  have hc : isChunked req = false := by
    rcases hte with h | h
    · simp [isChunked, h]
    · simpa [isChunked] using h
  refine ⟨w', ?_, ?_⟩
  · rw [h1]; simp [bodyErr, hb, herr]
  · rw [h3]; simp [bodyCalls, hb, hc, concat_copied]

/-- Witness for C4: a body delivered in two reads and an empty one. -/
theorem C4_plain_body_witness :
    Writer.sink.Accepting ∧ IsTarget (postRequest [] ⟨["ab", "", "c"], none⟩) "/upload" ∧
    (postRequest [] ⟨["ab", "", "c"], none⟩).Body = some ⟨["ab", "", "c"], none⟩ ∧
    (⟨["ab", "", "c"], none⟩ : Body).err = none ∧
    ((postRequest [] ⟨["ab", "", "c"], none⟩).TransferEncoding = [] ∨
      (postRequest [] ⟨["ab", "", "c"], none⟩).TransferEncoding.head? ≠ some "chunked") ∧
    ∃ w', DumpRequestTo false Writer.sink (postRequest [] ⟨["ab", "", "c"], none⟩)
        = some (w', none) ∧
      w'.bytes = Writer.sink.bytes
        ++ headerSection false (postRequest [] ⟨["ab", "", "c"], none⟩) "/upload" ++ "\r\n"
        ++ concat (⟨["ab", "", "c"], none⟩ : Body).reads :=
  ⟨fun _ _ => rfl, Or.inl ⟨by decide, rfl⟩, rfl, rfl, Or.inl rfl,
    C4_plain_body false Writer.sink (fun _ _ => rfl) (postRequest [] ⟨["ab", "", "c"], none⟩)
      "/upload" (Or.inl ⟨by decide, rfl⟩) ⟨["ab", "", "c"], none⟩ rfl rfl (Or.inl rfl)⟩

/-- **C5.** On an accepting writer, for every request with a body whose
transfer-encoding list starts with `chunked`, whose reader does not fail and
whose target `t` is defined, `DumpRequestTo` returns nil and the bytes written
after the header block are a chunked encoding of the body: chunks
`<hex length>\r\n<data>\r\n` of non-zero length whose data concatenated are the
body bytes, then the zero-length chunk `0\r\n`, then a trailing CRLF, and
nothing else. -/
theorem C5_chunked_body (checkNames : Bool) (w : Writer) (hw : w.Accepting) (req : Request)
    (t : String) (ht : IsTarget req t) (body : Body) (hb : req.Body = some body)
    (herr : body.err = none) (hte : ∃ rest, req.TransferEncoding = "chunked" :: rest) :
    ∃ w' chunks, DumpRequestTo checkNames w req = some (w', none) ∧
      (∀ d ∈ chunks, len d ≠ 0) ∧
      concat chunks = concat body.reads ∧
      w'.bytes = w.bytes ++ headerSection checkNames req t ++ "\r\n"
        ++ concat (chunks.map fun d => fmtHex (len d) ++ "\r\n" ++ d ++ "\r\n")
        ++ "0\r\n" ++ "\r\n" := by
  obtain ⟨w', h1, _, h3⟩ := DumpRequestTo_bytes checkNames hw req t ht
  obtain ⟨rest, hrest⟩ := hte
  have hc : isChunked req = true := by simp [isChunked, hrest]
  have hmap : ∀ ds : List String,
      concat (ds.flatMap fun b => [fmtHex (len b) ++ "\r\n", b, "\r\n"]) =
        concat (ds.map fun d => fmtHex (len d) ++ "\r\n" ++ d ++ "\r\n") := by
    intro ds
    induction ds with
    | nil => rfl
    | cons d ds ih =>
      rw [List.flatMap_cons, concat_append, List.map_cons, ih]
      simp [concat, String.append_assoc]
  refine ⟨w', copied body.reads, ?_, ?_, concat_copied _, ?_⟩
  · rw [h1]; simp [bodyErr, hb, herr]
  · intro d hd
    have := (List.mem_filter.1 hd).2
    simp at this
    omega
  · rw [h3]
    simp [bodyCalls, hb, hc, chunkCalls, concat_append, hmap, concat, String.append_assoc]

/-- Witness for C5: a body delivered in two reads and an empty one. -/
theorem C5_chunked_body_witness :
    Writer.sink.Accepting ∧
    IsTarget (postRequest ["chunked"] ⟨["ab", "", "c"], none⟩) "/upload" ∧
    (postRequest ["chunked"] ⟨["ab", "", "c"], none⟩).Body = some ⟨["ab", "", "c"], none⟩ ∧
    (⟨["ab", "", "c"], none⟩ : Body).err = none ∧
    (∃ rest, (postRequest ["chunked"] ⟨["ab", "", "c"], none⟩).TransferEncoding
      = "chunked" :: rest) ∧
    ∃ w' chunks, DumpRequestTo false Writer.sink (postRequest ["chunked"] ⟨["ab", "", "c"], none⟩)
        = some (w', none) ∧
      (∀ d ∈ chunks, len d ≠ 0) ∧
      concat chunks = concat (⟨["ab", "", "c"], none⟩ : Body).reads ∧
      w'.bytes = Writer.sink.bytes
        ++ headerSection false (postRequest ["chunked"] ⟨["ab", "", "c"], none⟩) "/upload"
        ++ "\r\n"
        ++ concat (chunks.map fun d => fmtHex (len d) ++ "\r\n" ++ d ++ "\r\n")
        ++ "0\r\n" ++ "\r\n" :=
  ⟨fun _ _ => rfl, Or.inl ⟨by decide, rfl⟩, rfl, rfl, ⟨[], rfl⟩,
    C5_chunked_body false Writer.sink (fun _ _ => rfl)
      (postRequest ["chunked"] ⟨["ab", "", "c"], none⟩) "/upload" (Or.inl ⟨by decide, rfl⟩)
      ⟨["ab", "", "c"], none⟩ rfl rfl ⟨[], rfl⟩⟩

/-- **C6, as stated, fails.** For the chunked body `hello` the bytes after the
header block are `5\r\nhello\r\n0\r\n\r\n` and nothing more: the chunked encoder
writes `5\r\nhello\r\n` and, on close, `0\r\n`; the CRLF that `DumpRequestTo`
appends is the one that ends the message, not an extra one. -/
theorem C6_counterexample :
    (DumpRequestTo false Writer.sink (postRequest ["chunked"] ⟨["hello"], none⟩)).map
        (fun r => r.1.bytes) =
      some ("POST /upload HTTP/1.1\r\nHost: example.com\r\nTransfer-Encoding: chunked\r\n\r\n"
        ++ "5\r\nhello\r\n0\r\n\r\n") ∧
    (DumpRequestTo false Writer.sink (postRequest ["chunked"] ⟨["hello"], none⟩)).map
        (fun r => r.1.bytes) ≠
      some ("POST /upload HTTP/1.1\r\nHost: example.com\r\nTransfer-Encoding: chunked\r\n\r\n"
        ++ "5\r\nhello\r\n0\r\n\r\n" ++ "\r\n") ∧
    (chunkedClose (Copy chunkedWrite Writer.sink ["hello"] none).1).1.bytes
      ≠ "5\r\nhello\r\n0\r\n\r\n" := by
  refine ⟨by decide, by decide, by decide⟩

/-- **C6, amended.** On an accepting writer, for a request in chunked mode whose
body is the five bytes `hello` delivered in one read, the chunked encoder's
output for the body and its close is `5\r\nhello\r\n0\r\n`, and `DumpRequestTo`
writes after the header block exactly that followed by one `\r\n`, that is
`5\r\nhello\r\n0\r\n\r\n`. -/
theorem C6_hello_chunked (checkNames : Bool) (w : Writer) (hw : w.Accepting) (req : Request)
    (t : String) (ht : IsTarget req t) (hb : req.Body = some ⟨["hello"], none⟩)
    (hte : ∃ rest, req.TransferEncoding = "chunked" :: rest) :
    (chunkedClose (Copy chunkedWrite w ["hello"] none).1).1.bytes
      = w.bytes ++ "5\r\nhello\r\n0\r\n" ∧
    ∃ w', DumpRequestTo checkNames w req = some (w', none) ∧
      w'.bytes = w.bytes ++ headerSection checkNames req t ++ "\r\n"
        ++ "5\r\nhello\r\n0\r\n" ++ "\r\n" := by
  obtain ⟨w', h1, _, h3⟩ := DumpRequestTo_bytes checkNames hw req t ht
  obtain ⟨rest, hrest⟩ := hte
  have hc : isChunked req = true := by simp [isChunked, hrest]
  have hk : chunkCalls ["hello"] = ["5\r\n", "hello", "\r\n"] := by decide
  refine ⟨?_, w', ?_, ?_⟩
  · rw [Copy_chunked_accepting hw, hk]
    simp only [chunkedClose, Write_fst, Writer.bytes, concat_append, String.append_assoc]
    rfl
  · rw [h1]; simp [bodyErr, hb]
  · rw [h3]
    simp only [bodyCalls, hb, hc, hk]
    simp only [String.append_assoc]
    rfl

/-- Witness for C6: the `POST /upload` request with the body `hello`. -/
theorem C6_hello_chunked_witness :
    Writer.sink.Accepting ∧
    IsTarget (postRequest ["chunked"] ⟨["hello"], none⟩) "/upload" ∧
    (postRequest ["chunked"] ⟨["hello"], none⟩).Body = some ⟨["hello"], none⟩ ∧
    (∃ rest, (postRequest ["chunked"] ⟨["hello"], none⟩).TransferEncoding = "chunked" :: rest) ∧
    ((chunkedClose (Copy chunkedWrite Writer.sink ["hello"] none).1).1.bytes
      = Writer.sink.bytes ++ "5\r\nhello\r\n0\r\n" ∧
    ∃ w', DumpRequestTo false Writer.sink (postRequest ["chunked"] ⟨["hello"], none⟩)
        = some (w', none) ∧
      w'.bytes = Writer.sink.bytes
        ++ headerSection false (postRequest ["chunked"] ⟨["hello"], none⟩) "/upload" ++ "\r\n"
        ++ "5\r\nhello\r\n0\r\n" ++ "\r\n") :=
  ⟨fun _ _ => rfl, Or.inl ⟨by decide, rfl⟩, rfl, ⟨[], rfl⟩,
    C6_hello_chunked false Writer.sink (fun _ _ => rfl)
      (postRequest ["chunked"] ⟨["hello"], none⟩) "/upload" (Or.inl ⟨by decide, rfl⟩) rfl
      ⟨[], rfl⟩⟩

/-- **C7, at a failing input.** Every call of the writer fails, the request has
no header and no body: `DumpRequestTo` still makes all three calls (request
line, Host line, blank line) and returns nil. -/
theorem C7_write_failure_ignored :
    (DumpRequestTo false (Writer.broken "broken pipe") (headerRequest [])).map
        (fun r => (r.1.calls, r.2)) =
      some (["GET / HTTP/1.1\r\n", "Host: example.com\r\n", "\r\n"], none) ∧
    (Writer.broken "broken pipe").respond 0 "GET / HTTP/1.1\r\n" = some "broken pipe" := by
  refine ⟨by decide, rfl⟩

/-- **C8, at a failing input.** In chunked mode the body reader delivers `he` and
then fails: `DumpRequestTo` returns the read error, but after the failure it
still writes the zero-length chunk `0\r\n` and the closing `\r\n`. -/
theorem C8_terminator_after_read_failure :
    (DumpRequestTo false Writer.sink
        (postRequest ["chunked"] ⟨["he"], some "unexpected EOF"⟩)).map
        (fun r => (r.1.calls, r.2)) =
      some (["POST /upload HTTP/1.1\r\n", "Host: example.com\r\n",
          "Transfer-Encoding: chunked\r\n", "\r\n",
          "2\r\n", "he", "\r\n", "0\r\n", "\r\n"],
        some "unexpected EOF") := by
  decide

theorem sortedKeyValues_filter (h : Header) :
    sortedKeyValues (withoutExcluded h) reqWriteExcludeHeaderDump
      = sortedKeyValues h reqWriteExcludeHeaderDump := by
  unfold sortedKeyValues withoutExcluded
  rw [List.filter_filter]
  congr 1
  apply List.filter_congr
  intro kv _
  by_cases h1 : kv.1 = "Host" <;> by_cases h2 : kv.1 = "Transfer-Encoding" <;>
    by_cases h3 : kv.1 = "Trailer" <;> simp [reqWriteExcludeHeaderDump, h1, h2, h3]

/-- **C9.** For every writer and request, the entries the generic header pass
goes through carry none of the keys `Host`, `Transfer-Encoding`, `Trailer`, and
`DumpRequestTo` behaves exactly as on the request with the entries under these
three names removed from the header collection: no such entry is written. -/
theorem C9_excluded_headers (checkNames : Bool) (w : Writer) (req : Request) :
    (∀ kv ∈ sortedKeyValues req.Header reqWriteExcludeHeaderDump,
      kv.1 ≠ "Host" ∧ kv.1 ≠ "Transfer-Encoding" ∧ kv.1 ≠ "Trailer") ∧
    DumpRequestTo checkNames w req =
      DumpRequestTo checkNames w { req with Header := withoutExcluded req.Header } := by
  constructor
  · intro kv hkv
    have hmem : kv ∈ req.Header.filter fun kv => !reqWriteExcludeHeaderDump kv.1 :=
      (List.perm_insertionSort _ _).mem_iff.1 hkv
    have := (List.mem_filter.1 hmem).2
    simpa [reqWriteExcludeHeaderDump, and_assoc] using this
  · rw [DumpRequestTo_eq, DumpRequestTo_eq]
    have ht : ∀ w0 : Writer, tailResult checkNames w0 req =
        tailResult checkNames w0 { req with Header := withoutExcluded req.Header } := by
      intro w0
      simp only [tailResult, WriteSubset, sortedKeyValues_filter]
    cases hq : (if req.RequestURI = "" then req.URL.map URL.RequestURI
        else some req.RequestURI) with
    | none => simp only [hq]
    | some t =>
      simp only [hq]
      exact ht _

/-- Witness for C9: a collection that holds a `Host` and a `Trailer` entry. -/
theorem C9_excluded_headers_witness :
    (("X-Test", ["a"]) ∈ sortedKeyValues
        (headerRequest [("Trailer", ["t"]), ("X-Test", ["a"]), ("Host", ["h"])]).Header
        reqWriteExcludeHeaderDump) ∧
    ("X-Test" ≠ "Host" ∧ "X-Test" ≠ "Transfer-Encoding" ∧ "X-Test" ≠ "Trailer") :=
  ⟨by decide,
    (C9_excluded_headers false Writer.sink
      (headerRequest [("Trailer", ["t"]), ("X-Test", ["a"]), ("Host", ["h"])])).1
      ("X-Test", ["a"]) (by decide)⟩

/-- **C10, as stated, fails.** Keys inserted in the order `B`, `A` are written in
the order `A`, `B`; and the value stored as ` a\nb ` is written as `a b`: the
output differs from the lines in the order and form of the collection. -/
theorem C10_counterexample :
    (DumpRequestTo false Writer.sink (headerRequest [("B", ["1"]), ("A", ["2"])])).map
        (fun r => r.1.bytes) =
      some "GET / HTTP/1.1\r\nHost: example.com\r\nA: 2\r\nB: 1\r\n\r\n" ∧
    (DumpRequestTo true Writer.sink (headerRequest [("B", ["1"]), ("A", ["2"])])).map
        (fun r => r.1.bytes) =
      some "GET / HTTP/1.1\r\nHost: example.com\r\nA: 2\r\nB: 1\r\n\r\n" ∧
    concat (linesAsStored [("B", ["1"]), ("A", ["2"])]) = "B: 1\r\nA: 2\r\n" ∧
    (DumpRequestTo false Writer.sink (headerRequest [("X-Note", [" a\nb "])])).map
        (fun r => r.1.bytes) =
      some "GET / HTTP/1.1\r\nHost: example.com\r\nX-Note: a b\r\n\r\n" ∧
    (DumpRequestTo true Writer.sink (headerRequest [("X-Note", [" a\nb "])])).map
        (fun r => r.1.bytes) =
      some "GET / HTTP/1.1\r\nHost: example.com\r\nX-Note: a b\r\n\r\n" ∧
    concat (linesAsStored [("X-Note", [" a\nb "])]) = "X-Note:  a\nb \r\n" := by
  refine ⟨by decide, by decide, by decide, by decide, by decide, by decide⟩

/-- **C10, amended.** On an accepting writer, for a request whose target `t` is
defined, the generic header pass writes, between the head of the request and the
blank line, the entries of the header collection whose key is outside the
excluded set (and, where the library checks field names, is a valid field name),
arranged in ascending order of their keys; each entry gives one line
`<key>: <value>\r\n` per stored value, in stored order, the value with CR and LF
turned into spaces and the white space at both ends removed; nothing else is
written by the pass. -/
theorem C10_header_pass (checkNames : Bool) (w : Writer) (hw : w.Accepting) (req : Request)
    (t : String) (ht : IsTarget req t) :
    ∃ (w' : Writer) (entries : Header),
      DumpRequestTo checkNames w req = some (w', bodyErr req) ∧
      entries.Perm (req.Header.filter fun kv =>
        (!checkNames || ValidHeaderFieldName kv.1) && !reqWriteExcludeHeaderDump kv.1) ∧
      entries.Sorted (fun a b => a.1.data ≤ b.1.data) ∧
      w'.calls = w.calls ++ headCalls req t
        ++ (entries.flatMap fun kv => kv.2.flatMap fun v =>
              [kv.1, ": ", TrimString (headerNewlineToSpace v), "\r\n"])
        ++ ["\r\n"] ++ bodyCalls req ∧
      w'.bytes = w.bytes ++ concat (headCalls req t)
        ++ concat (entries.flatMap fun kv => kv.2.map fun v =>
              kv.1 ++ ": " ++ TrimString (headerNewlineToSpace v) ++ "\r\n")
        ++ "\r\n" ++ concat (bodyCalls req) := by
  obtain ⟨w', h1, h2, h3⟩ := DumpRequestTo_bytes checkNames hw req t ht
  haveI : IsTotal (String × List String) (fun a b => a.1.data ≤ b.1.data) :=
    ⟨fun a b => le_total a.1.data b.1.data⟩
  haveI : IsTrans (String × List String) (fun a b => a.1.data ≤ b.1.data) :=
    ⟨fun _ _ _ hab hbc => le_trans hab hbc⟩
  refine ⟨w', (sortedKeyValues req.Header reqWriteExcludeHeaderDump).filter
    fun kv => keyWritten checkNames kv.1, h1, ?_, ?_, ?_, ?_⟩
  · have hp := (List.perm_insertionSort (fun a b : String × List String => a.1.data ≤ b.1.data)
      (req.Header.filter fun kv => !reqWriteExcludeHeaderDump kv.1)).filter
      (fun kv => keyWritten checkNames kv.1)
    rw [List.filter_filter] at hp
    have he : (fun kv : String × List String =>
        (!checkNames || ValidHeaderFieldName kv.1) && !reqWriteExcludeHeaderDump kv.1)
        = fun kv => keyWritten checkNames kv.1 && !reqWriteExcludeHeaderDump kv.1 := by
      funext kv
      cases checkNames <;> simp [keyWritten]
    rw [he]
    exact hp
  · exact (List.sorted_insertionSort (fun a b : String × List String => a.1.data ≤ b.1.data) _).filter _
  · rw [h2]; rfl
  · have hl : concat (((sortedKeyValues req.Header reqWriteExcludeHeaderDump).filter
        fun kv => keyWritten checkNames kv.1).flatMap fun kv => kv.2.map fun v =>
          kv.1 ++ ": " ++ TrimString (headerNewlineToSpace v) ++ "\r\n")
        = concat (headerLines checkNames req.Header) := rfl
    rw [h3, hl, concat_headCalls]
    simp only [headerSection, String.append_assoc]

/-- Witness for C10: the collection with the keys `B` and `A`. -/
theorem C10_header_pass_witness :
    Writer.sink.Accepting ∧ IsTarget (headerRequest [("B", ["1"]), ("A", ["2"])]) "/" ∧
    ∃ (w' : Writer) (entries : Header),
      DumpRequestTo false Writer.sink (headerRequest [("B", ["1"]), ("A", ["2"])])
        = some (w', bodyErr (headerRequest [("B", ["1"]), ("A", ["2"])])) ∧
      entries.Perm ((headerRequest [("B", ["1"]), ("A", ["2"])]).Header.filter fun kv =>
        (!false || ValidHeaderFieldName kv.1) && !reqWriteExcludeHeaderDump kv.1) ∧
      entries.Sorted (fun a b => a.1.data ≤ b.1.data) ∧
      w'.calls = Writer.sink.calls ++ headCalls (headerRequest [("B", ["1"]), ("A", ["2"])]) "/"
        ++ (entries.flatMap fun kv => kv.2.flatMap fun v =>
              [kv.1, ": ", TrimString (headerNewlineToSpace v), "\r\n"])
        ++ ["\r\n"] ++ bodyCalls (headerRequest [("B", ["1"]), ("A", ["2"])]) ∧
      w'.bytes = Writer.sink.bytes
        ++ concat (headCalls (headerRequest [("B", ["1"]), ("A", ["2"])]) "/")
        ++ concat (entries.flatMap fun kv => kv.2.map fun v =>
              kv.1 ++ ": " ++ TrimString (headerNewlineToSpace v) ++ "\r\n")
        ++ "\r\n" ++ concat (bodyCalls (headerRequest [("B", ["1"]), ("A", ["2"])])) :=
  ⟨fun _ _ => rfl, Or.inl ⟨by decide, rfl⟩,
    C10_header_pass false Writer.sink (fun _ _ => rfl)
      (headerRequest [("B", ["1"]), ("A", ["2"])]) "/" (Or.inl ⟨by decide, rfl⟩)⟩

/-! ## End of the header block -/

theorem endsCRLF_append_right (a : String) {b : String} (hb : EndsCRLF b) :
    EndsCRLF (a ++ b) := by
  obtain ⟨p, hp⟩ := hb
  exact ⟨a ++ p, by rw [hp, String.append_assoc]⟩

theorem endsCRLF_append {a b : String} (ha : EndsCRLF a) (hb : b = "" ∨ EndsCRLF b) :
    EndsCRLF (a ++ b) := by
  rcases hb with h | h
  · rw [h]; simpa using ha
  · exact endsCRLF_append_right a h

theorem concat_endsCRLF (ls : List String) (h : ∀ l ∈ ls, EndsCRLF l) :
    concat ls = "" ∨ EndsCRLF (concat ls) := by
  induction ls with
  | nil => exact Or.inl rfl
  | cons l ls ih =>
    right
    rw [concat]
    exact endsCRLF_append (h l (List.mem_cons_self _ _))
      (ih fun x hx => h x (List.mem_cons_of_mem _ hx))

theorem headerLines_endsCRLF (checkNames : Bool) (h : Header) :
    ∀ l ∈ headerLines checkNames h, EndsCRLF l := by
  intro l hl
  simp only [headerLines, List.mem_flatMap, List.mem_map] at hl
  obtain ⟨kv, _, v, _, rfl⟩ := hl
  exact ⟨kv.1 ++ ": " ++ cleanValue v, rfl⟩

theorem headerSection_endsCRLF (checkNames : Bool) (req : Request) (t : String) :
    EndsCRLF (headerSection checkNames req t) := by
  unfold headerSection
  refine endsCRLF_append (endsCRLF_append (endsCRLF_append (endsCRLF_append ?_ ?_) ?_) ?_)
    (concat_endsCRLF _ (headerLines_endsCRLF checkNames req.Header))
  · exact ⟨_, rfl⟩
  · unfold hostLine
    split
    · exact Or.inr ⟨_, rfl⟩
    · exact Or.inl rfl
  · unfold transferEncodingLine
    split
    · exact Or.inl rfl
    · exact Or.inr ⟨_, rfl⟩
  · unfold connectionLine
    split
    · exact Or.inr ⟨"Connection: close", rfl⟩
    · exact Or.inl rfl

/-- **C11.** On an accepting writer, for every request with a nil body whose
target `t` is defined, whatever the transfer-encoding list and the Close flag:
`DumpRequestTo` returns nil, its last `Write` call is the blank line `\r\n` that
ends the header block, the header section before it ends with CRLF, so that the
whole output ends in `\r\n\r\n`, and nothing is written after it. -/
theorem C11_nil_body_ends_with_blank_line (checkNames : Bool) (w : Writer) (hw : w.Accepting)
    (req : Request) (t : String) (ht : IsTarget req t) (hb : req.Body = none) :
    ∃ (w' : Writer) (pre : String), DumpRequestTo checkNames w req = some (w', none) ∧
      w'.calls = w.calls ++ headCalls req t ++ headerCalls checkNames req.Header ++ ["\r\n"] ∧
      headerSection checkNames req t = pre ++ "\r\n" ∧
      w'.bytes = w.bytes ++ pre ++ "\r\n\r\n" := by
  obtain ⟨w', h1, h2, h3⟩ := DumpRequestTo_bytes checkNames hw req t ht
  obtain ⟨pre, hpre⟩ := headerSection_endsCRLF checkNames req t
  have hbc : bodyCalls req = [] := by simp [bodyCalls, hb]
  refine ⟨w', pre, ?_, ?_, hpre, ?_⟩
  · rw [h1]; simp [bodyErr, hb]
  · rw [h2, hbc, List.append_nil]
  · rw [h3, hbc, hpre]
    simp only [concat, String.append_assoc, String.append_empty]
    rfl

/-- Witness for C11: a nil body with a transfer-encoding list and Close set. -/
theorem C11_nil_body_ends_with_blank_line_witness :
    Writer.sink.Accepting ∧
    IsTarget { scenarioRequest none with TransferEncoding := ["chunked"], Close := true }
      "/foo?x=1" ∧
    ({ scenarioRequest none with TransferEncoding := ["chunked"], Close := true } : Request).Body
      = none ∧
    ∃ (w' : Writer) (pre : String),
      DumpRequestTo false Writer.sink
          { scenarioRequest none with TransferEncoding := ["chunked"], Close := true }
        = some (w', none) ∧
      w'.calls = Writer.sink.calls
        ++ headCalls { scenarioRequest none with TransferEncoding := ["chunked"], Close := true }
            "/foo?x=1"
        ++ headerCalls false
            ({ scenarioRequest none with TransferEncoding := ["chunked"], Close := true }
              : Request).Header
        ++ ["\r\n"] ∧
      headerSection false
          { scenarioRequest none with TransferEncoding := ["chunked"], Close := true } "/foo?x=1"
        = pre ++ "\r\n" ∧
      w'.bytes = Writer.sink.bytes ++ pre ++ "\r\n\r\n" :=
  ⟨fun _ _ => rfl, Or.inl ⟨by decide, rfl⟩, rfl,
    C11_nil_body_ends_with_blank_line false Writer.sink (fun _ _ => rfl)
      { scenarioRequest none with TransferEncoding := ["chunked"], Close := true } "/foo?x=1"
      (Or.inl ⟨by decide, rfl⟩) rfl⟩

theorem Join_eq_concat_intersperse (xs : List String) (sep : String) :
    Join xs sep = concat (xs.intersperse sep) := by
  induction xs with
  | nil => rfl
  | cons x xs ih =>
    cases xs with
    | nil => simp [Join, concat]
    | cons y ys =>
      rw [Join, ih]
      simp [List.intersperse, concat, String.append_assoc]

/-- **C12.** On an accepting writer, for every request whose target `t` is
defined, the call of the Host step (or of the request line) is followed by one
call writing `Transfer-Encoding: <v1>,<v2>,...\r\n` if and only if
`req.TransferEncoding` is non-empty, the value being the entries of the list in
list order with a single comma between neighbours and nothing else added; the
first entry need not be `chunked`.  The calls after it are those of the
Connection, header, blank-line and body steps. -/
theorem C12_transfer_encoding_line (checkNames : Bool) (w : Writer) (hw : w.Accepting)
    (req : Request) (t : String) (ht : IsTarget req t) :
    ∃ w', DumpRequestTo checkNames w req = some (w', bodyErr req) ∧
      w'.calls = w.calls
        ++ ([requestLine req t]
          ++ (if !isAbsolute req.RequestURI && decide (hostValue req ≠ "") then
                ["Host: " ++ hostValue req ++ "\r\n"] else []))
        ++ (if req.TransferEncoding ≠ [] then
              ["Transfer-Encoding: " ++ concat (req.TransferEncoding.intersperse ",") ++ "\r\n"]
            else [])
        ++ ((if req.Close then [connectionLine req] else [])
          ++ headerCalls checkNames req.Header ++ ["\r\n"] ++ bodyCalls req) := by
  obtain ⟨w', h1, h2, _⟩ := DumpRequestTo_bytes checkNames hw req t ht
  refine ⟨w', h1, ?_⟩
  rw [h2]
  by_cases hte : req.TransferEncoding = []
  · simp [headCalls, hte, List.append_assoc]
  · simp [headCalls, hte, transferEncodingLine, Join_eq_concat_intersperse, List.append_assoc]

/-- Witness for C12: the list `gzip`, `chunked`, whose first entry is not
`chunked`. -/
theorem C12_transfer_encoding_line_witness :
    Writer.sink.Accepting ∧
    IsTarget (postRequest ["gzip", "chunked"] ⟨["ab"], none⟩) "/upload" ∧
    ∃ w', DumpRequestTo false Writer.sink (postRequest ["gzip", "chunked"] ⟨["ab"], none⟩)
        = some (w', bodyErr (postRequest ["gzip", "chunked"] ⟨["ab"], none⟩)) ∧
      w'.calls = Writer.sink.calls
        ++ ([requestLine (postRequest ["gzip", "chunked"] ⟨["ab"], none⟩) "/upload"]
          ++ (if !isAbsolute (postRequest ["gzip", "chunked"] ⟨["ab"], none⟩).RequestURI &&
                decide (hostValue (postRequest ["gzip", "chunked"] ⟨["ab"], none⟩) ≠ "") then
                ["Host: " ++ hostValue (postRequest ["gzip", "chunked"] ⟨["ab"], none⟩) ++ "\r\n"]
              else []))
        ++ (if (postRequest ["gzip", "chunked"] ⟨["ab"], none⟩).TransferEncoding ≠ [] then
              ["Transfer-Encoding: " ++
                concat ((postRequest ["gzip", "chunked"] ⟨["ab"], none⟩).TransferEncoding.intersperse
                  ",") ++ "\r\n"]
            else [])
        ++ ((if (postRequest ["gzip", "chunked"] ⟨["ab"], none⟩).Close then
              [connectionLine (postRequest ["gzip", "chunked"] ⟨["ab"], none⟩)] else [])
          ++ headerCalls false (postRequest ["gzip", "chunked"] ⟨["ab"], none⟩).Header ++ ["\r\n"]
          ++ bodyCalls (postRequest ["gzip", "chunked"] ⟨["ab"], none⟩)) :=
  ⟨fun _ _ => rfl, Or.inl ⟨by decide, rfl⟩,
    C12_transfer_encoding_line false Writer.sink (fun _ _ => rfl)
      (postRequest ["gzip", "chunked"] ⟨["ab"], none⟩) "/upload" (Or.inl ⟨by decide, rfl⟩)⟩

/-- **C20.** `DumpRequestTo` reads `req.URL` only to derive the target of a
request with an empty `RequestURI` and, behind a nil check, the host of a request
with an empty `Host`.  For every request with a non-empty `RequestURI` and a nil
URL it returns without a fault on every writer, and on an accepting writer the
request line is followed by a Host call if and only if `RequestURI` is not
absolute and `req.Host` is non-empty.  With a non-empty `RequestURI` and a
non-empty `Host` the result does not depend on `req.URL` at all.  For a request
with an empty `RequestURI` and a nil URL the call faults. -/
theorem C20_url_reads :
    (∀ (checkNames : Bool) (w : Writer) (req : Request),
      req.RequestURI ≠ "" → req.URL = none →
        (∃ w' err, DumpRequestTo checkNames w req = some (w', err)) ∧
        (w.Accepting →
          ∃ w', DumpRequestTo checkNames w req = some (w', bodyErr req) ∧
            w'.calls = w.calls ++ [requestLine req req.RequestURI]
              ++ (if isAbsolute req.RequestURI = false ∧ req.Host ≠ "" then
                    ["Host: " ++ req.Host ++ "\r\n"] else [])
              ++ ((if req.TransferEncoding = [] then [] else [transferEncodingLine req])
                ++ (if req.Close then [connectionLine req] else [])
                ++ headerCalls checkNames req.Header ++ ["\r\n"] ++ bodyCalls req))) ∧
    (∀ (checkNames : Bool) (w : Writer) (req : Request) (u1 u2 : Option URL),
      req.RequestURI ≠ "" → req.Host ≠ "" →
        DumpRequestTo checkNames w { req with URL := u1 } =
          DumpRequestTo checkNames w { req with URL := u2 }) ∧
    (∀ (checkNames : Bool) (w : Writer) (req : Request),
      req.RequestURI = "" → req.URL = none → DumpRequestTo checkNames w req = none) := by
  refine ⟨?_, ?_, ?_⟩
  · intro checkNames w req huri hurl
    have ht : IsTarget req req.RequestURI := Or.inl ⟨huri, rfl⟩
    constructor
    · obtain ⟨w', err, hres, _⟩ := tailResult_extends checkNames (headWriter w req req.RequestURI) req
      refine ⟨w', err, ?_⟩
      rw [DumpRequestTo_eq, isTarget_eq ht]
      exact hres
    · intro hw
      obtain ⟨w', h1, h2, _⟩ := DumpRequestTo_bytes checkNames hw req req.RequestURI ht
      refine ⟨w', h1, ?_⟩
      rw [h2]
      have hv : hostValue req = req.Host := by
        by_cases hh : req.Host = "" <;> simp [hostValue, hh, hurl]
      cases ha : isAbsolute req.RequestURI <;> by_cases hh : req.Host = "" <;>
        simp [headCalls, hv, ha, hh, List.append_assoc]
  · intro checkNames w req u1 u2 huri hhost
    rw [DumpRequestTo_eq, DumpRequestTo_eq]
    simp only [if_neg huri]
    have hh : ∀ u : Option URL, headWriter w { req with URL := u } req.RequestURI
        = headWriter w req req.RequestURI := by
      intro u
      simp only [headWriter, if_neg hhost]
    rw [hh u1, hh u2]
    rfl
  · intro checkNames w req huri hurl
    rw [DumpRequestTo_eq, if_pos huri, hurl]
    rfl

/-- Witness for C20: a preset relative target, a host and a nil URL. -/
theorem C20_url_reads_witness :
    (nilURLRequest "/r/app/hello" "example.com").RequestURI ≠ "" ∧
    (nilURLRequest "/r/app/hello" "example.com").URL = none ∧
    ∃ w' err, DumpRequestTo false (Writer.broken "broken pipe")
      (nilURLRequest "/r/app/hello" "example.com") = some (w', err) :=
  ⟨by decide, rfl,
    (C20_url_reads.1 false (Writer.broken "broken pipe")
      (nilURLRequest "/r/app/hello" "example.com") (by decide) rfl).1⟩

/-! ## Dispatch -/

theorem Dispatch_encode_error (lib : NetHTTP) (checkNames : Bool) (h : HTTPProtocol)
    (ci : CallInfo) (w : Sink) {in1 : Writer} {e : Error}
    (hd : DumpRequestTo checkNames h.in_ ci.resolved = some (in1, some e)) :
    Dispatch lib checkNames h ci w = some (⟨in1, h.out, ci.resolved, w⟩, some e) := by
  unfold Dispatch
  simp only []
  have hd' : DumpRequestTo checkNames h.in_ { ci.Request with RequestURI := ci.RequestURL }
      = some (in1, some e) := hd
  rw [hd']
  rfl

theorem Dispatch_parse_error (lib : NetHTTP) (checkNames : Bool) (h : HTTPProtocol)
    (ci : CallInfo) (w : Sink) {in1 : Writer} {out1 : Reader} {e : Error}
    (hd : DumpRequestTo checkNames h.in_ ci.resolved = some (in1, none))
    (hr : lib.ReadResponse h.out ci.resolved = (out1, Except.error e)) :
    Dispatch lib checkNames h ci w = some (⟨in1, out1, ci.resolved, w⟩, some e) := by
  unfold Dispatch
  simp only []
  have hd' : DumpRequestTo checkNames h.in_ { ci.Request with RequestURI := ci.RequestURL }
      = some (in1, none) := hd
  have hr' : lib.ReadResponse h.out { ci.Request with RequestURI := ci.RequestURL }
      = (out1, Except.error e) := hr
  rw [hd']
  simp only []
  rw [hr']
  rfl

theorem Dispatch_structured (lib : NetHTTP) (checkNames : Bool) (h : HTTPProtocol)
    (ci : CallInfo) (rw : ResponseWriter) {in1 : Writer} {out1 : Reader} {resp : Response}
    (hd : DumpRequestTo checkNames h.in_ ci.resolved = some (in1, none))
    (hr : lib.ReadResponse h.out ci.resolved = (out1, Except.ok resp)) :
    Dispatch lib checkNames h ci (Sink.structured rw) =
      some (⟨in1, out1, ci.resolved, Sink.structured
        (CopyRW ((addHeaders rw resp.Header).WriteHeader resp.StatusCode)
          resp.Body.reads resp.Body.err).1⟩, none) := by
  unfold Dispatch
  simp only []
  have hd' : DumpRequestTo checkNames h.in_ { ci.Request with RequestURI := ci.RequestURL }
      = some (in1, none) := hd
  have hr' : lib.ReadResponse h.out { ci.Request with RequestURI := ci.RequestURL }
      = (out1, Except.ok resp) := hr
  rw [hd']
  simp only []
  rw [hr']
  rfl

theorem Dispatch_raw (lib : NetHTTP) (checkNames : Bool) (h : HTTPProtocol)
    (ci : CallInfo) (w0 : Writer) {in1 : Writer} {out1 : Reader} {resp : Response}
    (hd : DumpRequestTo checkNames h.in_ ci.resolved = some (in1, none))
    (hr : lib.ReadResponse h.out ci.resolved = (out1, Except.ok resp)) :
    Dispatch lib checkNames h ci (Sink.raw w0) =
      some (⟨in1, out1, ci.resolved, Sink.raw (lib.ResponseWrite resp w0).1⟩, none) := by
  unfold Dispatch
  simp only []
  have hd' : DumpRequestTo checkNames h.in_ { ci.Request with RequestURI := ci.RequestURL }
      = some (in1, none) := hd
  have hr' : lib.ReadResponse h.out { ci.Request with RequestURI := ci.RequestURL }
      = (out1, Except.ok resp) := hr
  rw [hd']
  simp only []
  rw [hr']
  rfl

/-- When the encoder returns an error, `Dispatch` returns exactly that error, with
the sink and the read-stream it was given; when the encoder returns nil and
`http.ReadResponse` returns an error, `Dispatch` returns exactly that error, with
the sink it was given. -/
theorem Dispatch_returned_error (lib : NetHTTP) (checkNames : Bool)
    (h : HTTPProtocol) (ci : CallInfo) (w : Sink) :
    (∀ (in1 : Writer) (e : Error),
      DumpRequestTo checkNames h.in_ ci.resolved = some (in1, some e) →
        ∃ o, Dispatch lib checkNames h ci w = some (o, some e) ∧ o.sink = w ∧ o.out = h.out) ∧
    (∀ (in1 : Writer) (out1 : Reader) (e : Error),
      DumpRequestTo checkNames h.in_ ci.resolved = some (in1, none) →
      lib.ReadResponse h.out ci.resolved = (out1, Except.error e) →
        ∃ o, Dispatch lib checkNames h ci w = some (o, some e) ∧ o.sink = w) := by
  constructor
  · intro in1 e hd
    exact ⟨_, Dispatch_encode_error lib checkNames h ci w hd, rfl, rfl⟩
  · intro in1 out1 e hd hr
    exact ⟨_, Dispatch_parse_error lib checkNames h ci w hd hr, rfl⟩

/-- **C13, at a failing input.** Every write on the write-stream fails and the
request has no header and no body, so the encoding fails at its first write and
at every later one; the encoder returns nil all the same, and `Dispatch` goes on:
it reads the read-stream, writes the status code and the body of the parsed
response to the structured sink, and returns nil. -/
theorem C13_failed_encoding_goes_on :
    (Dispatch (exampleHTTP (Except.ok (okResponse [] ⟨["hi"], none⟩))) false brokenStreams
        bareCall (Sink.structured (recorder []))).map
        (fun r => (r.1.in_.calls, r.1.out.reads, r.1.sink.events, r.2)) =
      some (["GET /r/app/hello HTTP/1.1\r\n", "Host: example.com\r\n", "\r\n"], 1,
        [Event.writeHeader 200, Event.write "hi"], none) ∧
    brokenStreams.out.reads = 0 ∧
    (recorder []).events = [] ∧
    brokenStreams.in_.respond 0 "GET /r/app/hello HTTP/1.1\r\n" = some "broken pipe" ∧
    brokenStreams.in_.respond 1 "Host: example.com\r\n" = some "broken pipe" ∧
    brokenStreams.in_.respond 2 "\r\n" = some "broken pipe" := by
  refine ⟨by decide, rfl, rfl, rfl, rfl, rfl⟩

/-! ## The structured sink -/

theorem values_append (h : Header) (k v k' : String) :
    (Header.append h k v).values k' =
      if k' = k then h.values k' ++ [v] else h.values k' := by
  induction h with
  | nil =>
    by_cases hk : k' = k
    · simp [Header.append, Header.values, hk]
    · have hk' : ¬ k = k' := fun e => hk e.symm
      simp [Header.append, Header.values, hk, hk']
  | cons kv rest ih =>
    obtain ⟨k0, vs⟩ := kv
    by_cases h0 : k0 = k
    · subst h0
      by_cases hk : k' = k0
      · subst hk; simp [Header.append, Header.values]
      · have hk' : ¬ k0 = k' := fun e => hk e.symm
        simp [Header.append, Header.values, hk, hk']
    · by_cases hk0 : k0 = k'
      · subst hk0
        simp [Header.append, Header.values, h0]
      · simp [Header.append, Header.values, h0, hk0, ih]

theorem values_of_not_mem (h : Header) (k : String) (hk : k ∉ h.map Prod.fst) :
    h.values k = [] := by
  induction h with
  | nil => rfl
  | cons kv rest ih =>
    obtain ⟨k0, vs⟩ := kv
    simp only [List.map_cons, List.mem_cons, not_or] at hk
    have h0 : ¬ k0 = k := fun e => hk.1 e.symm
    simp [Header.values, h0, ih hk.2]

theorem addValues_spec (k : String) (rw : ResponseWriter) (vs : List String) :
    (∀ k', (addValues k rw vs).header.values k' =
      if k' = CanonicalMIMEHeaderKey k then rw.header.values k' ++ vs
      else rw.header.values k') ∧
    (addValues k rw vs).events = rw.events ++ vs.map (Event.add k) ∧
    (addValues k rw vs).respond = rw.respond := by
  induction vs generalizing rw with
  | nil =>
    refine ⟨fun k' => ?_, by simp [addValues], rfl⟩
    by_cases hk : k' = CanonicalMIMEHeaderKey k <;> simp [addValues, hk]
  | cons v vs ih =>
    obtain ⟨i1, i2, i3⟩ := ih (rw.AddHeader k v)
    refine ⟨fun k' => ?_, ?_, ?_⟩
    · rw [addValues, i1 k']
      simp only [ResponseWriter.AddHeader, Header.Add, values_append]
      by_cases hk : k' = CanonicalMIMEHeaderKey k <;> simp [hk]
    · rw [addValues, i2]
      simp [ResponseWriter.AddHeader]
    · rw [addValues, i3]
      rfl

theorem addHeaders_spec (rw : ResponseWriter) (h : Header)
    (hnd : (h.map Prod.fst).Nodup)
    (hcan : ∀ kv ∈ h, CanonicalMIMEHeaderKey kv.1 = kv.1) :
    (∀ k, (addHeaders rw h).header.values k = rw.header.values k ++ h.values k) ∧
    (addHeaders rw h).events = rw.events ++ addEvents h ∧
    (addHeaders rw h).respond = rw.respond := by
  induction h generalizing rw with
  | nil => simp [addHeaders, Header.values, addEvents]
  | cons kv rest ih =>
    obtain ⟨k0, vs⟩ := kv
    simp only [List.map_cons, List.nodup_cons] at hnd
    obtain ⟨i1, i2, i3⟩ := ih (addValues k0 rw vs) hnd.2
      (fun x hx => hcan x (List.mem_cons_of_mem _ hx))
    obtain ⟨a1, a2, a3⟩ := addValues_spec k0 rw vs
    have hc : CanonicalMIMEHeaderKey k0 = k0 := hcan (k0, vs) (List.mem_cons_self _ _)
    refine ⟨fun k => ?_, ?_, ?_⟩
    · rw [addHeaders, i1 k, a1 k, hc]
      by_cases hk : k = k0
      · subst hk
        simp [Header.values, values_of_not_mem rest k hnd.1]
      · have hk' : ¬ k0 = k := fun e => hk e.symm
        simp [Header.values, hk, hk']
    · rw [addHeaders, i2, a2]
      simp [addEvents, List.flatMap_cons]
    · rw [addHeaders, i3, a3]

theorem addHeaders_events (rw : ResponseWriter) (h : Header) :
    (addHeaders rw h).events = rw.events ++ addEvents h ∧
    (addHeaders rw h).respond = rw.respond := by
  induction h generalizing rw with
  | nil => simp [addHeaders, addEvents]
  | cons kv rest ih =>
    obtain ⟨i2, i3⟩ := ih (addValues kv.1 rw kv.2)
    obtain ⟨_, a2, a3⟩ := addValues_spec kv.1 rw kv.2
    refine ⟨?_, ?_⟩
    · rw [addHeaders, i2, a2]
      simp [addEvents, List.flatMap_cons]
    · rw [addHeaders, i3, a3]

theorem CopyRW_spec (rw : ResponseWriter) (reads : List String) (rerr : Option Error) :
    ∃ blocks, (CopyRW rw reads rerr).1.events = rw.events ++ blocks.map Event.write ∧
      blocks <+: copied reads ∧
      (CopyRW rw reads rerr).1.header = rw.header ∧
      (rw.Accepting → blocks = copied reads) := by
  induction reads generalizing rw with
  | nil => exact ⟨[], by simp [CopyRW], by simp [copied], rfl, fun _ => by simp [copied]⟩
  | cons b bs ih =>
    rw [CopyRW]
    by_cases hb : len b > 0
    · rw [if_pos hb]
      have hcop : copied (b :: bs) = b :: copied bs := by simp [copied, List.filter_cons, hb]
      cases hr : rw.respond rw.events.length b with
      | some e =>
        refine ⟨[b], ?_, ?_, ?_, ?_⟩
        · simp [ResponseWriter.Write, hr]
        · rw [hcop]; exact ⟨copied bs, rfl⟩
        · simp [ResponseWriter.Write, hr]
        · intro ha; rw [ha] at hr; cases hr
      | none =>
        obtain ⟨blocks, e1, e2, e3, e4⟩ :=
          ih ⟨rw.header, rw.events ++ [Event.write b], rw.respond⟩
        refine ⟨b :: blocks, ?_, ?_, ?_, ?_⟩
        · simp [ResponseWriter.Write, hr, e1]
        · rw [hcop]
          obtain ⟨t, ht⟩ := e2
          exact ⟨t, by rw [← ht]; rfl⟩
        · simp [ResponseWriter.Write, hr, e3]
        · intro ha
          rw [hcop, e4 (fun i p => ha i p)]
    · rw [if_neg hb]
      have hcop : copied (b :: bs) = copied bs := by simp [copied, List.filter_cons, hb]
      rw [hcop]
      exact ih rw

theorem structured_sink_spec (rw : ResponseWriter) (resp : Response) :
    ∃ blocks,
      (CopyRW ((addHeaders rw resp.Header).WriteHeader resp.StatusCode)
          resp.Body.reads resp.Body.err).1.events =
        rw.events ++ addEvents resp.Header ++ [Event.writeHeader resp.StatusCode]
          ++ blocks.map Event.write ∧
      blocks <+: copied resp.Body.reads ∧
      (CopyRW ((addHeaders rw resp.Header).WriteHeader resp.StatusCode)
          resp.Body.reads resp.Body.err).1.header = (addHeaders rw resp.Header).header ∧
      (rw.Accepting → blocks = copied resp.Body.reads) := by
  obtain ⟨blocks, e1, e2, e3, e4⟩ :=
    CopyRW_spec ((addHeaders rw resp.Header).WriteHeader resp.StatusCode)
      resp.Body.reads resp.Body.err
  obtain ⟨a1, a2⟩ := addHeaders_events rw resp.Header
  refine ⟨blocks, ?_, e2, ?_, ?_⟩
  · rw [e1]
    simp [ResponseWriter.WriteHeader, a1]
  · rw [e3]; rfl
  · intro ha
    apply e4
    intro i p
    show (addHeaders rw resp.Header).respond i p = none
    rw [a2]
    exact ha i p

/-- **C14.** For every library pair: when the encoding succeeds, the response
`resp` is parsed and the sink is structured, `Dispatch` returns nil; the one
status code written to the sink by the call is `resp.StatusCode`; and, the
response header being a map (distinct keys) with canonical keys, for every key
the values of the sink after the call are the values it carried before followed
by the values of the response for that key, in order, so every response value is
among the sink's values. -/
theorem C14_structured_headers_and_status (lib : NetHTTP) (checkNames : Bool)
    (h : HTTPProtocol) (ci : CallInfo) (rw : ResponseWriter) (in1 : Writer) (out1 : Reader)
    (resp : Response)
    (hd : DumpRequestTo checkNames h.in_ ci.resolved = some (in1, none))
    (hr : lib.ReadResponse h.out ci.resolved = (out1, Except.ok resp))
    (hnd : (resp.Header.map Prod.fst).Nodup)
    (hcan : ∀ kv ∈ resp.Header, CanonicalMIMEHeaderKey kv.1 = kv.1) :
    ∃ (o : Outcome) (rw' : ResponseWriter),
      Dispatch lib checkNames h ci (Sink.structured rw) = some (o, none) ∧
      o.sink = Sink.structured rw' ∧
      (∀ code, Event.writeHeader code ∈ rw'.events.drop rw.events.length ↔
        code = resp.StatusCode) ∧
      (∀ k, rw'.header.values k = rw.header.values k ++ resp.Header.values k) ∧
      (∀ k v, v ∈ resp.Header.values k → v ∈ rw'.header.values k) := by
  obtain ⟨blocks, e1, _, e3, _⟩ := structured_sink_spec rw resp
  obtain ⟨a1, _, _⟩ := addHeaders_spec rw resp.Header hnd hcan
  have hv : ∀ k, (CopyRW ((addHeaders rw resp.Header).WriteHeader resp.StatusCode)
      resp.Body.reads resp.Body.err).1.header.values k
      = rw.header.values k ++ resp.Header.values k := by
    intro k; rw [e3, a1 k]
  refine ⟨_, _, Dispatch_structured lib checkNames h ci rw hd hr, rfl, ?_, hv, ?_⟩
  · intro code
    rw [e1]
    simp only [List.append_assoc, List.drop_left]
    simp [addEvents, eq_comm]
  · intro k v hvm
    rw [hv k]
    exact List.mem_append_right _ hvm

/-- Witness for C14: the sink carries `X-Route: r`, the response
`Content-Type: text/plain` and `X-Route: s`. -/
theorem C14_structured_headers_and_status_witness :
    DumpRequestTo false freshStreams.in_ bareCall.resolved =
      some (⟨["GET /r/app/hello HTTP/1.1\r\n", "Host: example.com\r\n", "\r\n"],
        fun _ _ => none⟩, none) ∧
    (exampleHTTP (Except.ok (okResponse [("Content-Type", ["text/plain"]), ("X-Route", ["s"])]
        ⟨["hi"], none⟩))).ReadResponse freshStreams.out bareCall.resolved =
      (⟨"", 1⟩, Except.ok (okResponse [("Content-Type", ["text/plain"]), ("X-Route", ["s"])]
        ⟨["hi"], none⟩)) ∧
    ((okResponse [("Content-Type", ["text/plain"]), ("X-Route", ["s"])]
        ⟨["hi"], none⟩).Header.map Prod.fst).Nodup ∧
    (∀ kv ∈ (okResponse [("Content-Type", ["text/plain"]), ("X-Route", ["s"])]
        ⟨["hi"], none⟩).Header, CanonicalMIMEHeaderKey kv.1 = kv.1) ∧
    ∃ (o : Outcome) (rw' : ResponseWriter),
      Dispatch (exampleHTTP (Except.ok (okResponse
          [("Content-Type", ["text/plain"]), ("X-Route", ["s"])] ⟨["hi"], none⟩))) false
          freshStreams bareCall (Sink.structured (recorder [("X-Route", ["r"])]))
        = some (o, none) ∧
      o.sink = Sink.structured rw' ∧
      (∀ code, Event.writeHeader code ∈
          rw'.events.drop (recorder [("X-Route", ["r"])]).events.length ↔
        code = (okResponse [("Content-Type", ["text/plain"]), ("X-Route", ["s"])]
          ⟨["hi"], none⟩).StatusCode) ∧
      (∀ k, rw'.header.values k = (recorder [("X-Route", ["r"])]).header.values k ++
        (okResponse [("Content-Type", ["text/plain"]), ("X-Route", ["s"])]
          ⟨["hi"], none⟩).Header.values k) ∧
      (∀ k v, v ∈ (okResponse [("Content-Type", ["text/plain"]), ("X-Route", ["s"])]
          ⟨["hi"], none⟩).Header.values k → v ∈ rw'.header.values k) :=
  ⟨rfl, rfl, by decide, by decide,
    C14_structured_headers_and_status
      (exampleHTTP (Except.ok (okResponse [("Content-Type", ["text/plain"]), ("X-Route", ["s"])]
        ⟨["hi"], none⟩))) false freshStreams bareCall (recorder [("X-Route", ["r"])])
      _ _ _ rfl rfl (by decide) (by decide)⟩

/-- **C15, at failing inputs.** The response `200 OK` with body `hi` is parsed.
With a structured sink whose `Write` fails, the body copy fails and `Dispatch`
returns nil; with a raw sink whose `Write` fails, the response serialization
returns the error and `Dispatch` returns nil. -/
theorem C15_delivery_error_dropped :
    (Dispatch (exampleHTTP (Except.ok (okResponse [] ⟨["hi"], none⟩))) false freshStreams
        bareCall (Sink.structured (brokenRecorder "client gone"))).map
        (fun r => (r.1.sink.events, r.2)) =
      some ([Event.writeHeader 200, Event.write "hi"], none) ∧
    (CopyRW ((brokenRecorder "client gone").WriteHeader 200) ["hi"] none).2
      = some "client gone" ∧
    (Dispatch (exampleHTTP (Except.ok (okResponse [] ⟨["hi"], none⟩))) false freshStreams
        bareCall (Sink.raw (Writer.broken "client gone"))).map (fun r => r.2) = some none ∧
    ((exampleHTTP (Except.ok (okResponse [] ⟨["hi"], none⟩))).ResponseWrite
        (okResponse [] ⟨["hi"], none⟩) (Writer.broken "client gone")).2
      = some "client gone" := by
  refine ⟨by decide, by decide, by decide, by decide⟩

/-- **C16.** For every library pair and every structured sink, failing or not:
when the encoding succeeds and the response `resp` is parsed, the events of the
call are, in this order, the header additions, then the one status code, then
writes of body blocks only, these blocks being the first blocks of the response
body (all of them when the sink accepts every write, so that the body bytes
written are exactly those of the response); and the outcome does not depend on
the library's `Response.Write`, which is not used on this path. -/
theorem C16_structured_order (lib : NetHTTP) (checkNames : Bool) (h : HTTPProtocol)
    (ci : CallInfo) (rw : ResponseWriter) (in1 : Writer) (out1 : Reader) (resp : Response)
    (hd : DumpRequestTo checkNames h.in_ ci.resolved = some (in1, none))
    (hr : lib.ReadResponse h.out ci.resolved = (out1, Except.ok resp)) :
    ∃ (o : Outcome) (rw' : ResponseWriter) (blocks : List String),
      Dispatch lib checkNames h ci (Sink.structured rw) = some (o, none) ∧
      o.sink = Sink.structured rw' ∧
      rw'.events = rw.events ++ addEvents resp.Header
        ++ [Event.writeHeader resp.StatusCode] ++ blocks.map Event.write ∧
      blocks <+: copied resp.Body.reads ∧
      (rw.Accepting →
        blocks = copied resp.Body.reads ∧ concat blocks = concat resp.Body.reads) ∧
      (∀ lib' : NetHTTP, lib'.ReadResponse = lib.ReadResponse →
        Dispatch lib' checkNames h ci (Sink.structured rw) =
          Dispatch lib checkNames h ci (Sink.structured rw)) := by
  obtain ⟨blocks, e1, e2, _, e4⟩ := structured_sink_spec rw resp
  refine ⟨_, _, blocks, Dispatch_structured lib checkNames h ci rw hd hr, rfl, e1, e2, ?_, ?_⟩
  · intro ha
    have hb := e4 ha
    exact ⟨hb, by rw [hb, concat_copied]⟩
  · intro lib' hl
    rw [Dispatch_structured lib checkNames h ci rw hd hr,
      Dispatch_structured lib' checkNames h ci rw hd (by rw [hl]; exact hr)]

/-- Witness for C16: a response with one header and the body `hi`. -/
theorem C16_structured_order_witness :
    DumpRequestTo false freshStreams.in_ bareCall.resolved =
      some (⟨["GET /r/app/hello HTTP/1.1\r\n", "Host: example.com\r\n", "\r\n"],
        fun _ _ => none⟩, none) ∧
    (exampleHTTP (Except.ok (okResponse [("Content-Type", ["text/plain"])]
        ⟨["hi"], none⟩))).ReadResponse freshStreams.out bareCall.resolved =
      (⟨"", 1⟩, Except.ok (okResponse [("Content-Type", ["text/plain"])] ⟨["hi"], none⟩)) ∧
    ∃ (o : Outcome) (rw' : ResponseWriter) (blocks : List String),
      Dispatch (exampleHTTP (Except.ok (okResponse [("Content-Type", ["text/plain"])]
          ⟨["hi"], none⟩))) false freshStreams bareCall (Sink.structured (recorder []))
        = some (o, none) ∧
      o.sink = Sink.structured rw' ∧
      rw'.events = (recorder []).events
        ++ addEvents (okResponse [("Content-Type", ["text/plain"])] ⟨["hi"], none⟩).Header
        ++ [Event.writeHeader
            (okResponse [("Content-Type", ["text/plain"])] ⟨["hi"], none⟩).StatusCode]
        ++ blocks.map Event.write ∧
      blocks <+: copied (okResponse [("Content-Type", ["text/plain"])]
        ⟨["hi"], none⟩).Body.reads ∧
      ((recorder []).Accepting →
        blocks = copied (okResponse [("Content-Type", ["text/plain"])]
            ⟨["hi"], none⟩).Body.reads ∧
        concat blocks = concat (okResponse [("Content-Type", ["text/plain"])]
            ⟨["hi"], none⟩).Body.reads) ∧
      (∀ lib' : NetHTTP,
        lib'.ReadResponse = (exampleHTTP (Except.ok (okResponse
          [("Content-Type", ["text/plain"])] ⟨["hi"], none⟩))).ReadResponse →
        Dispatch lib' false freshStreams bareCall (Sink.structured (recorder [])) =
          Dispatch (exampleHTTP (Except.ok (okResponse [("Content-Type", ["text/plain"])]
            ⟨["hi"], none⟩))) false freshStreams bareCall (Sink.structured (recorder []))) :=
  ⟨rfl, rfl,
    C16_structured_order
      (exampleHTTP (Except.ok (okResponse [("Content-Type", ["text/plain"])] ⟨["hi"], none⟩)))
      false freshStreams bareCall (recorder []) _ _ _ rfl rfl⟩

theorem DumpRequestTo_first_call (checkNames : Bool) (w : Writer) (req : Request)
    (t : String) (ht : IsTarget req t) :
    ∃ w' err rest, DumpRequestTo checkNames w req = some (w', err) ∧
      w'.calls = w.calls ++ requestLine req t :: rest := by
  obtain ⟨w', err, hres, rest, hrest⟩ := tailResult_extends checkNames (headWriter w req t) req
  refine ⟨w', err, (headCalls req t).tail ++ rest, ?_, ?_⟩
  · rw [DumpRequestTo_eq, isTarget_eq ht]
    exact hres
  · rw [hrest, headWriter_eq]
    simp [headCalls, List.append_assoc]

theorem Dispatch_some (lib : NetHTTP) (checkNames : Bool) (h : HTTPProtocol) (ci : CallInfo)
    (w : Sink) {in1 : Writer} {e : Option Error}
    (hd : DumpRequestTo checkNames h.in_ ci.resolved = some (in1, e)) :
    ∃ o err, Dispatch lib checkNames h ci w = some (o, err) ∧ o.in_ = in1 ∧
      o.req = ci.resolved := by
  cases e with
  | some e => exact ⟨_, _, Dispatch_encode_error lib checkNames h ci w hd, rfl, rfl⟩
  | none =>
    rcases hr : lib.ReadResponse h.out ci.resolved with ⟨out1, e | resp⟩
    · exact ⟨_, _, Dispatch_parse_error lib checkNames h ci w hd hr, rfl, rfl⟩
    · cases w with
      | structured rw => exact ⟨_, _, Dispatch_structured lib checkNames h ci rw hd hr, rfl, rfl⟩
      | raw w0 => exact ⟨_, _, Dispatch_raw lib checkNames h ci w0 hd hr, rfl, rfl⟩

/-- **C17.** For every library pair, stream pair, call and sink: when `Dispatch`
returns, the request object is the request of the call with its `RequestURI`
field set to `ci.RequestURL()` and every other field as before; and whenever
`ci.RequestURL()` is non-empty, `Dispatch` returns and the first call it makes on
the write-stream is the request line whose target is exactly `ci.RequestURL()`,
whatever `RequestURI` and `URL` the request carried. -/
theorem C17_target_forced (lib : NetHTTP) (checkNames : Bool) (h : HTTPProtocol)
    (ci : CallInfo) (w : Sink) :
    (∀ o err, Dispatch lib checkNames h ci w = some (o, err) →
      o.req = { ci.Request with RequestURI := ci.RequestURL }) ∧
    (ci.RequestURL ≠ "" →
      ∃ o err rest, Dispatch lib checkNames h ci w = some (o, err) ∧
        o.in_.calls = h.in_.calls ++
          ((if ci.Request.Method = "" then "GET" else ci.Request.Method) ++ " " ++
            ci.RequestURL ++ " HTTP/" ++ fmtInt ci.Request.ProtoMajor ++ "." ++
            fmtInt ci.Request.ProtoMinor ++ "\r\n") :: rest) := by
  constructor
  · intro o err hdis
    cases hd : DumpRequestTo checkNames h.in_ ci.resolved with
    | none =>
      have : Dispatch lib checkNames h ci w = none := by
        unfold Dispatch
        simp only []
        have hd' : DumpRequestTo checkNames h.in_
            { ci.Request with RequestURI := ci.RequestURL } = none := hd
        rw [hd']
      rw [this] at hdis
      cases hdis
    | some r =>
      obtain ⟨in1, e⟩ := r
      obtain ⟨o', err', h1, _, h3⟩ := Dispatch_some lib checkNames h ci w hd
      rw [h1] at hdis
      cases hdis
      exact h3
  · intro hurl
    have ht : IsTarget ci.resolved ci.RequestURL := Or.inl ⟨hurl, rfl⟩
    obtain ⟨in1, e, rest, hd, hcalls⟩ :=
      DumpRequestTo_first_call checkNames h.in_ ci.resolved ci.RequestURL ht
    obtain ⟨o, err, h1, h2, _⟩ := Dispatch_some lib checkNames h ci w hd
    refine ⟨o, err, rest, h1, ?_⟩
    rw [h2, hcalls]
    rfl

/-- Witness for C17: the request carries the target `/foo?x=1`, the call
resolves it to `/r/app/hello`. -/
theorem C17_target_forced_witness :
    exampleCall.RequestURL ≠ "" ∧
    ∃ o err rest, Dispatch (exampleHTTP (Except.error "malformed HTTP response")) false
        freshStreams exampleCall (Sink.raw Writer.sink) = some (o, err) ∧
      o.in_.calls = freshStreams.in_.calls ++
        ((if exampleCall.Request.Method = "" then "GET" else exampleCall.Request.Method) ++ " " ++
          exampleCall.RequestURL ++ " HTTP/" ++ fmtInt exampleCall.Request.ProtoMajor ++ "." ++
          fmtInt exampleCall.Request.ProtoMinor ++ "\r\n") :: rest :=
  ⟨by decide,
    (C17_target_forced (exampleHTTP (Except.error "malformed HTTP response")) false
      freshStreams exampleCall (Sink.raw Writer.sink)).2 (by decide)⟩

/-- **C19, at a failing input.** The response `200 OK` with the header
`Content-Type: text/plain` and the body `hi` is parsed and the sink is raw, with
every `Write` failing: the serialization stops at its first call, the status
line, with the error; `Dispatch` still returns nil, and neither the header nor
the body of the response has been handed to the sink. -/
theorem C19_partial_serialization_accepted :
    (Dispatch (exampleHTTP (Except.ok (okResponse [("Content-Type", ["text/plain"])]
        ⟨["hi"], none⟩))) false freshStreams bareCall (Sink.raw (Writer.broken "client gone"))).map
        (fun r => (r.1.sink.calls, r.2)) =
      some (["HTTP/1.1 200 OK\r\n"], none) ∧
    (Writer.broken "client gone").respond 0 "HTTP/1.1 200 OK\r\n" = some "client gone" ∧
    ((exampleHTTP (Except.ok (okResponse [("Content-Type", ["text/plain"])]
        ⟨["hi"], none⟩))).ResponseWrite
        (okResponse [("Content-Type", ["text/plain"])] ⟨["hi"], none⟩)
        (Writer.broken "client gone")).2 = some "client gone" := by
  refine ⟨by decide, rfl, by decide⟩

/-! ## Reading the encoding back -/

theorem scanLines_step (x : Char) (tail : List Char) (cur : List Char) (done : List (List Char))
    (hx : x ≠ '\r') (ht : tail ≠ []) :
    scanLines (x :: tail) cur done = scanLines tail (cur ++ [x]) done := by
  cases tail with
  | nil => exact absurd rfl ht
  | cons y rest => simp [scanLines, hx]

theorem scanLines_line (l more cur : List Char) (done : List (List Char))
    (hl : ∀ ch ∈ l, ch ≠ '\r') :
    scanLines (l ++ '\r' :: '\n' :: more) cur done =
      if cur ++ l = [] then some (done, more) else scanLines more [] (done ++ [cur ++ l]) := by
  induction l generalizing cur with
  | nil => simp [scanLines]
  | cons x l ih =>
    have hx : x ≠ '\r' := hl x (List.mem_cons_self _ _)
    rw [List.cons_append, scanLines_step x _ cur done hx (by simp),
      ih (cur ++ [x]) (fun ch hch => hl ch (List.mem_cons_of_mem _ hch))]
    simp

theorem scanLines_lines (ls : List (List Char)) (body : List Char) (done : List (List Char))
    (hls : ∀ l ∈ ls, l ≠ [] ∧ ∀ ch ∈ l, ch ≠ '\r') :
    scanLines ((ls.flatMap fun l => l ++ ['\r', '\n']) ++ '\r' :: '\n' :: body) [] done =
      some (done ++ ls, body) := by
  induction ls generalizing done with
  | nil => simp [scanLines]
  | cons l ls ih =>
    have h1 := hls l (List.mem_cons_self _ _)
    rw [List.flatMap_cons, List.append_assoc, List.append_assoc]
    show scanLines (l ++ '\r' :: '\n' :: _) [] done = _
    rw [scanLines_line l _ [] done h1.2]
    simp only [List.nil_append, h1.1, if_false]
    have h2 := ih (done ++ [l]) (fun x hx => hls x (List.mem_cons_of_mem _ hx))
    simpa using h2

theorem splitAtChar_append (c : Char) (a b : List Char) (ha : ∀ ch ∈ a, ch ≠ c) :
    splitAtChar c (a ++ c :: b) = some (a, b) := by
  induction a with
  | nil => simp [splitAtChar]
  | cons x a ih =>
    have hx : x ≠ c := ha x (List.mem_cons_self _ _)
    simp [splitAtChar, hx, ih (fun ch hch => ha ch (List.mem_cons_of_mem _ hch))]


theorem digitChar_ne_cr (d : Nat) : Nat.digitChar d ≠ '\r' := by
  by_cases h : d < 16
  · interval_cases d <;> decide
  · have hs : Nat.digitChar d = '*' := by
      unfold Nat.digitChar
      repeat rw [if_neg (by omega)]
    rw [hs]; decide

theorem toDigitsCore_ne_cr (b : Nat) (fuel n : Nat) (ds : List Char)
    (hds : ∀ ch ∈ ds, ch ≠ '\r') : ∀ ch ∈ Nat.toDigitsCore b fuel n ds, ch ≠ '\r' := by
  induction fuel generalizing n ds with
  | zero => simpa [Nat.toDigitsCore] using hds
  | succ fuel ih =>
    unfold Nat.toDigitsCore
    have hd : ∀ ch ∈ Nat.digitChar (n % b) :: ds, ch ≠ '\r' := by
      intro ch hch
      rcases List.mem_cons.1 hch with h | h
      · rw [h]; exact digitChar_ne_cr _
      · exact hds ch h
    simp only []
    split
    · exact hd
    · exact ih _ _ hd

theorem fmtInt_ne_cr (i : Int) : ∀ ch ∈ (fmtInt i).data, ch ≠ '\r' := by
  have hn : ∀ n : Nat, ∀ ch ∈ (Nat.repr n).data, ch ≠ '\r' := by
    intro n
    simp only [Nat.repr, Nat.toDigits, List.asString]
    exact toDigitsCore_ne_cr 10 _ _ [] (by simp)
  cases i with
  | ofNat n => exact hn n
  | negSucc n =>
    intro ch hch
    have : (fmtInt (Int.negSucc n)).data = '-' :: (Nat.repr (n + 1)).data := rfl
    rw [this] at hch
    rcases List.mem_cons.1 hch with h | h
    · rw [h]; decide
    · exact hn _ ch h


theorem concat_lines_data (ls : List String) :
    (concat (ls.map fun l => l ++ "\r\n")).data =
      (ls.map String.data).flatMap fun l => l ++ ['\r', '\n'] := by
  induction ls with
  | nil => rfl
  | cons l ls ih =>
    simp only [List.map_cons, concat, String.data_append, ih, List.flatMap_cons]

theorem headerSection_eq_lines (checkNames : Bool) (req : Request) (t : String) :
    headerSection checkNames req t =
      concat (((methodOnLine req ++ " " ++ t ++ " " ++ versionOnLine req)
        :: fieldLines checkNames req).map fun l => l ++ "\r\n") := by
  have hg : concat (headerLines checkNames req.Header) =
      concat ((((sortedKeyValues req.Header reqWriteExcludeHeaderDump).filter
          fun kv => keyWritten checkNames kv.1).flatMap
        fun kv => kv.2.map fun v => kv.1 ++ ": " ++ cleanValue v).map fun l => l ++ "\r\n") := by
    unfold headerLines
    congr 1
    simp [List.map_flatMap, Function.comp_def]
  have h0 : requestLine req t =
      (methodOnLine req ++ " " ++ t ++ " " ++ versionOnLine req) ++ "\r\n" := by
    have hsp : " HTTP/" = " " ++ "HTTP/" := rfl
    simp only [requestLine, methodOnLine, versionOnLine, hsp, String.append_assoc]
  have hh : hostLine req =
      concat ((if !isAbsolute req.RequestURI && decide (hostValue req ≠ "") then
        ["Host: " ++ hostValue req] else []).map fun l => l ++ "\r\n") := by
    unfold hostLine
    split <;> simp [concat, String.append_assoc]
  have ht : transferEncodingLine req =
      concat ((if req.TransferEncoding = [] then []
        else ["Transfer-Encoding: " ++ Join req.TransferEncoding ","]).map
          fun l => l ++ "\r\n") := by
    unfold transferEncodingLine
    split <;> simp [concat, String.append_assoc]
  have hc : connectionLine req =
      concat ((if req.Close then ["Connection: close"] else []).map fun l => l ++ "\r\n") := by
    unfold connectionLine
    split <;> simp [concat]
  unfold headerSection fieldLines
  rw [hg, h0, hh, ht, hc]
  simp only [List.map_cons, List.map_append, concat, concat_append, String.append_assoc]

theorem cleanValue_ne_cr (v : String) : ∀ ch ∈ (cleanValue v).data, ch ≠ '\r' := by
  intro ch hch
  simp only [cleanValue, TrimString] at hch
  have h1 : ch ∈ (headerNewlineToSpace v).data :=
    (List.dropWhile_sublist _).subset (List.mem_reverse.1
      ((List.dropWhile_sublist _).subset (List.mem_reverse.1 hch)))
  simp only [headerNewlineToSpace, List.mem_map] at h1
  obtain ⟨c0, _, rfl⟩ := h1
  by_cases h : c0 = '\n' ∨ c0 = '\r'
  · rw [if_pos h]; decide
  · rw [if_neg h]; exact fun e => h (Or.inr e)

theorem Join_ne_cr (xs : List String) (h : ∀ e ∈ xs, ∀ ch ∈ e.data, ch ≠ '\r') :
    ∀ ch ∈ (Join xs ",").data, ch ≠ '\r' := by
  induction xs with
  | nil => intro ch hch; simp [Join] at hch
  | cons x xs ih =>
    cases xs with
    | nil => simpa [Join] using h
    | cons y ys =>
      intro ch hch
      simp only [Join, String.data_append, List.mem_append] at hch
      rcases hch with (h1 | h1) | h1
      · exact h x (List.mem_cons_self _ _) ch h1
      · have : ch = ',' := by simpa using h1
        rw [this]; decide
      · exact ih (fun e he => h e (List.mem_cons_of_mem _ he)) ch h1

theorem literal_ne_cr {s : String} {ch : Char} (hs : s.data.all (fun c => c != '\r') = true)
    (hch : ch ∈ s.data) : ch ≠ '\r' := by
  have := List.all_eq_true.1 hs ch hch
  simpa using this

theorem fieldLines_ok (checkNames : Bool) (req : Request)
    (hhost : isAbsolute req.RequestURI = false → ∀ ch ∈ (hostValue req).data, ch ≠ '\r')
    (hte : ∀ e ∈ req.TransferEncoding, ∀ ch ∈ e.data, ch ≠ '\r')
    (hkeys : ∀ kv ∈ req.Header, reqWriteExcludeHeaderDump kv.1 = false →
      keyWritten checkNames kv.1 = true → ∀ ch ∈ kv.1.data, ch ≠ '\r') :
    ∀ l ∈ (fieldLines checkNames req).map String.data, l ≠ [] ∧ ∀ ch ∈ l, ch ≠ '\r' := by
  intro l hl
  rw [List.mem_map] at hl
  obtain ⟨s, hs, rfl⟩ := hl
  simp only [fieldLines, List.mem_append] at hs
  rcases hs with ((hs | hs) | hs) | hs
  · split at hs
    · rename_i hcond
      have habs : isAbsolute req.RequestURI = false := by
        simp only [Bool.and_eq_true, Bool.not_eq_true'] at hcond
        exact hcond.1
      simp only [List.mem_singleton] at hs
      subst hs
      refine ⟨by simp [String.data_append], ?_⟩
      intro ch hch
      simp only [String.data_append, List.mem_append] at hch
      rcases hch with h1 | h1
      · exact literal_ne_cr (s := "Host: ") (by decide) h1
      · exact hhost habs ch h1
    · simp at hs
  · split at hs
    · simp at hs
    · simp only [List.mem_singleton] at hs
      subst hs
      refine ⟨by simp [String.data_append], ?_⟩
      intro ch hch
      simp only [String.data_append, List.mem_append] at hch
      rcases hch with h1 | h1
      · exact literal_ne_cr (s := "Transfer-Encoding: ") (by decide) h1
      · exact Join_ne_cr _ hte ch h1
  · split at hs
    · simp only [List.mem_singleton] at hs
      subst hs
      exact ⟨by decide, fun ch hch => literal_ne_cr (s := "Connection: close") (by decide) hch⟩
    · simp at hs
  · simp only [List.mem_flatMap, List.mem_map] at hs
    obtain ⟨kv, hkv, v, _, rfl⟩ := hs
    have hmem : kv ∈ req.Header ∧ reqWriteExcludeHeaderDump kv.1 = false ∧
        keyWritten checkNames kv.1 = true := by
      have h1 := List.mem_filter.1 hkv
      have h2 : kv ∈ req.Header.filter fun kv => !reqWriteExcludeHeaderDump kv.1 :=
        (List.perm_insertionSort _ _).mem_iff.1 h1.1
      have h3 := List.mem_filter.1 h2
      exact ⟨h3.1, by simpa using h3.2, h1.2⟩
    refine ⟨by simp [String.data_append], ?_⟩
    intro ch hch
    simp only [String.data_append, List.mem_append] at hch
    rcases hch with (h1 | h1) | h1
    · exact hkeys kv hmem.1 hmem.2.1 hmem.2.2 ch h1
    · exact literal_ne_cr (s := ": ") (by decide) h1
    · exact cleanValue_ne_cr v ch h1

theorem no_round_trip_of_collision (checkNames : Bool) (r1 r2 : Request)
    (hb : (DumpRequestTo checkNames Writer.sink r1).map (fun r => r.1.bytes) =
      (DumpRequestTo checkNames Writer.sink r2).map (fun r => r.1.bytes))
    (hd : r1.Method ≠ r2.Method ∨
      ¬ (withoutExcluded r1.Header).Perm (withoutExcluded r2.Header)) :
    ¬ ∃ parse, RoundTrips parse checkNames r1 ∧ RoundTrips parse checkNames r2 := by
  rintro ⟨parse, ⟨w1, t1, h1, e1, _, p1, q1⟩, ⟨w2, t2, h2, e2, _, p2, q2⟩⟩
  rw [e1, e2] at hb
  have hbytes : w1.bytes = w2.bytes := by simpa using hb
  rw [hbytes, p2] at p1
  have heq := Option.some.inj p1
  have hm : r2.Method = r1.Method := (Prod.mk.inj heq).1
  have hh : h2 = h1 := (Prod.mk.inj (Prod.mk.inj (Prod.mk.inj heq).2).2).1
  rcases hd with hd | hd
  · exact hd hm.symm
  · exact hd (q1.symm.trans (hh ▸ q2))

theorem concat_bodyCalls (req : Request) : concat (bodyCalls req) = bodySegment req := by
  unfold bodyCalls bodySegment
  cases req.Body with
  | none => rfl
  | some body =>
    simp only []
    split
    · simp [concat_append, concat, String.append_assoc]
    · exact concat_copied _

/-! ## The parser on the bytes of the encoder -/

theorem dropWhile_head {p : Char → Bool} (l : List Char) (x : Char)
    (h : (l.dropWhile p).head? = some x) : p x = false := by
  induction l with
  | nil => simp at h
  | cons a l ih =>
    by_cases ha : p a = true
    · rw [List.dropWhile_cons_of_pos ha] at h
      exact ih h
    · rw [List.dropWhile_cons_of_neg ha] at h
      simp only [List.head?_cons, Option.some.injEq] at h
      rw [← h]
      simpa using ha

theorem dropWhile_of_head {p : Char → Bool} (l : List Char)
    (h : ∀ x, l.head? = some x → p x = false) : l.dropWhile p = l := by
  cases l with
  | nil => rfl
  | cons a l =>
    have ha : ¬ p a = true := by
      have := h a rfl
      simp [this]
    exact List.dropWhile_cons_of_neg ha

theorem isOWS_of_not_space {x : Char} (h : isASCIISpace x = false) : isOWS x = false := by
  simp only [isASCIISpace, Bool.or_eq_false_iff, decide_eq_false_iff_not] at h
  simp [isOWS, h.1.1.1, h.1.1.2]

theorem trimOWS_cons_space (l : List Char) : trimOWS (' ' :: l) = trimOWS l := by
  have h : isOWS ' ' = true := by decide
  simp only [trimOWS, List.dropWhile_cons_of_pos h]

theorem trimOWS_cleanValue (v : String) :
    trimOWS (' ' :: (cleanValue v).data) = (cleanValue v).data := by
  rw [trimOWS_cons_space]
  have hr : (cleanValue v).data =
      (((headerNewlineToSpace v).data.dropWhile isASCIISpace).reverse.dropWhile
        isASCIISpace).reverse := rfl
  rw [hr]
  generalize (headerNewlineToSpace v).data = x
  have hp : ∃ t, ((x.dropWhile isASCIISpace).reverse.dropWhile isASCIISpace).reverse ++ t =
      x.dropWhile isASCIISpace := by
    obtain ⟨s, hs⟩ :=
      List.dropWhile_suffix isASCIISpace (l := (x.dropWhile isASCIISpace).reverse)
    refine ⟨s.reverse, ?_⟩
    have h2 := congrArg List.reverse hs
    simpa using h2
  have hhead : ∀ c, (((x.dropWhile isASCIISpace).reverse.dropWhile isASCIISpace).reverse).head?
      = some c → isOWS c = false := by
    intro c hc
    obtain ⟨t, ht⟩ := hp
    have h3 : (x.dropWhile isASCIISpace).head? = some c := by
      rw [← ht]
      cases hq : ((x.dropWhile isASCIISpace).reverse.dropWhile isASCIISpace).reverse with
      | nil => rw [hq] at hc; simp at hc
      | cons a q => rw [hq] at hc; simpa using hc
    exact isOWS_of_not_space (dropWhile_head _ _ h3)
  have hlast : ∀ c, ((x.dropWhile isASCIISpace).reverse.dropWhile isASCIISpace).head?
      = some c → isOWS c = false :=
    fun c hc => isOWS_of_not_space (dropWhile_head _ _ hc)
  unfold trimOWS
  rw [dropWhile_of_head _ hhead, List.reverse_reverse, dropWhile_of_head _ hlast]

theorem digitValue_digitChar (d : Nat) (h : d < 16) : digitValue (Nat.digitChar d) = some d := by
  interval_cases d <;> rfl

theorem digitChar_ne_semicolon (d : Nat) : Nat.digitChar d ≠ ';' := by
  by_cases h : d < 16
  · interval_cases d <;> decide
  · have hs : Nat.digitChar d = '*' := by
      unfold Nat.digitChar
      repeat rw [if_neg (by omega)]
    rw [hs]; decide

theorem toDigitsCore_append (b fuel n : Nat) (ds : List Char) :
    Nat.toDigitsCore b fuel n ds = Nat.toDigitsCore b fuel n [] ++ ds := by
  induction fuel generalizing n ds with
  | zero => simp [Nat.toDigitsCore]
  | succ fuel ih =>
    unfold Nat.toDigitsCore
    simp only []
    split
    · simp
    · rw [ih _ (_ :: ds), ih _ [_]]
      simp

theorem toDigitsCore_all (P : Char → Prop) (hP : ∀ d, P (Nat.digitChar d)) (b fuel n : Nat) :
    ∀ ch ∈ Nat.toDigitsCore b fuel n [], P ch := by
  induction fuel generalizing n with
  | zero => simp [Nat.toDigitsCore]
  | succ fuel ih =>
    unfold Nat.toDigitsCore
    simp only []
    split
    · intro ch hch
      rw [List.mem_singleton.1 hch]
      exact hP _
    · rw [toDigitsCore_append]
      intro ch hch
      rcases List.mem_append.1 hch with h | h
      · exact ih _ ch h
      · rw [List.mem_singleton.1 h]
        exact hP _

theorem parseDigits_append (b : Nat) (xs ys : List Char) (acc : Nat) :
    parseDigits b (xs ++ ys) acc = (parseDigits b xs acc).bind (parseDigits b ys) := by
  induction xs generalizing acc with
  | nil => rfl
  | cons x xs ih =>
    simp only [List.cons_append, parseDigits]
    cases digitValue x with
    | none => rfl
    | some d =>
      simp only []
      split
      · exact ih _
      · rfl

theorem parseDigits_toDigitsCore (b : Nat) (hb : 1 < b) (hb16 : b ≤ 16) (fuel n : Nat)
    (hn : n < fuel) : parseDigits b (Nat.toDigitsCore b fuel n []) 0 = some n := by
  induction fuel generalizing n with
  | zero => omega
  | succ fuel ih =>
    have hmod : n % b < b := Nat.mod_lt _ (by omega)
    have hone : parseDigits b [Nat.digitChar (n % b)] (n / b) = some n := by
      simp only [parseDigits, digitValue_digitChar _ (by omega : n % b < 16), if_pos hmod]
      rw [Nat.mul_comm]
      exact congrArg some (Nat.div_add_mod n b)
    unfold Nat.toDigitsCore
    simp only []
    split
    · rename_i h0
      rw [h0] at hone
      exact hone
    · rename_i h0
      have hlt : n / b < fuel := by
        have hpos : 0 < n := by
          rcases Nat.eq_zero_or_pos n with h | h
          · rw [h] at h0; simp at h0
          · exact h
        have := Nat.div_lt_self hpos hb
        omega
      rw [toDigitsCore_append, parseDigits_append, ih _ hlt]
      exact hone

theorem toDigitsCore_ne_nil (b fuel n : Nat) : Nat.toDigitsCore b (fuel + 1) n [] ≠ [] := by
  unfold Nat.toDigitsCore
  simp only []
  split
  · simp
  · rw [toDigitsCore_append]
    simp

theorem parseNat_fmtHex (n : Nat) : parseNat 16 (fmtHex n).data = some n := by
  have hd : (fmtHex n).data = Nat.toDigitsCore 16 (n + 1) n [] := rfl
  rw [hd]
  unfold parseNat
  rw [if_neg (toDigitsCore_ne_nil 16 n n)]
  exact parseDigits_toDigitsCore 16 (by omega) (by omega) (n + 1) n (by omega)

theorem fmtHex_chars (n : Nat) : ∀ ch ∈ (fmtHex n).data, ch ≠ '\r' ∧ ch ≠ ';' :=
  toDigitsCore_all (fun ch => ch ≠ '\r' ∧ ch ≠ ';')
    (fun d => ⟨digitChar_ne_cr d, digitChar_ne_semicolon d⟩) 16 (n + 1) n

theorem len_cons (c : Char) (cs : List Char) :
    len (String.mk (c :: cs)) = len (String.mk cs) + c.utf8Size := by
  simp [len, String.utf8ByteSize, String.utf8ByteSize.go]

theorem takeBytes_append (d rest : List Char) :
    takeBytes (d ++ rest) (len (String.mk d)) = some (d, rest) := by
  induction d with
  | nil =>
    have h0 : len (String.mk []) = 0 := rfl
    rw [h0]
    cases rest <;> rfl
  | cons c cs ih =>
    have hpos := Char.utf8Size_pos c
    rw [len_cons]
    obtain ⟨m, hm⟩ : ∃ m, len (String.mk cs) + c.utf8Size = m + 1 :=
      ⟨len (String.mk cs) + c.utf8Size - 1, by omega⟩
    rw [hm, List.cons_append]
    unfold takeBytes
    rw [if_pos (by omega)]
    have hsub : m + 1 - c.utf8Size = len (String.mk cs) := by omega
    rw [hsub, ih]

theorem splitLine_append (l more : List Char) (hl : ∀ ch ∈ l, ch ≠ '\r') :
    splitLine (l ++ '\r' :: '\n' :: more) = some (l, more) := by
  induction l with
  | nil => simp [splitLine]
  | cons x l ih =>
    have hx : x ≠ '\r' := hl x (List.mem_cons_self _ _)
    have ih2 := ih (fun ch hch => hl ch (List.mem_cons_of_mem _ hch))
    cases l with
    | nil =>
      simp only [List.cons_append, List.nil_append] at ih2 ⊢
      simp [splitLine, hx]
    | cons y l =>
      simp only [List.cons_append] at ih2 ⊢
      unfold splitLine
      rw [if_neg (fun h => hx h.1), ih2]

theorem decodeChunks_chunk (fuel : Nat) (b : String) (more acc : List Char) (hb : len b > 0) :
    decodeChunks (fuel + 1)
        ((fmtHex (len b)).data ++ '\r' :: '\n' :: (b.data ++ '\r' :: '\n' :: more)) acc =
      decodeChunks fuel more (acc ++ b.data) := by
  obtain ⟨m, hm⟩ : ∃ m, len b = m + 1 := ⟨len b - 1, by omega⟩
  have htw : ((fmtHex (len b)).data.takeWhile fun c => decide (c ≠ ';')) = (fmtHex (len b)).data := by
    rw [List.takeWhile_eq_self_iff]
    intro ch hch
    simpa using (fmtHex_chars _ ch hch).2
  have htake : takeBytes (b.data ++ '\r' :: '\n' :: more) (m + 1) =
      some (b.data, '\r' :: '\n' :: more) := by
    rw [← hm]
    exact takeBytes_append b.data _
  conv_lhs => unfold decodeChunks
  rw [splitLine_append _ _ (fun ch hch => (fmtHex_chars _ ch hch).1)]
  simp only []
  rw [htw, parseNat_fmtHex, hm]
  simp only []
  rw [htake]
  simp

theorem decodeChunks_last (fuel : Nat) (acc : List Char) :
    decodeChunks (fuel + 1) ['0', '\r', '\n', '\r', '\n'] acc = some acc := by
  have h1 : splitLine ['0', '\r', '\n', '\r', '\n'] = some (['0'], ['\r', '\n']) := by decide
  have h2 : parseNat 16 (['0'].takeWhile fun c => decide (c ≠ ';')) = some 0 := by decide
  have h3 : scanLines ['\r', '\n'] [] [] = some ([], []) := by decide
  unfold decodeChunks
  rw [h1]
  simp only []
  rw [h2]
  simp only []
  rw [h3]

theorem decodeChunks_chunks (chunks : List String) (hc : ∀ b ∈ chunks, len b > 0)
    (fuel : Nat) (hf : chunks.length < fuel) (acc : List Char) :
    decodeChunks fuel
        ((chunks.flatMap fun b =>
            (fmtHex (len b)).data ++ '\r' :: '\n' :: (b.data ++ ['\r', '\n']))
          ++ ['0', '\r', '\n', '\r', '\n']) acc =
      some (acc ++ chunks.flatMap String.data) := by
  induction chunks generalizing fuel acc with
  | nil =>
    obtain ⟨f, rfl⟩ : ∃ f, fuel = f + 1 := ⟨fuel - 1, by simp at hf; omega⟩
    simpa using decodeChunks_last f acc
  | cons b bs ih =>
    obtain ⟨f, rfl⟩ : ∃ f, fuel = f + 1 := ⟨fuel - 1, by simp at hf; omega⟩
    have hb := hc b (List.mem_cons_self _ _)
    have hlen : bs.length < f := by simp at hf; omega
    rw [List.flatMap_cons]
    have hshape : ((fmtHex (len b)).data ++ '\r' :: '\n' :: (b.data ++ ['\r', '\n'])) ++
        (bs.flatMap fun b =>
            (fmtHex (len b)).data ++ '\r' :: '\n' :: (b.data ++ ['\r', '\n']))
          ++ ['0', '\r', '\n', '\r', '\n'] =
        (fmtHex (len b)).data ++ '\r' :: '\n' :: (b.data ++ '\r' :: '\n' ::
          ((bs.flatMap fun b =>
            (fmtHex (len b)).data ++ '\r' :: '\n' :: (b.data ++ ['\r', '\n']))
          ++ ['0', '\r', '\n', '\r', '\n'])) := by
      simp
    rw [hshape, decodeChunks_chunk f b _ acc hb,
      ih (fun x hx => hc x (List.mem_cons_of_mem _ hx)) f hlen]
    simp

theorem token_chars {l : List Char} (hl : isToken l = true) :
    ∀ ch ∈ l, ch ≠ ':' ∧ ch ≠ '\r' ∧ ch ≠ ' ' := by
  intro ch hch
  simp only [isToken, Bool.and_eq_true, List.all_eq_true] at hl
  have h := hl.1 ch hch
  refine ⟨?_, ?_, ?_⟩
  · rintro rfl
    exact absurd h (by decide)
  · rintro rfl
    exact absurd h (by decide)
  · rintro rfl
    exact absurd h (by decide)

theorem isToken_eq (k : String) : isToken k.data = ValidHeaderFieldName k := by
  unfold isToken ValidHeaderFieldName
  cases k.data <;> simp

theorem targetChar_ne {ch : Char} (h : isTargetChar ch = true) : ch ≠ ' ' ∧ ch ≠ '\r' := by
  constructor
  · rintro rfl
    exact absurd h (by decide)
  · rintro rfl
    exact absurd h (by decide)

theorem valueChar_ne_cr {ch : Char} (h : isValueChar ch = true) : ch ≠ '\r' := by
  rintro rfl
  exact absurd h (by decide)

theorem trimOWS_subset (l : List Char) : ∀ ch ∈ trimOWS l, ch ∈ l := by
  intro ch hch
  unfold trimOWS at hch
  exact (List.dropWhile_sublist _).subset (List.mem_reverse.1
    ((List.dropWhile_sublist _).subset (List.mem_reverse.1 hch)))

theorem parseField_line (k : String) (val : List Char) (hk : isToken k.data = true)
    (hval : ∀ ch ∈ trimOWS val, isValueChar ch = true) :
    parseField (k.data ++ ':' :: val) = some (k, String.mk (trimOWS val)) := by
  have hall : (trimOWS val).all isValueChar = true := List.all_eq_true.2 hval
  unfold parseField
  rw [splitAtChar_append ':' _ _ (fun ch hch => (token_chars hk ch hch).1)]
  simp only []
  rw [hk, hall]
  rfl

theorem parseFields_cons (l : List Char) (ls : List (List Char)) (f : String × String)
    (fs : List (String × String)) (h1 : parseField l = some f)
    (h2 : parseFields ls = some fs) : parseFields (l :: ls) = some (f :: fs) := by
  unfold parseFields
  rw [h1]
  simp only []
  rw [h2]

theorem parseFields_append (a b : List (List Char)) (fa fb : List (String × String))
    (ha : parseFields a = some fa) (hb : parseFields b = some fb) :
    parseFields (a ++ b) = some (fa ++ fb) := by
  induction a generalizing fa with
  | nil =>
    have : fa = [] := by
      unfold parseFields at ha
      exact (Option.some.inj ha).symm
    rw [this]
    exact hb
  | cons l ls ih =>
    unfold parseFields at ha
    cases h1 : parseField l with
    | none => rw [h1] at ha; simp at ha
    | some f =>
      rw [h1] at ha
      simp only [] at ha
      cases h2 : parseFields ls with
      | none => rw [h2] at ha; simp at ha
      | some fs =>
        rw [h2] at ha
        simp only [Option.some.injEq] at ha
        rw [← ha]
        exact parseFields_cons l _ f _ h1 (ih fs h2)

theorem parseFields_values (k : String) (hk : isToken k.data = true) (vs : List String)
    (hvs : ∀ v ∈ vs, ∀ ch ∈ (cleanValue v).data, isValueChar ch = true) :
    parseFields ((vs.map fun v => k ++ ": " ++ cleanValue v).map String.data) =
      some (vs.map fun v => (k, cleanValue v)) := by
  induction vs with
  | nil => rfl
  | cons v vs ih =>
    simp only [List.map_cons]
    refine parseFields_cons _ _ _ _ ?_ (ih (fun x hx => hvs x (List.mem_cons_of_mem _ hx)))
    have hd : (k ++ ": " ++ cleanValue v).data = k.data ++ ':' :: ' ' :: (cleanValue v).data := by
      simp [String.data_append]
    have hv := hvs v (List.mem_cons_self _ _)
    rw [hd, parseField_line k _ hk (by rw [trimOWS_cleanValue]; exact hv), trimOWS_cleanValue]

theorem parseFields_entries (es : Header)
    (hes : ∀ kv ∈ es, isToken kv.1.data = true ∧
      ∀ v ∈ kv.2, ∀ ch ∈ (cleanValue v).data, isValueChar ch = true) :
    parseFields ((es.flatMap fun kv => kv.2.map fun v => kv.1 ++ ": " ++ cleanValue v).map
        String.data) =
      some (es.flatMap fun kv => kv.2.map fun v => (kv.1, cleanValue v)) := by
  induction es with
  | nil => rfl
  | cons kv es ih =>
    simp only [List.flatMap_cons, List.map_append]
    exact parseFields_append _ _ _ _
      (parseFields_values kv.1 (hes kv (List.mem_cons_self _ _)).1 kv.2
        (hes kv (List.mem_cons_self _ _)).2)
      (ih (fun x hx => hes x (List.mem_cons_of_mem _ hx)))

theorem mem_written_entries {checkNames : Bool} {h : Header} {kv : String × List String}
    (hkv : kv ∈ (sortedKeyValues h reqWriteExcludeHeaderDump).filter
      fun kv => keyWritten checkNames kv.1) :
    kv ∈ h ∧ reqWriteExcludeHeaderDump kv.1 = false ∧ keyWritten checkNames kv.1 = true := by
  have h1 := List.mem_filter.1 hkv
  have h2 : kv ∈ h.filter fun kv => !reqWriteExcludeHeaderDump kv.1 :=
    (List.perm_insertionSort _ _).mem_iff.1 h1.1
  have h3 := List.mem_filter.1 h2
  exact ⟨h3.1, by simpa using h3.2, h1.2⟩

theorem Join_all (P : Char → Prop) (hc : P ',') (xs : List String)
    (h : ∀ e ∈ xs, ∀ ch ∈ e.data, P ch) : ∀ ch ∈ (Join xs ",").data, P ch := by
  induction xs with
  | nil => intro ch hch; simp [Join] at hch
  | cons x xs ih =>
    cases xs with
    | nil => simpa [Join] using h
    | cons y ys =>
      intro ch hch
      simp only [Join, String.data_append, List.mem_append] at hch
      rcases hch with (h1 | h1) | h1
      · exact h x (List.mem_cons_self _ _) ch h1
      · have : ch = ',' := by simpa using h1
        rw [this]
        exact hc
      · exact ih (fun e he => h e (List.mem_cons_of_mem _ he)) ch h1

theorem parseFields_fieldLines (checkNames : Bool) (req : Request)
    (hhost : isAbsolute req.RequestURI = false →
      ∀ ch ∈ (hostValue req).data, isValueChar ch = true)
    (hte : ∀ e ∈ req.TransferEncoding, ∀ ch ∈ e.data, isValueChar ch = true)
    (hkeys : ∀ kv ∈ req.Header, reqWriteExcludeHeaderDump kv.1 = false →
      keyWritten checkNames kv.1 = true → ValidHeaderFieldName kv.1 = true ∧
        ∀ v ∈ kv.2, ∀ ch ∈ (cleanValue v).data, isValueChar ch = true) :
    parseFields ((fieldLines checkNames req).map String.data) =
      some (writtenFields checkNames req) := by
  unfold fieldLines writtenFields passFields
  simp only [List.map_append]
  refine parseFields_append _ _ _ _ (parseFields_append _ _ _ _
    (parseFields_append _ _ _ _ ?_ ?_) ?_) ?_
  · split
    · rename_i hcond
      have habs : isAbsolute req.RequestURI = false := by
        simp only [Bool.and_eq_true, Bool.not_eq_true'] at hcond
        exact hcond.1
      simp only [List.map_cons, List.map_nil]
      refine parseFields_cons _ _ _ _ ?_ rfl
      have hd : ("Host: " ++ hostValue req).data =
          "Host".data ++ ':' :: ' ' :: (hostValue req).data := by
        simp [String.data_append]
      have hval : ∀ ch ∈ trimOWS (' ' :: (hostValue req).data), isValueChar ch = true := by
        intro ch hch
        rw [trimOWS_cons_space] at hch
        exact hhost habs ch (trimOWS_subset _ ch hch)
      rw [hd, parseField_line "Host" _ (by decide) hval, trimOWS_cons_space]
      rfl
    · rfl
  · split
    · rfl
    · simp only [List.map_cons, List.map_nil]
      refine parseFields_cons _ _ _ _ ?_ rfl
      have hd : ("Transfer-Encoding: " ++ Join req.TransferEncoding ",").data =
          "Transfer-Encoding".data ++ ':' :: ' ' :: (Join req.TransferEncoding ",").data := by
        simp [String.data_append]
      have hval : ∀ ch ∈ trimOWS (' ' :: (Join req.TransferEncoding ",").data),
          isValueChar ch = true := by
        intro ch hch
        rw [trimOWS_cons_space] at hch
        exact Join_all (fun c => isValueChar c = true) (by decide) _ hte ch
          (trimOWS_subset _ ch hch)
      rw [hd, parseField_line "Transfer-Encoding" _ (by decide) hval, trimOWS_cons_space]
      rfl
  · split
    · decide
    · rfl
  · refine parseFields_entries _ (fun kv hkv => ?_)
    have hm := mem_written_entries hkv
    have hk := hkeys kv hm.1 hm.2.1 hm.2.2
    exact ⟨by rw [isToken_eq]; exact hk.1, hk.2⟩

theorem framing_transfer_encoding (v11 : Bool) (fields : List (String × String))
    (f : String × String) (hf : f ∈ fields)
    (hn : lowerName f.1 = "transfer-encoding".data) :
    framing v11 fields = Framing.chunked ∨ framing v11 fields = Framing.invalid := by
  have hne : (fields.filter fun f => decide (lowerName f.1 = "transfer-encoding".data)) ≠ [] := by
    intro h0
    have : f ∈ fields.filter fun f => decide (lowerName f.1 = "transfer-encoding".data) :=
      List.mem_filter.2 ⟨hf, by simpa using hn⟩
    rw [h0] at this
    simp at this
  unfold framing
  simp only []
  cases hl : (fields.filter fun f =>
      decide (lowerName f.1 = "transfer-encoding".data)).getLast? with
  | none => exact absurd (List.getLast?_eq_none_iff.1 hl) hne
  | some g =>
    simp only []
    split
    · exact Or.inl rfl
    · exact Or.inr rfl

theorem wireFraming_unchunked (checkNames : Bool) (req : Request)
    (h : wireFraming checkNames req ≠ Framing.chunked)
    (h' : wireFraming checkNames req ≠ Framing.invalid) :
    isChunked req = false := by
  have hte : req.TransferEncoding = [] := by
    by_contra hne
    have hmem : ("Transfer-Encoding", owsTrim (Join req.TransferEncoding ",")) ∈
        writtenFields checkNames req := by
      unfold writtenFields
      rw [if_neg hne]
      simp
    have hname : lowerName "Transfer-Encoding" = "transfer-encoding".data := by decide
    rcases framing_transfer_encoding
      (atLeast11 req.ProtoMajor.toNat req.ProtoMinor.toNat) _ _ hmem hname with h1 | h1
    · exact h h1
    · exact h' h1
  simp [isChunked, hte]

theorem concat_data (xs : List String) : (concat xs).data = xs.flatMap String.data := by
  induction xs with
  | nil => rfl
  | cons x xs ih => simp only [concat, String.data_append, ih, List.flatMap_cons]

theorem chunkCalls_data (reads : List String) :
    (concat (chunkCalls reads)).data =
      (copied reads).flatMap fun b =>
        (fmtHex (len b)).data ++ '\r' :: '\n' :: (b.data ++ ['\r', '\n']) := by
  unfold chunkCalls
  induction copied reads with
  | nil => rfl
  | cons b bs ih =>
    simp only [List.flatMap_cons, concat_append, String.data_append, ih]
    simp [concat, String.data_append]

theorem length_le_flatMap (chunks : List String) (f : String → List Char)
    (hf : ∀ b, f b ≠ []) : chunks.length ≤ (chunks.flatMap f).length := by
  induction chunks with
  | nil => simp
  | cons b bs ih =>
    have h1 : 0 < (f b).length := List.length_pos.2 (hf b)
    simp only [List.flatMap_cons, List.length_cons, List.length_append]
    omega

theorem readBody_bodySegment (checkNames : Bool) (req : Request) (hfr : Framed checkNames req) :
    readBody (wireFraming checkNames req) (bodySegment req).data =
      some (bodyBytes req).data := by
  have hplain : isChunked req = false → bodySegment req = bodyBytes req := by
    intro hc
    unfold bodySegment bodyBytes
    cases req.Body with
    | none => rfl
    | some body => simp [hc]
  rcases hfr with ⟨h1, h2, h3⟩ | h1 | ⟨h1, h2⟩
  · rw [h1]
    cases hb : req.Body with
    | none => exact absurd hb h3
    | some body =>
      have hseg : (bodySegment req).data =
          ((copied body.reads).flatMap fun b =>
            (fmtHex (len b)).data ++ '\r' :: '\n' :: (b.data ++ ['\r', '\n']))
          ++ ['0', '\r', '\n', '\r', '\n'] := by
        unfold bodySegment
        rw [hb]
        simp only [h2, if_true, String.data_append, chunkCalls_data]
        simp
      have hbytes : (bodyBytes req).data = (copied body.reads).flatMap String.data := by
        unfold bodyBytes
        rw [hb]
        simp only []
        rw [← concat_copied, concat_data]
      have hpos : ∀ b ∈ copied body.reads, len b > 0 := by
        intro b hb'
        simpa using (List.mem_filter.1 hb').2
      have hlen := length_le_flatMap (copied body.reads)
        (fun b => (fmtHex (len b)).data ++ '\r' :: '\n' :: (b.data ++ ['\r', '\n']))
        (fun b => by simp)
      rw [hseg, hbytes]
      show decodeChunks _ _ [] = _
      rw [decodeChunks_chunks _ hpos _ (by simp only [List.length_append]; omega)]
      rfl
  · have hc := wireFraming_unchunked checkNames req (by rw [h1]; simp) (by rw [h1]; simp)
    rw [h1, hplain hc]
    have ht := takeBytes_append (bodyBytes req).data []
    rw [List.append_nil] at ht
    show (match takeBytes (bodyBytes req).data (len (bodyBytes req)) with
      | some (d, _) => some d
      | none => none) = _
    have hmk : len (String.mk (bodyBytes req).data) = len (bodyBytes req) := rfl
    rw [hmk] at ht
    rw [ht]
  · rw [h1, h2]
    rfl

theorem fmtInt_digit (i : Int) (h0 : 0 ≤ i) (h9 : i ≤ 9) :
    (fmtInt i).data = [Nat.digitChar i.toNat] ∧ i.toNat < 10 := by
  obtain ⟨n, rfl⟩ := Int.eq_ofNat_of_zero_le h0
  have hn : n ≤ 9 := by omega
  interval_cases n <;> exact ⟨rfl, by decide⟩

theorem parseVersion_versionOnLine (req : Request)
    (hmaj : 0 ≤ req.ProtoMajor ∧ req.ProtoMajor ≤ 9)
    (hmin : 0 ≤ req.ProtoMinor ∧ req.ProtoMinor ≤ 9) :
    parseVersion (versionOnLine req).data = some (req.ProtoMajor.toNat, req.ProtoMinor.toNat) := by
  have h1 := fmtInt_digit _ hmaj.1 hmaj.2
  have h2 := fmtInt_digit _ hmin.1 hmin.2
  have hd : (versionOnLine req).data =
      ['H', 'T', 'T', 'P', '/', Nat.digitChar req.ProtoMajor.toNat, '.',
        Nat.digitChar req.ProtoMinor.toNat] := by
    simp only [versionOnLine, String.data_append, h1.1, h2.1]
    rfl
  rw [hd]
  unfold parseVersion
  simp only []
  rw [if_pos ⟨trivial, trivial⟩, digitValue_digitChar _ (by omega),
    digitValue_digitChar _ (by omega)]
  simp only []
  rw [if_pos ⟨h1.2, h2.2⟩]

theorem requestURI_ne_empty (u : URL) : u.RequestURI.data ≠ [] := by
  have happ : ∀ a b : String, a.data ≠ [] → (a ++ b).data ≠ [] := by
    intro a b ha
    rw [String.data_append]
    simp [ha]
  have hstr : ∀ a : String, a ≠ "" → a.data ≠ [] := by
    intro a ha h
    exact ha (String.ext h)
  unfold URL.RequestURI
  simp only []
  by_cases h1 : u.Opaque = ""
  · by_cases h2 : u.EscapedPath = ""
    · simp only [h1, h2, if_true]
      split
      · exact happ _ _ (happ _ _ (by decide))
      · decide
    · simp only [h1, h2, if_true, if_false]
      split
      · exact happ _ _ (happ _ _ (hstr _ h2))
      · exact hstr _ h2
  · simp only [h1, if_false]
    have hres : (if HasPrefix u.Opaque "//" = true then u.Scheme ++ ":" ++ u.Opaque
        else u.Opaque).data ≠ [] := by
      split
      · rw [String.data_append]
        simp [hstr _ h1]
      · exact hstr _ h1
    split
    · exact happ _ _ (happ _ _ hres)
    · exact hres

theorem isTarget_ne_empty {req : Request} {t : String} (ht : IsTarget req t) : t.data ≠ [] := by
  rcases ht with ⟨h1, rfl⟩ | ⟨_, u, _, rfl⟩
  · intro h
    exact h1 (String.ext h)
  · exact requestURI_ne_empty u

theorem parseRequest_encoding (checkNames : Bool) (req : Request) (t : String)
    (ht : t.data ≠ [])
    (hm : isToken (methodOnLine req).data = true)
    (htg : ∀ ch ∈ t.data, isTargetChar ch = true)
    (hmaj : 0 ≤ req.ProtoMajor ∧ req.ProtoMajor ≤ 9)
    (hmin : 0 ≤ req.ProtoMinor ∧ req.ProtoMinor ≤ 9)
    (hhost : isAbsolute req.RequestURI = false →
      ∀ ch ∈ (hostValue req).data, isValueChar ch = true)
    (hte : ∀ e ∈ req.TransferEncoding, ∀ ch ∈ e.data, isValueChar ch = true)
    (hkeys : ∀ kv ∈ req.Header, reqWriteExcludeHeaderDump kv.1 = false →
      keyWritten checkNames kv.1 = true → ValidHeaderFieldName kv.1 = true ∧
        ∀ v ∈ kv.2, ∀ ch ∈ (cleanValue v).data, isValueChar ch = true)
    (hfr : Framed checkNames req) :
    parseRequest (headerSection checkNames req t ++ "\r\n" ++ bodySegment req) =
      some ⟨methodOnLine req, t, versionOnLine req, writtenFields checkNames req,
        bodyBytes req⟩ := by
  have hv : ∀ ch ∈ (versionOnLine req).data, ch ≠ '\r' := by
    intro ch hch
    simp only [versionOnLine, String.data_append, List.mem_append] at hch
    rcases hch with ((h1 | h1) | h1) | h1
    · exact literal_ne_cr (s := "HTTP/") (by decide) h1
    · exact fmtInt_ne_cr _ ch h1
    · exact literal_ne_cr (s := ".") (by decide) h1
    · exact fmtInt_ne_cr _ ch h1
  have hfirst : (methodOnLine req ++ " " ++ t ++ " " ++ versionOnLine req).data =
      (methodOnLine req).data ++ ' ' :: (t.data ++ ' ' :: (versionOnLine req).data) := by
    simp [String.data_append]
  have hdata : (headerSection checkNames req t ++ "\r\n" ++ bodySegment req).data =
      (((methodOnLine req ++ " " ++ t ++ " " ++ versionOnLine req).data
        :: (fieldLines checkNames req).map String.data).flatMap fun l => l ++ ['\r', '\n'])
        ++ '\r' :: '\n' :: (bodySegment req).data := by
    rw [headerSection_eq_lines, String.data_append, String.data_append, concat_lines_data,
      List.map_cons, List.append_assoc]
    rfl
  have hlines : ∀ l ∈ ((methodOnLine req ++ " " ++ t ++ " " ++ versionOnLine req).data
      :: (fieldLines checkNames req).map String.data), l ≠ [] ∧ ∀ ch ∈ l, ch ≠ '\r' := by
    intro l hl
    rcases List.mem_cons.1 hl with h1 | h1
    · subst h1
      rw [hfirst]
      refine ⟨by simp, ?_⟩
      intro ch hch
      simp only [List.mem_append, List.mem_cons] at hch
      rcases hch with h2 | h2 | h2 | h2 | h2
      · exact (token_chars hm ch h2).2.1
      · rw [h2]; decide
      · exact (targetChar_ne (htg ch h2)).2
      · rw [h2]; decide
      · exact hv ch h2
    · exact fieldLines_ok checkNames req (fun ha ch hch => valueChar_ne_cr (hhost ha ch hch))
        (fun e he ch hch => valueChar_ne_cr (hte e he ch hch))
        (fun kv h1 h2 h3 => fun ch hch =>
          (token_chars (by rw [isToken_eq]; exact (hkeys kv h1 h2 h3).1) ch hch).2.1) l h1
  have htarget : (t.data.all isTargetChar && !t.data.isEmpty) = true := by
    have h1 : t.data.all isTargetChar = true := List.all_eq_true.2 htg
    have h2 : t.data.isEmpty = false := by
      cases hd : t.data with
      | nil => exact absurd hd ht
      | cons a l => rfl
    rw [h1, h2]
    rfl
  unfold parseRequest
  rw [hdata, scanLines_lines _ _ [] hlines]
  simp only [List.nil_append]
  rw [hfirst, splitAtChar_append ' ' _ _ (fun ch hch => (token_chars hm ch hch).2.2)]
  simp only []
  rw [splitAtChar_append ' ' _ _ (fun ch hch => (targetChar_ne (htg ch hch)).1)]
  simp only []
  rw [hm, htarget]
  simp only [Bool.and_self, if_true]
  rw [parseVersion_versionOnLine req hmaj hmin]
  simp only []
  rw [parseFields_fieldLines checkNames req hhost hte hkeys]
  simp only []
  have hb := readBody_bodySegment checkNames req hfr
  unfold wireFraming at hb
  rw [hb]

theorem writtenFields_filter (checkNames : Bool) (req : Request) :
    (writtenFields checkNames req).filter (fun f => !reqWriteExcludeHeaderDump f.1) =
      (if req.Close then [("Connection", "close")] else []) ++
        passFields checkNames req.Header := by
  have hpass : (passFields checkNames req.Header).filter
      (fun f => !reqWriteExcludeHeaderDump f.1) = passFields checkNames req.Header := by
    rw [List.filter_eq_self]
    intro f hf
    simp only [passFields, List.mem_flatMap, List.mem_map] at hf
    obtain ⟨kv, hkv, v, _, rfl⟩ := hf
    simp [(mem_written_entries hkv).2.1]
  unfold writtenFields
  simp only [List.filter_append, hpass]
  have h1 : (if !isAbsolute req.RequestURI && decide (hostValue req ≠ "") then
      [("Host", owsTrim (hostValue req))] else []).filter
        (fun f => !reqWriteExcludeHeaderDump f.1) = [] := by
    split
    · rfl
    · rfl
  have h2 : (if req.TransferEncoding = [] then []
      else [("Transfer-Encoding", owsTrim (Join req.TransferEncoding ","))]).filter
        (fun f => !reqWriteExcludeHeaderDump f.1) = [] := by
    split
    · rfl
    · rfl
  have h3 : (if req.Close then [("Connection", "close")] else []).filter
      (fun f : String × String => !reqWriteExcludeHeaderDump f.1) =
        (if req.Close then [("Connection", "close")] else []) := by
    split
    · rfl
    · rfl
  rw [h1, h2, h3]
  rfl

/-- The framing hypothesis holds in each of its three forms: a body written in
chunks under `Transfer-Encoding: chunked`, a body written as it is with a stored
`Content-Length` equal to its length, and a request without a body; in the last
two the parser gives back the body as well. -/
theorem Framed_examples :
    Framed false uploadRequest ∧
    Framed false (plainUpload [("Content-Length", ["5"])]) ∧
    Framed false (headerRequest [("X-Test", ["a"])]) ∧
    readBack false (plainUpload [("Content-Length", ["5"])]) =
      some ⟨"POST", "/upload", "HTTP/1.1",
        [("Host", "example.com"), ("Content-Length", "5")], "hello"⟩ ∧
    readBack false (headerRequest [("X-Test", ["a"])]) =
      some ⟨"GET", "/", "HTTP/1.1", [("Host", "example.com"), ("X-Test", "a")], ""⟩ := by
  refine ⟨Or.inl (by decide), Or.inr (Or.inl (by decide)), Or.inr (Or.inr (by decide)),
    by decide, by decide⟩

/-- **C18, as stated, fails.** Whatever the parser, it cannot give back the
stored request for both members of each of these pairs, because `DumpRequestTo`
writes the same bytes for both: the Close flag and a stored `Connection: close`
header; the stored values `a\nb` and `a b`; the empty method and `GET`; a space
inside the target and inside the method; a CRLF inside the host value and a
stored header.  Each request of the first pair alone is given back by some
parser.  Two more pairs with the same bytes: a CRLF inside a transfer-encoding
entry and a stored header; the stored key `A: b` with value `c` and the stored
key `A` with value `b: c`.  With an undefined target (empty `RequestURI`, nil
`URL`) the encoder faults and there is nothing to parse.  The parser
`parseRequest` refuses the bytes written for: a method that is not a token; a
control character in the target; the protocol version 10.1; a bare CR or a bare
LF in the host value; a NUL in a stored value; a stored key with a space; a nil
body under the transfer-encoding list `chunked`; a body under the lists
`chunked`, `gzip` and `gzip`, `chunked`; a body written as it is under a stored
`transfer-encoding: chunked` header; a chunked body under the protocol version
1.0.  It reads an empty body when `hello` is written without a `Content-Length`
header and `hel` when the stored `Content-Length` is 3. -/
theorem C18_counterexample :
    (¬ ∃ parse, RoundTrips parse false { headerRequest [] with Close := true } ∧
      RoundTrips parse false (headerRequest [("Connection", ["close"])])) ∧
    (¬ ∃ parse, RoundTrips parse false (headerRequest [("X-Note", ["a\nb"])]) ∧
      RoundTrips parse false (headerRequest [("X-Note", ["a b"])])) ∧
    (¬ ∃ parse, RoundTrips parse false { headerRequest [] with Method := "" } ∧
      RoundTrips parse false (headerRequest [])) ∧
    (¬ ∃ parse, RoundTrips parse false (nilURLRequest "/a b" "example.com") ∧
      RoundTrips parse false { nilURLRequest "b" "example.com" with Method := "GET /a" }) ∧
    (¬ ∃ parse, RoundTrips parse false (nilURLRequest "/" "example.com\r\nX-A: 1") ∧
      RoundTrips parse false
        { nilURLRequest "/" "example.com" with Header := [("X-A", ["1"])] }) ∧
    (∃ parse, RoundTrips parse false { headerRequest [] with Close := true }) ∧
    (∃ parse, RoundTrips parse false (headerRequest [("Connection", ["close"])])) ∧
    (¬ ∃ parse,
      RoundTrips parse false
        { headerRequest [] with TransferEncoding := ["chunked\r\nX-A: 1"] } ∧
      RoundTrips parse false
        { headerRequest [("X-A", ["1"])] with TransferEncoding := ["chunked"] }) ∧
    (¬ ∃ parse, RoundTrips parse false (headerRequest [("A: b", ["c"])]) ∧
      RoundTrips parse false (headerRequest [("A", ["b: c"])])) ∧
    DumpRequestTo false Writer.sink (nilURLRequest "" "example.com") = none ∧
    readBack false { headerRequest [] with Method := "G(T" } = none ∧
    readBack false (nilURLRequest "/a\rb" "example.com") = none ∧
    readBack false { headerRequest [] with ProtoMajor := 10 } = none ∧
    readBack false (nilURLRequest "/" "exa\rmple.com") = none ∧
    readBack false (nilURLRequest "/" "example.com\nX-A: 1") = none ∧
    readBack false (headerRequest [("X-A", ["a\x00b"])]) = none ∧
    readBack false (headerRequest [("A B", ["c"])]) = none ∧
    readBack false { headerRequest [] with TransferEncoding := ["chunked"] } = none ∧
    readBack false (postRequest ["chunked", "gzip"] ⟨["hello"], none⟩) = none ∧
    readBack false (postRequest ["gzip", "chunked"] ⟨["hello"], none⟩) = none ∧
    readBack false (plainUpload [("transfer-encoding", ["chunked"])]) = none ∧
    readBack false { postRequest ["chunked"] ⟨["hello"], none⟩ with ProtoMinor := 0 } = none ∧
    (bodyBytes (plainUpload []) = "hello" ∧
      (readBack false (plainUpload [])).map (·.body) = some "") ∧
    (bodyBytes (plainUpload [("Content-Length", ["3"])]) = "hello" ∧
      (readBack false (plainUpload [("Content-Length", ["3"])])).map (·.body) = some "hel") := by
  refine ⟨?_, ?_, ?_, ?_, ?_, ?_, ?_, ?_, ?_, rfl, by decide, by decide, by decide,
    by decide, by decide, by decide, by decide, by decide, by decide, by decide, by decide,
    by decide, by decide, by decide⟩
  · exact no_round_trip_of_collision false _ _ (by decide) (Or.inr (by decide))
  · exact no_round_trip_of_collision false _ _ (by decide) (Or.inr (by decide))
  · exact no_round_trip_of_collision false _ _ (by decide) (Or.inl (by decide))
  · exact no_round_trip_of_collision false _ _ (by decide) (Or.inl (by decide))
  · exact no_round_trip_of_collision false _ _ (by decide) (Or.inr (by decide))
  · exact ⟨fun _ => some ("GET", "/", [], ""), _, "/", [], rfl, Or.inl ⟨by decide, rfl⟩, rfl,
      List.Perm.refl _⟩
  · exact ⟨fun _ => some ("GET", "/", [("Connection", ["close"])], ""), _, "/",
      [("Connection", ["close"])], rfl, Or.inl ⟨by decide, rfl⟩, rfl, List.Perm.refl _⟩
  · exact no_round_trip_of_collision false _ _ (by decide) (Or.inr (by decide))
  · exact no_round_trip_of_collision false _ _ (by decide) (Or.inr (by decide))

/-- **C18, amended.** On an accepting writer, for every request whose target `t`
is defined and holds no control character and no space, whose method (`GET` for
an empty one) is a token, whose protocol version numbers are single digits,
whose host value (when the Host line is written), transfer-encoding entries and
written header values hold no control character but the tab, whose written
header keys are valid field names, and whose header fields on the wire frame the
body as it was written (`Framed`): the HTTP/1.1 parser `parseRequest` accepts
the written bytes and returns the method on the wire, the target `t`, the
version, the header fields in order as name and value (Host, Transfer-Encoding,
`Connection: close` when Close is set, then the stored headers outside the
excluded set in ascending key order with cleaned values), and the body bytes
themselves, decoded from the chunks in chunked mode.  Without the fields named
`Host`, `Transfer-Encoding` and `Trailer`, the parsed header fields are
`Connection: close` when Close is set followed by the fields of the generic
header pass. -/
theorem C18_read_back (checkNames : Bool) (w : Writer) (hw : w.Accepting) (req : Request)
    (t : String) (ht : IsTarget req t)
    (hm : isToken (if req.Method = "" then "GET" else req.Method).data = true)
    (htg : ∀ ch ∈ t.data, isTargetChar ch = true)
    (hmaj : 0 ≤ req.ProtoMajor ∧ req.ProtoMajor ≤ 9)
    (hmin : 0 ≤ req.ProtoMinor ∧ req.ProtoMinor ≤ 9)
    (hhost : isAbsolute req.RequestURI = false →
      ∀ ch ∈ (hostValue req).data, isValueChar ch = true)
    (hte : ∀ e ∈ req.TransferEncoding, ∀ ch ∈ e.data, isValueChar ch = true)
    (hkeys : ∀ kv ∈ req.Header, reqWriteExcludeHeaderDump kv.1 = false →
      keyWritten checkNames kv.1 = true → ValidHeaderFieldName kv.1 = true ∧
        ∀ v ∈ kv.2, ∀ ch ∈ (cleanValue v).data, isValueChar ch = true)
    (hfr : Framed checkNames req) :
    ∃ (w' : Writer) (enc : String) (p : ParsedRequest),
      DumpRequestTo checkNames w req = some (w', bodyErr req) ∧
      w'.bytes = w.bytes ++ enc ∧
      parseRequest enc = some p ∧
      p.method = (if req.Method = "" then "GET" else req.Method) ∧
      p.target = t ∧
      p.version = "HTTP/" ++ fmtInt req.ProtoMajor ++ "." ++ fmtInt req.ProtoMinor ∧
      p.headers = writtenFields checkNames req ∧
      p.headers.filter (fun f => !reqWriteExcludeHeaderDump f.1) =
        (if req.Close then [("Connection", "close")] else []) ++
          passFields checkNames req.Header ∧
      p.body = bodyBytes req := by
  obtain ⟨w', h1, _, h3⟩ := DumpRequestTo_bytes checkNames hw req t ht
  refine ⟨w', headerSection checkNames req t ++ "\r\n" ++ bodySegment req, _, h1, ?_,
    parseRequest_encoding checkNames req t (isTarget_ne_empty ht) hm htg hmaj hmin hhost hte
      hkeys hfr,
    rfl, rfl, rfl, rfl, writtenFields_filter checkNames req, rfl⟩
  rw [h3, concat_bodyCalls]
  simp only [String.append_assoc]

/-- Witness for C18: the chunked upload with Close set; the parser returns the
body `hello` and, outside the excluded names, the fields `Connection: close`,
`Accept: */*` and `X-Test: a b`. -/
theorem C18_read_back_witness :
    Writer.sink.Accepting ∧
    IsTarget uploadRequest "/upload" ∧
    isToken (if uploadRequest.Method = "" then "GET" else uploadRequest.Method).data = true ∧
    (∀ ch ∈ "/upload".data, isTargetChar ch = true) ∧
    (0 ≤ uploadRequest.ProtoMajor ∧ uploadRequest.ProtoMajor ≤ 9) ∧
    (0 ≤ uploadRequest.ProtoMinor ∧ uploadRequest.ProtoMinor ≤ 9) ∧
    (isAbsolute uploadRequest.RequestURI = false →
      ∀ ch ∈ (hostValue uploadRequest).data, isValueChar ch = true) ∧
    (∀ e ∈ uploadRequest.TransferEncoding, ∀ ch ∈ e.data, isValueChar ch = true) ∧
    (∀ kv ∈ uploadRequest.Header, reqWriteExcludeHeaderDump kv.1 = false →
      keyWritten false kv.1 = true → ValidHeaderFieldName kv.1 = true ∧
        ∀ v ∈ kv.2, ∀ ch ∈ (cleanValue v).data, isValueChar ch = true) ∧
    Framed false uploadRequest ∧
    (passFields false uploadRequest.Header = [("Accept", "*/*"), ("X-Test", "a b")] ∧
      bodyBytes uploadRequest = "hello") ∧
    ∃ (w' : Writer) (enc : String) (p : ParsedRequest),
      DumpRequestTo false Writer.sink uploadRequest = some (w', bodyErr uploadRequest) ∧
      w'.bytes = Writer.sink.bytes ++ enc ∧
      parseRequest enc = some p ∧
      p.method = (if uploadRequest.Method = "" then "GET" else uploadRequest.Method) ∧
      p.target = "/upload" ∧
      p.version = "HTTP/" ++ fmtInt uploadRequest.ProtoMajor ++ "." ++
        fmtInt uploadRequest.ProtoMinor ∧
      p.headers = writtenFields false uploadRequest ∧
      p.headers.filter (fun f => !reqWriteExcludeHeaderDump f.1) =
        (if uploadRequest.Close then [("Connection", "close")] else []) ++
          passFields false uploadRequest.Header ∧
      p.body = bodyBytes uploadRequest :=
  ⟨fun _ _ => rfl, Or.inl ⟨by decide, rfl⟩, by decide, by decide, by decide, by decide,
    by decide, by decide, by decide, Or.inl (by decide), by decide,
    C18_read_back false Writer.sink (fun _ _ => rfl) uploadRequest "/upload"
      (Or.inl ⟨by decide, rfl⟩) (by decide) (by decide) (by decide) (by decide) (by decide)
      (by decide) (by decide) (Or.inl (by decide))⟩

end Protocol
